import Mathlib

/-!
# BJLConverter — a shallow embedding of the browser BJL codec

This file embeds the `BJLConverter` browser bundle (BinaryReader, BinaryWriter,
CompressedStreams, TYPE_CODES and the BJLConverter class) in Lean 4 and proves
the testable properties stated in the specification.

Modelling conventions, used consistently below:

* A byte buffer is a `List Nat`; in a real `Uint8Array` every entry is < 256.
  Theorems that need that fact carry it as a hypothesis.
* A JavaScript string is identified with its UTF-8 byte sequence
  (`JStr := List Nat`): `TextEncoder.encode` and `TextDecoder.decode` become
  the identity.  For ASCII data — all data the claims touch — `s.length` in
  JavaScript equals the byte length, so `_writeBinaryString`'s
  "length = JS string length" convention is byte length here (the spec flags
  the non-ASCII case as an open question; no claim depends on it).
* JavaScript numbers read by `getInt32`/`getInt8`/`getInt16` are `Int`s with
  the exact two's-complement conversions.  A float32 is modelled by its raw
  32-bit pattern (`getFloat32`/`setFloat32` transport bits); JS falsiness of a
  float (`0`, `-0`, `NaN`) becomes a predicate on the bits.
* The reader offset is an `Int`: `readBytes` uses `Uint8Array.slice`, which
  clamps instead of failing, and then advances `offset` by the *requested*
  length, so a negative length field moves the cursor backwards.  `DataView`
  accessors throw a `RangeError` out of bounds, which becomes an explicit
  `outOfBounds` error.
* A decoded map is a JS object: duplicate keys collapse (assignment overwrites
  the value at the key's first position), and an assignment to the key
  `"__proto__"` creates no own property.  The `in` operator used by the
  string-cache builders sees `Object.prototype` members (`"toString"`, …),
  while `_writeCachedString` uses `hasOwnProperty`; both are modelled exactly.
  JS's reordering of integer-like property keys ("array indices") is *not*
  modelled; theorems about whole documents exclude such keys via `properKey`.
* `cache[index]` with an out-of-range index yields `undefined` in JS, which
  then propagates (as the key `"undefined"`, or as a value that makes a later
  encode throw).  The embedding rejects such a reference with an explicit
  `badCacheRef` error instead; whole-document theorems are stated within the
  in-range fragment.
* The two `while (true)` loops (`_readMap`, `_readBinaryString`) take a fuel
  parameter; exhaustion is the explicit error `fuelOut` (in JS such runs
  either throw out-of-bounds or do not terminate).  The top-level decoder
  passes `bytes.length + 1`, which the round-trip theorems prove sufficient.
* `pako` is an external library, not repository code.  `gzipC`/`ungzipC` are
  modelled from the spec: a deterministic, injective compressor whose
  decompressor inverts it and fails on data that is not its output.
-/

namespace BJL

/-- A JavaScript string, identified with its UTF-8 byte sequence. -/
abbrev JStr := List Nat

/-- Bytes of an ASCII string literal (code point = byte). -/
def strBytes (s : String) : JStr := s.data.map Char.toNat

/-- JS `ToInt32` (the `| 0` coercion and the value of `getInt32`). -/
def toInt32 (n : Int) : Int :=
  if n % 4294967296 < 2147483648 then n % 4294967296 else n % 4294967296 - 4294967296

/-- JS `getInt16` value of a little-endian byte pair. -/
def toInt16 (u : Nat) : Int :=
  if u % 65536 < 32768 then ((u % 65536 : Nat) : Int) else ((u % 65536 : Nat) : Int) - 65536

/-- JS `getInt8` value of a byte. -/
def toInt8 (b : Nat) : Int :=
  if b % 256 < 128 then ((b % 256 : Nat) : Int) else ((b % 256 : Nat) : Int) - 256

/-- The unsigned little-endian value of four bytes. -/
def fromLE4 (b0 b1 b2 b3 : Nat) : Nat :=
  b0 + 256 * b1 + 65536 * b2 + 16777216 * b3

/-- The four little-endian bytes of an `int32` written by `setInt32`
(`v` is first wrapped by `ToInt32`). -/
def int4 (v : Int) : List Nat :=
  let u := (v % 4294967296).toNat
  [u % 256, u / 256 % 256, u / 65536 % 256, u / 16777216 % 256]

/-- Index normalisation of `TypedArray.prototype.slice`: negative indices
count from the end, and everything is clamped into `[0, len]`. -/
def normIdx (len : Nat) (i : Int) : Nat :=
  if i < 0 then (max ((len : Int) + i) 0).toNat else min i.toNat len

/-- `buf.slice(s, e)` — the clamped, copying slice used by `readBytes`. -/
def jsSlice (buf : List Nat) (s e : Int) : List Nat :=
  (buf.take (normIdx buf.length e)).drop (normIdx buf.length s)

/-- IEEE-754 single: the bit pattern is a NaN. -/
def isNaN32 (bits : Nat) : Bool :=
  (bits % 4294967296) / 8388608 % 256 = 255 && (bits % 8388608) ≠ 0

/-- JS falsiness of the number denoted by a float32 bit pattern
(`+0`, `-0` and `NaN` are falsy). -/
def isFalsyF32 (bits : Nat) : Bool :=
  bits % 4294967296 = 0 || bits % 4294967296 = 2147483648 || isNaN32 bits

/-- The bit pattern of `1.0` as a float32 (what `writeFloat(1)` stores). -/
def float1Bits : Nat := 1065353216

/-- The own- and inherited-property names of a fresh `{}` object: the
`Object.prototype` members seen by the `in` operator (plus `__proto__`). -/
def objProtoKeys : List JStr :=
  [strBytes "constructor", strBytes "hasOwnProperty", strBytes "isPrototypeOf",
   strBytes "propertyIsEnumerable", strBytes "toLocaleString", strBytes "toString",
   strBytes "valueOf", strBytes "__proto__", strBytes "__defineGetter__",
   strBytes "__defineSetter__", strBytes "__lookupGetter__", strBytes "__lookupSetter__"]

/-- The byte sequence of `"__proto__"`. -/
def protoKey : JStr := strBytes "__proto__"

/-- `key in obj` for a plain `{}`-based string-index object: an own key or an
`Object.prototype` member. -/
def jsIn (own : List JStr) (s : JStr) : Bool :=
  own.contains s || objProtoKeys.contains s

/-- A canonical array-index string would be re-ordered among a JS object's
keys; whole-document theorems exclude such keys (see the header comment). -/
def isArrayIndexStr (s : JStr) : Bool :=
  s ≠ [] && s.all (fun b => 48 ≤ b && b ≤ 57) && (s ≠ [48] → s.head? ≠ some 48) &&
    s.length ≤ 10

/-- A property key whose JS object behaviour is plain insertion-ordered
storage: not an `Object.prototype` member and not an array index. -/
def properKey (s : JStr) : Bool :=
  !(objProtoKeys.contains s) && !(isArrayIndexStr s)

/-- Errors surfaced by the codec (JS exceptions). -/
inductive Err where
  /-- A `DataView` accessor read past the buffer (JS `RangeError`). -/
  | outOfBounds : Err
  /-- `throw new Error("Unsupported BJL version")`. -/
  | unsupportedVersion : Err
  /-- `throw new Error("String not in cache: …")`. -/
  | cacheMiss : Err
  /-- An out-of-range string-cache index (JS would yield `undefined`). -/
  | badCacheRef : Err
  /-- `new Uint8Array(len)` with a fractional length (JS `RangeError`). -/
  | invalidArrayLength : Err
  /-- Loop fuel exhausted (JS: non-termination or a later exception). -/
  | fuelOut : Err
  deriving DecidableEq, Repr

/-! ## Binary Reader

The reader is a buffer plus a cursor.  Each operation takes the buffer and the
current offset and returns the value and the new offset, or an error. -/

/-- `readByte` — `this.view.getUint8(this.offset++)`. -/
def readByte (buf : List Nat) (off : Int) : Except Err (Nat × Int) :=
  if 0 ≤ off ∧ off + 1 ≤ (buf.length : Int) then
    .ok (buf.getD off.toNat 0, off + 1)
  else .error .outOfBounds

/-- `readSignedByte` — `this.view.getInt8(this.offset++)`. -/
def readSignedByte (buf : List Nat) (off : Int) : Except Err (Int × Int) :=
  if 0 ≤ off ∧ off + 1 ≤ (buf.length : Int) then
    .ok (toInt8 (buf.getD off.toNat 0), off + 1)
  else .error .outOfBounds

/-- `readInt` — `getInt32(offset, true)`, advancing by 4. -/
def readInt (buf : List Nat) (off : Int) : Except Err (Int × Int) :=
  if 0 ≤ off ∧ off + 4 ≤ (buf.length : Int) then
    .ok (toInt32 (fromLE4 (buf.getD off.toNat 0) (buf.getD (off.toNat + 1) 0)
      (buf.getD (off.toNat + 2) 0) (buf.getD (off.toNat + 3) 0)), off + 4)
  else .error .outOfBounds

/-- `readFloat` — `getFloat32(offset, true)`, advancing by 4.  The value is
the raw little-endian bit pattern (see the header comment). -/
def readFloat (buf : List Nat) (off : Int) : Except Err (Nat × Int) :=
  if 0 ≤ off ∧ off + 4 ≤ (buf.length : Int) then
    .ok (fromLE4 (buf.getD off.toNat 0) (buf.getD (off.toNat + 1) 0)
      (buf.getD (off.toNat + 2) 0) (buf.getD (off.toNat + 3) 0), off + 4)
  else .error .outOfBounds

/-- `readBytes(len)` — `buffer.slice(offset, offset + len)`, then
`offset += len`.  `slice` clamps, so this never fails; the cursor moves by the
*requested* length even past the end (or backwards, for negative `len`). -/
def readBytes (buf : List Nat) (off : Int) (len : Int) : List Nat × Int :=
  (jsSlice buf off (off + len), off + len)

/-! ## Binary Writer

The writer auto-grows, so capacity never fails; the model is just the list of
bytes written so far (`getBuffer()`); `offset` is its length. -/

/-- `writeByte` — `setUint8(offset++, v & 0xff)`. -/
def writeByte (out : List Nat) (v : Nat) : List Nat := out ++ [v % 256]

/-- `writeInt` — `setInt32(offset, v | 0, true)`, advancing by 4. -/
def writeInt (out : List Nat) (v : Int) : List Nat := out ++ int4 v

/-- `writeFloat` — stores a float32; the model stores its bit pattern. -/
def writeFloat (out : List Nat) (bits : Nat) : List Nat := out ++ int4 (bits : Int)

/-- `writeBytes` — raw copy. -/
def writeBytes (out : List Nat) (bs : List Nat) : List Nat := out ++ bs

/-- `updateInt(offset, v)` — backpatch 4 bytes at a recorded offset. -/
def updateInt (out : List Nat) (pos : Nat) (v : Int) : List Nat :=
  out.take pos ++ int4 v ++ out.drop (pos + 4)

/-! ## Compression

`pako` is an external dependency.  Modelled from the spec: the Compression
Adapter is a deterministic pair `compress`/`decompress` with pinned parameters
(so equal inputs give byte-identical outputs), `decompress ∘ compress = id`,
and decompression fails on data that is not a compressed stream. -/

/-- Modelled from the spec: `pako.gzip(bytes, { level: 9, mtime: 0 })`. -/
def gzipC (b : List Nat) : List Nat := 31 :: 139 :: b

/-- Modelled from the spec: `pako.ungzip`; fails (`none`) on a malformed
stream. -/
def ungzipC (b : List Nat) : Option (List Nat) :=
  match b with
  | 31 :: 139 :: rest => some rest
  | _ => none

/-! ## TYPE_CODES -/

def CINT : Int := 1
def CSTRING : Int := 2
def CMAP : Int := 3
def ENDOFMAP : Int := 4
def BOOL : Int := 5
def CCOLOR : Int := 6
def CFLOAT : Int := 7
def CACHED_STRING : Int := 9
def RECT32 : Int := 11
def CNULL : Int := 12

/-! ## The decoded document -/

mutual
/-- A decoded map value, as `convertBjlToJsonFromBytes` produces it:
native JS scalars for `CINT`/`CACHED_STRING`/`BOOL`, explicit
`{ValueType, Value}` objects for the rest, nested maps for `CMAP`. -/
inductive TVal where
  /-- A native integer (tag `CINT`). -/
  | vInt (n : Int) : TVal
  /-- A native string (tag `CACHED_STRING`). -/
  | vStr (s : JStr) : TVal
  /-- A native boolean (tag `BOOL`). -/
  | vBool (b : Bool) : TVal
  /-- `{ValueType: CFLOAT, Value}` — the float32, by bit pattern. -/
  | vFloat (bits : Nat) : TVal
  /-- `{ValueType: CSTRING, Value}` — a raw, non-cached string. -/
  | vUStr (s : JStr) : TVal
  /-- `{ValueType: CCOLOR, Value}` — the `'0x…'` hex string. -/
  | vColor (hex : JStr) : TVal
  /-- `{ValueType: RECT32, Value}` — four little-endian int16s. -/
  | vRect (shorts : List Int) : TVal
  /-- `{ValueType: CNULL}`. -/
  | vNull : TVal
  /-- A nested map (tag `CMAP`). -/
  | vMap (m : TMap) : TVal

/-- A JS object used as a string-keyed map, by insertion order. -/
inductive TMap where
  | nil : TMap
  | cons (k : JStr) (v : TVal) (rest : TMap) : TMap
end

deriving instance DecidableEq for TVal, TMap

mutual
def TVal.reprStr : TVal → String
  | .vInt n => s!"vInt {n}"
  | .vStr s => s!"vStr {s}"
  | .vBool b => s!"vBool {b}"
  | .vFloat bits => s!"vFloat {bits}"
  | .vUStr s => s!"vUStr {s}"
  | .vColor h => s!"vColor {h}"
  | .vRect r => s!"vRect {r}"
  | .vNull => "vNull"
  | .vMap m => "vMap [" ++ m.reprStr ++ "]"

def TMap.reprStr : TMap → String
  | .nil => ""
  | .cons k v r => s!"({k}, " ++ v.reprStr ++ "); " ++ r.reprStr
end

instance : Repr TVal := ⟨fun v _ => v.reprStr⟩
instance : Repr TMap := ⟨fun m _ => "[" ++ m.reprStr ++ "]"⟩

/-- `map[key] = value` on a plain object: overwrite in place if `key` is an
own property, else append — except `"__proto__"`, which never becomes an own
property. -/
def TMap.set (m : TMap) (k : JStr) (v : TVal) : TMap :=
  if k = protoKey then m else go m
where
  go : TMap → TMap
  | .nil => .cons k v .nil
  | .cons k' v' r => if k' = k then .cons k' v r else .cons k' v' (go r)

/-- The keys of a map, in storage order. -/
def TMap.keys : TMap → List JStr
  | .nil => []
  | .cons k _ r => k :: r.keys

/-- First value stored at a key. -/
def TMap.lookup : TMap → JStr → Option TVal
  | .nil, _ => none
  | .cons k' v r, k => if k' = k then some v else r.lookup k

/-- Number of entries. -/
def TMap.size : TMap → Nat
  | .nil => 0
  | .cons _ _ r => r.size + 1

/-- One control-type entry of the layout header. -/
structure ControlHeader where
  Name : JStr
  JavaType : JStr
  DesignerType : JStr
  deriving DecidableEq, Repr

/-- A variant: `{Scale, Width, Height}` (the scale is a float32, stored by
bit pattern). -/
structure Variant where
  Scale : Nat
  Width : Int
  Height : Int
  deriving DecidableEq, Repr

/-- The decoded layout header. -/
structure LayoutHeader where
  Version : Int
  GridSize : Int
  ControlsHeaders : List ControlHeader
  Files : List JStr
  DesignerScript : List JStr
  deriving DecidableEq, Repr

/-- The decoded document (`design` in the source). -/
structure Design where
  LayoutHeader : LayoutHeader
  Variants : List Variant
  Data : TMap
  FontAwesome : Bool
  MaterialIcons : Bool
  deriving DecidableEq, Repr

/-! ## Decoding -/

/-- `_readString` — int32 length, then that many bytes (`TextDecoder` is the
identity here, see the header comment). -/
def _readString (buf : List Nat) (off : Int) : Except Err (JStr × Int) := do
  let (len, o) ← readInt buf off
  let (bs, o2) := readBytes buf o len
  .ok (bs, o2)

/-- The loop body of `_loadStringsCache`: `arr[i] = this._readString(reader)`. -/
def loadStringsLoop (buf : List Nat) : Nat → Int → List JStr →
    Except Err (List JStr × Int)
  | 0, off, acc => .ok (acc, off)
  | n + 1, off, acc => do
    let (s, o) ← _readString buf off
    loadStringsLoop buf n o (acc ++ [s])

/-- `_loadStringsCache` — count-prefixed string table.  `new Array(count)`
throws on a negative count. -/
def _loadStringsCache (buf : List Nat) (off : Int) :
    Except Err (List JStr × Int) := do
  let (count, o) ← readInt buf off
  if count < 0 then .error .invalidArrayLength
  else loadStringsLoop buf count.toNat o []

/-- `_readCachedString` — with an empty cache, fall back to a raw string;
otherwise `cache[readInt()]`.  JS yields `undefined` on an out-of-range
index; the embedding rejects it (header comment). -/
def _readCachedString (cache : List JStr) (buf : List Nat) (off : Int) :
    Except Err (JStr × Int) :=
  if cache.isEmpty then _readString buf off
  else do
    let (idx, o) ← readInt buf off
    if 0 ≤ idx ∧ idx < (cache.length : Int) then .ok (cache.getD idx.toNat [], o)
    else .error .badCacheRef

/-- The `while (true)` of `_readBinaryString`: base-128 continuation length.
`value << shift` is JS's 32-bit shift (`shift` taken mod 32, result wrapped
to int32); the running total is an exact JS number. -/
def varintLoop (buf : List Nat) : Nat → Int → Nat → Int → Except Err (Int × Int)
  | 0, _, _, _ => .error .fuelOut
  | f + 1, len, shift, off => do
    let (b, o) ← readSignedByte buf off
    let value := b % 128
    let len := len + toInt32 (value * 2 ^ (shift % 32))
    if b = value then .ok (len, o) else varintLoop buf f len (shift + 7) o

/-- `_readBinaryString` — varint length, then that many bytes. -/
def _readBinaryString (buf : List Nat) (fuel : Nat) (off : Int) :
    Except Err (JStr × Int) := do
  let (length, o) ← varintLoop buf fuel 0 0 off
  let (data, o2) := readBytes buf o length
  .ok (data, o2)

/-- `_readVariantFromStream` — `{Scale, Width, Height}`. -/
def _readVariantFromStream (buf : List Nat) (off : Int) :
    Except Err (Variant × Int) := do
  let (scale, o1) ← readFloat buf off
  let (w, o2) ← readInt buf o1
  let (h, o3) ← readInt buf o2
  .ok (⟨scale, w, h⟩, o3)

/-- The per-variant loop inside `_readScripts`: read (and discard) the
variant, then its script. -/
def scriptsLoop (buf : List Nat) : Nat → Int → List JStr →
    Except Err (List JStr × Int)
  | 0, off, acc => .ok (acc, off)
  | n + 1, off, acc => do
    let (_, o1) ← _readVariantFromStream buf off
    let (s, o2) ← _readBinaryString buf (buf.length + 1) o1
    scriptsLoop buf n o2 (acc ++ [s])

/-- The body of `_readScripts`'s `try` block, over the decompressed bytes. -/
def scriptsParse (dec : List Nat) : Except Err (List JStr) := do
  let (general, o1) ← _readBinaryString dec (dec.length + 1) 0
  let (nv, o2) ← readInt dec o1
  let (res, _) ← scriptsLoop dec nv.toNat o2 []
  .ok (general :: res)

/-- `_readScripts` — int32 block length, that many (clamped) bytes, then a
`try`: if decompression or the inner parse fails for any reason, keep going
with an empty script list. -/
def _readScripts (buf : List Nat) (off : Int) : Except Err (List JStr × Int) := do
  let (len, o1) ← readInt buf off
  let (rawData, o2) := readBytes buf o1 len
  match ungzipC rawData with
  | none => .ok ([], o2)
  | some dec =>
    match scriptsParse dec with
    | .error _ => .ok ([], o2)
    | .ok res => .ok (res, o2)

/-- Hex digit, uppercase (`toString(16)` then `.toUpperCase()`). -/
def hexDigit (n : Nat) : Nat := if n < 10 then 48 + n else 55 + n

/-- `_hexFromBytes` — two uppercase hex characters per byte (a `Uint8Array`
entry is < 256; `% 256` makes the model total). -/
def _hexFromBytes (data : List Nat) : JStr :=
  data.foldr (fun b acc => hexDigit (b % 256 / 16) :: hexDigit (b % 16) :: acc) []

/-- `getInt16(i, true)` over a sliced byte buffer: `n` shorts starting at
index `i`; an access past the end throws. -/
def readShortsLE (d : List Nat) : Nat → Nat → Except Err (List Int)
  | 0, _ => .ok []
  | n + 1, i =>
    if i + 2 ≤ d.length then do
      let rest ← readShortsLE d n (i + 2)
      .ok (toInt16 (d.getD i 0 + 256 * d.getD (i + 1) 0) :: rest)
    else .error .outOfBounds

/-- `_readMap` — the `while (true)` loop reading `(key, tag)` pairs until the
`ENDOFMAP` tag; an unknown tag stops early and returns the map accumulated so
far.  `fuel` bounds the loop (header comment); nested maps recurse on it. -/
def _readMap (cache : List JStr) (buf : List Nat) :
    Nat → Int → TMap → Except Err (TMap × Int)
  | 0, _, _ => .error .fuelOut
  | f + 1, off, map => do
    let (key, o1) ← _readCachedString cache buf off
    let (t, o2) ← readSignedByte buf o1
    if t = ENDOFMAP then .ok (map, o2)
    else if t = CINT then do
      let (v, o3) ← readInt buf o2
      _readMap cache buf f o3 (map.set key (.vInt v))
    else if t = CACHED_STRING then do
      let (s, o3) ← _readCachedString cache buf o2
      _readMap cache buf f o3 (map.set key (.vStr s))
    else if t = CFLOAT then do
      let (bits, o3) ← readFloat buf o2
      _readMap cache buf f o3 (map.set key (.vFloat bits))
    else if t = CSTRING then do
      let (s, o3) ← _readString buf o2
      _readMap cache buf f o3 (map.set key (.vUStr s))
    else if t = BOOL then do
      let (b, o3) ← readSignedByte buf o2
      _readMap cache buf f o3 (map.set key (.vBool (b = 1)))
    else if t = CMAP then do
      let (inner, o3) ← _readMap cache buf f o2 .nil
      _readMap cache buf f o3 (map.set key (.vMap inner))
    else if t = CNULL then
      _readMap cache buf f o2 (map.set key .vNull)
    else if t = CCOLOR then
      let (d, o3) := readBytes buf o2 4
      _readMap cache buf f o3 (map.set key (.vColor (strBytes "0x" ++ _hexFromBytes d)))
    else if t = RECT32 then do
      let (d, o3) := readBytes buf o2 8
      let shorts ← readShortsLE d 4 0
      _readMap cache buf f o3 (map.set key (.vRect shorts))
    else
      .ok (map, o2)

/-- The control-headers loop of `_readLayoutHeader`. -/
def controlsLoop (cache : List JStr) (buf : List Nat) :
    Nat → Int → List ControlHeader → Except Err (List ControlHeader × Int)
  | 0, off, acc => .ok (acc, off)
  | n + 1, off, acc => do
    let (name, o1) ← _readCachedString cache buf off
    let (jt, o2) ← _readCachedString cache buf o1
    let (dt, o3) ← _readCachedString cache buf o2
    controlsLoop cache buf n o3 (acc ++ [⟨name, jt, dt⟩])

/-- The files loop of `_readLayoutHeader`. -/
def filesLoop (buf : List Nat) : Nat → Int → List JStr →
    Except Err (List JStr × Int)
  | 0, off, acc => .ok (acc, off)
  | n + 1, off, acc => do
    let (s, o) ← _readString buf off
    filesLoop buf n o (acc ++ [s])

/-- `_readLayoutHeader` — version; early return below version 3; skip the
4-byte header-length field; grid size from version 4; header string cache;
control headers; files; script block. -/
def _readLayoutHeader (buf : List Nat) (off : Int) :
    Except Err (LayoutHeader × Int) := do
  let (version, o1) ← readInt buf off
  if version < 3 then
    .ok ({ Version := version, GridSize := 10, ControlsHeaders := [],
           Files := [], DesignerScript := [] }, o1)
  else do
    let o2 := o1 + 4
    let (gridSize, o3) ←
      if 4 ≤ version then readInt buf o2 else .ok ((10 : Int), o2)
    let (cache, o4) ← _loadStringsCache buf o3
    let (cCount, o5) ← readInt buf o4
    let (chs, o6) ← controlsLoop cache buf cCount.toNat o5 []
    let (fCount, o7) ← readInt buf o6
    let (files, o8) ← filesLoop buf fCount.toNat o7 []
    let (scripts, o9) ← _readScripts buf o8
    .ok ({ Version := version, GridSize := gridSize, ControlsHeaders := chs,
           Files := files, DesignerScript := scripts }, o9)

/-- The variant loop of `convertBjlToJsonFromBytes`. -/
def variantsLoop (buf : List Nat) : Nat → Int → List Variant →
    Except Err (List Variant × Int)
  | 0, off, acc => .ok (acc, off)
  | n + 1, off, acc => do
    let (scale, o1) ← readFloat buf off
    let (w, o2) ← readInt buf o1
    let (h, o3) ← readInt buf o2
    variantsLoop buf n o3 (acc ++ [⟨scale, w, h⟩])

/-- `convertBjlToJsonFromBytes` — the public decoder. -/
def convertBjlToJsonFromBytes (bytes : List Nat) : Except Err Design := do
  let (header, o1) ← _readLayoutHeader bytes 0
  if header.Version < 3 then .error .unsupportedVersion
  else do
    let (cache, o2) ← _loadStringsCache bytes o1
    let (variantCount, o3) ← readInt bytes o2
    let (variants, o4) ← variantsLoop bytes variantCount.toNat o3 []
    let (data, o5) ← _readMap cache bytes (bytes.length + 1) o4 .nil
    let (_, o6) ← readInt bytes o5
    let (fa, o7) ← readSignedByte bytes o6
    let (mi, _) ← readSignedByte bytes o7
    .ok { LayoutHeader := header, Variants := variants, Data := data,
          FontAwesome := fa = 1, MaterialIcons := mi = 1 }

/-! ## Encoding -/

/-- JS `a || b` on int32 numbers (`0` is the only falsy int32). -/
def jsOrInt (a b : Int) : Int := if a = 0 then b else a

/-- JS `a || b` on a float32 (by bits) with default `1` (`v.Scale || 1`):
`+0`, `-0` and `NaN` are falsy. -/
def jsOrScale1 (bits : Nat) : Nat := if isFalsyF32 bits then float1Bits else bits

/-- `_writeString` — int32 byte length, then the UTF-8 bytes. -/
def _writeString (out : List Nat) (s : JStr) : List Nat :=
  writeBytes (writeInt out (s.length : Int)) s

/-- `_writeStringsCacheInOrder` — the body string table: count, then each
collected string in first-occurrence order. -/
def _writeStringsCacheInOrder (out : List Nat) (order : List JStr) : List Nat :=
  order.foldl _writeString (writeInt out (order.length : Int))

/-- `_writeCachedString` — with an empty cache fall back to a raw string;
otherwise `hasOwnProperty` decides between the index and a thrown
`CacheMiss`. -/
def _writeCachedString (out : List Nat) (cache : List (JStr × Nat)) (s : JStr) :
    Except Err (List Nat) :=
  if cache.isEmpty then .ok (_writeString out s)
  else
    match cache.lookup s with
    | some idx => .ok (writeInt out (idx : Int))
    | none => .error .cacheMiss

/-- Value of a hex character (`parseInt(…, 16)` accepts both cases). -/
def hexVal (c : Nat) : Nat :=
  if 48 ≤ c ∧ c ≤ 57 then c - 48
  else if 65 ≤ c ∧ c ≤ 70 then c - 55
  else if 97 ≤ c ∧ c ≤ 102 then c - 87
  else 0

/-- Is a character a hex digit (survives `_hexToBytes`'s filter)? -/
def isHexChar (c : Nat) : Bool :=
  (48 ≤ c && c ≤ 57) || (65 ≤ c && c ≤ 70) || (97 ≤ c && c ≤ 102)

/-- Adjacent pairs of hex characters to bytes; a trailing lone character is
dropped (its typed-array write lands out of range). -/
def hexPairs : List Nat → List Nat
  | c1 :: c2 :: rest => (16 * hexVal c1 + hexVal c2) :: hexPairs rest
  | _ => []

/-- `_hexToBytes` — strip non-hex characters, then convert pairs. -/
def _hexToBytes (hex : JStr) : List Nat := hexPairs (hex.filter isHexChar)

/-- `_shortsToBytes` — each int16 as two little-endian bytes
(`setInt16(…, true)`). -/
def _shortsToBytes (shorts : List Int) : List Nat :=
  shorts.foldr (fun s acc => ((s % 65536).toNat % 256) :: ((s % 65536).toNat / 256) :: acc) []

/-- The emit loop of `_writeBinaryString`, fuel-indexed so it computes by
structural recursion (`len` itself bounds the iteration count, since the
length shrinks by `/ 128` each step). -/
def emitVarintAux : Nat → List Nat → Nat → List Nat
  | 0, out, len => writeByte out (len % 128)
  | f + 1, out, len =>
    if len / 128 = 0 then writeByte out (len % 128)
    else emitVarintAux f (writeByte out (len % 128 + 128)) (len / 128)

/-- The emit loop of `_writeBinaryString`: 7 bits per byte, high bit set when
more follow (`len >>>= 7` is `/ 128` on a non-negative length). -/
def emitVarint (out : List Nat) (len : Nat) : List Nat := emitVarintAux len out len

/-- `_writeBinaryString` — varint of the JS string length (byte length under
the ASCII identification, see the header comment), then the UTF-8 bytes. -/
def _writeBinaryString (out : List Nat) (s : JStr) : List Nat :=
  writeBytes (emitVarint out s.length) s

/-- `_writeVariant` — `Scale || 1`, `Width || 0`, `Height || 0`. -/
def _writeVariant (out : List Nat) (v : Variant) : List Nat :=
  writeInt (writeInt (writeFloat out (jsOrScale1 v.Scale)) (jsOrInt v.Width 0))
    (jsOrInt v.Height 0)

/-- The body of `_writeScripts` before compression: general script, variant
count, then each variant's numbers and script (`scriptsCopy[i] || ""` is the
empty string both for a missing entry and for an empty one). -/
def writeScriptsRaw (scripts : List JStr) (variants : List Variant) : List Nat :=
  let out := _writeBinaryString [] (scripts.getD 0 [])
  let out := writeInt out (variants.length : Int)
  (variants.enum.foldl (fun out (i, v) =>
    _writeBinaryString (_writeVariant out v) (scripts.getD (i + 1) [])) out)

/-- `_writeScripts` — the raw stream, gzipped deterministically. -/
def _writeScripts (scripts : List JStr) (variants : List Variant) : List Nat :=
  gzipC (writeScriptsRaw scripts variants)

/-- The string-collection state: the cache object (own keys with their dense
indices) and the first-occurrence order list. -/
structure CollectSt where
  cache : List (JStr × Nat)
  order : List JStr
  deriving DecidableEq, Repr

/-- `if (!(s in cache)) { cache[s] = Object.keys(cache).length; order.push(s) }` —
the `in` operator also sees `Object.prototype` members, so such strings are
never collected. -/
def collectAdd (st : CollectSt) (s : JStr) : CollectSt :=
  if jsIn (st.cache.map Prod.fst) s then st
  else { cache := st.cache ++ [(s, st.cache.length)], order := st.order ++ [s] }

mutual
/-- `_collectStringsInOrder` over a map: each key, then strings inside its
value, in source order. -/
def _collectStringsInOrder : TMap → CollectSt → CollectSt
  | .nil, st => st
  | .cons k v r, st => _collectStringsInOrder r (collectVal v (collectAdd st k))

/-- The value part of the collection pass: nested maps recurse, `CSTRING`
payloads and plain strings are collected, everything else is skipped. -/
def collectVal : TVal → CollectSt → CollectSt
  | .vMap m, st => _collectStringsInOrder m st
  | .vUStr s, st => collectAdd st s
  | .vStr s, st => collectAdd st s
  | _, st => st
end

/-- Is a value skipped by reduced/bil mode
(`val.ValueType === CNULL || val.ValueType === RECT32`)? -/
def isBilSkipped : TVal → Bool
  | .vNull => true
  | .vRect _ => true
  | _ => false

mutual
/-- `_writeMap` — each entry: reduced-mode skip, cached key, then the value
by its native type or explicit tag. -/
def _writeMap (toBil : Bool) (cache : List (JStr × Nat)) :
    TMap → List Nat → Except Err (List Nat)
  | .nil, out => .ok out
  | .cons k v r, out =>
    if toBil && isBilSkipped v then _writeMap toBil cache r out
    else do
      let out ← _writeCachedString out cache k
      let out ← writeMapVal toBil cache v out
      _writeMap toBil cache r out

/-- The value dispatch of `_writeMap`. -/
def writeMapVal (toBil : Bool) (cache : List (JStr × Nat)) :
    TVal → List Nat → Except Err (List Nat)
  | .vFloat bits, out => .ok (writeFloat (writeByte out 7) bits)
  | .vUStr s, out => .ok (_writeString (writeByte out 2) s)
  | .vColor hex, out => .ok (writeBytes (writeByte out 6) (_hexToBytes (hex.drop 2)))
  | .vRect shorts, out => .ok (writeBytes (writeByte out 11) (_shortsToBytes shorts))
  | .vNull, out => .ok (writeByte out 12)
  | .vMap m, out => do
    let out ← _writeMap toBil cache m (writeByte out 3)
    .ok (writeByte (_writeString out []) 4)
  | .vInt n, out => .ok (writeInt (writeByte out 1) n)
  | .vStr s, out => do
    _writeCachedString (writeByte out 9) cache s
  | .vBool b, out => .ok (writeByte (writeByte out 5) (if b then 1 else 0))
end

/-- `_writeAllLayout` — collect the body cache, write variants and body into
a temp writer, then emit the string table, the temp bytes and the zero
footer.  `toBil` is the converter's constructor flag. -/
def _writeAllLayout (toBil : Bool) (out : List Nat) (variants : List Variant)
    (data : TMap) : Except Err (List Nat) := do
  let st := _collectStringsInOrder data ⟨[], []⟩
  let temp := writeInt [] (variants.length : Int)
  let temp := variants.foldl _writeVariant temp
  let temp ← _writeMap toBil st.cache data temp
  let temp := writeByte (_writeString temp []) 4
  let out := _writeStringsCacheInOrder out st.order
  let out := writeBytes out temp
  .ok (writeInt out 0)

/-- The header-cache builder of `_writeLayoutHeader`: every control entry's
three fields, in encounter order, first occurrence only (`in` again sees
`Object.prototype`). -/
def headerCache (chs : List ControlHeader) : List (JStr × Nat) :=
  (chs.foldl (fun st c =>
    collectAdd (collectAdd (collectAdd st c.Name) c.JavaType) c.DesignerType)
    ⟨[], []⟩).cache

/-- `_writeLayoutHeader` — version, reserved header-size field (backpatched),
grid size from version 4, header string cache, control entries, files,
compressed script block.  `DesignerScript` is always a script list in the
model (the base64-string branch of the source is for hand-built inputs). -/
def _writeLayoutHeader (header : LayoutHeader) (out : List Nat)
    (variants : List Variant) : Except Err (List Nat) := do
  let version := jsOrInt header.Version 4
  let out := writeInt out version
  let headerSizePosition := out.length
  let out := writeInt out 0
  let out := if 4 ≤ version then writeInt out (jsOrInt header.GridSize 10) else out
  let cache := headerCache header.ControlsHeaders
  let temp := writeInt [] (header.ControlsHeaders.length : Int)
  let temp ← header.ControlsHeaders.foldlM (fun temp c => do
    let temp ← _writeCachedString temp cache c.Name
    let temp ← _writeCachedString temp cache c.JavaType
    _writeCachedString temp cache c.DesignerType) temp
  let out := writeInt out (cache.length : Int)
  let out := (cache.map Prod.fst).foldl _writeString out
  let out := writeBytes out temp
  let out := writeInt out (header.Files.length : Int)
  let out := header.Files.foldl _writeString out
  let scriptBytes := _writeScripts header.DesignerScript variants
  let out := writeInt out (scriptBytes.length : Int)
  let out := writeBytes out scriptBytes
  let finalPosition := out.length
  let actualHeaderSize : Int := (finalPosition : Int) - (headerSizePosition : Int) - 4
  .ok (updateInt out headerSizePosition actualHeaderSize)

/-- `convertJsonToBjlToBytes` — the public encoder.  `toBil` is the
converter's constructor flag (`false` for a plain conversion, `true` for
reduced/bil mode). -/
def convertJsonToBjlToBytes (toBil : Bool) (json : Design) :
    Except Err (List Nat) := do
  let out ← _writeLayoutHeader json.LayoutHeader [] json.Variants
  let out ← _writeAllLayout toBil out json.Variants json.Data
  let out := writeByte out (if json.FontAwesome then 1 else 0)
  .ok (writeByte out (if json.MaterialIcons then 1 else 0))

/-! ## Specification-side helpers

Pure descriptions of the wire chunks the writers emit, the reduced form of a
map, loop-fuel measures and well-formedness predicates.  These exist to state
and prove the theorems; the functions above are the embedded program. -/

/-- The wire form of a raw length-prefixed string. -/
def strEnc (s : JStr) : List Nat := int4 (s.length : Int) ++ s

/-- Concatenation of the images of a list under `f`. -/
def catMap (f : JStr → List Nat) (l : List JStr) : List Nat :=
  l.foldr (fun s acc => f s ++ acc) []

/-- The wire form of a count-prefixed string table. -/
def tableEnc (order : List JStr) : List Nat :=
  int4 (order.length : Int) ++ catMap strEnc order

/-- The wire form of a cached-string reference: the raw string when the cache
is empty, else the int32 index. -/
def keyEnc (cache : List (JStr × Nat)) (k : JStr) : List Nat :=
  if cache.isEmpty then strEnc k else int4 (((cache.lookup k).getD 0 : Nat) : Int)

/-- The map sentinel as written: a raw empty string, then the `ENDOFMAP`
byte. -/
def sentinelEnc : List Nat := strEnc [] ++ [4]

/-- `emitVarint [] n`, as a standalone chunk. -/
def varintEnc (n : Nat) : List Nat := emitVarint [] n

/-- The wire form of a varint-length-prefixed (binary) string. -/
def bsEnc (s : JStr) : List Nat := varintEnc s.length ++ s

/-- The wire form of one variant (scale, width, height). -/
def variantEnc (v : Variant) : List Nat :=
  int4 ((jsOrScale1 v.Scale : Nat) : Int) ++ int4 (jsOrInt v.Width 0) ++
    int4 (jsOrInt v.Height 0)

/-- The per-variant section of the raw (uncompressed) script stream. -/
def pairsEnc : List (Variant × JStr) → List Nat
  | [] => []
  | (v, s) :: r => variantEnc v ++ bsEnc s ++ pairsEnc r

mutual
/-- The body-map bytes `_writeMap` emits on success. -/
def mapEnc (toBil : Bool) (cache : List (JStr × Nat)) : TMap → List Nat
  | .nil => []
  | .cons k v r =>
    (if toBil && isBilSkipped v then [] else keyEnc cache k ++ valEnc toBil cache v) ++
      mapEnc toBil cache r

/-- The tag-plus-payload bytes `writeMapVal` emits on success. -/
def valEnc (toBil : Bool) (cache : List (JStr × Nat)) : TVal → List Nat
  | .vInt n => 1 :: int4 n
  | .vStr s => 9 :: keyEnc cache s
  | .vBool b => [5, if b then 1 else 0]
  | .vFloat bits => 7 :: int4 (bits : Int)
  | .vUStr s => 2 :: strEnc s
  | .vColor hex => 6 :: _hexToBytes (hex.drop 2)
  | .vRect shorts => 11 :: _shortsToBytes shorts
  | .vNull => [12]
  | .vMap m => 3 :: (mapEnc toBil cache m ++ sentinelEnc)
end

mutual
/-- The reduced form of a map: what reduced/bil mode keeps, at every level. -/
def TMap.bilReduce : TMap → TMap
  | .nil => .nil
  | .cons k v r =>
    if isBilSkipped v then r.bilReduce else .cons k v.bilReduceVal r.bilReduce

/-- The reduced form of a value. -/
def TVal.bilReduceVal : TVal → TVal
  | .vMap m => .vMap m.bilReduce
  | v => v
end

/-- The map a decoder reconstructs from `toBil`-mode output. -/
def reduceIf (toBil : Bool) (m : TMap) : TMap := if toBil then m.bilReduce else m

/-- Concatenation of two maps (no key de-duplication). -/
def TMap.appendM : TMap → TMap → TMap
  | .nil, m => m
  | .cons k v r, m => .cons k v (r.appendM m)

mutual
/-- Loop iterations `_readMap` needs for a map, its terminating entry
included. -/
def TMap.mapFuel : TMap → Nat
  | .nil => 1
  | .cons _ v r => 1 + v.valFuel + r.mapFuel

/-- Loop iterations a value's payload needs. -/
def TVal.valFuel : TVal → Nat
  | .vMap m => m.mapFuel
  | _ => 0
end

/-- The index-annotated view of a string list, starting at `i`. -/
def enumFrom (i : Nat) : List JStr → List (JStr × Nat)
  | [] => []
  | s :: r => (s, i) :: enumFrom (i + 1) r

mutual
/-- Every cache-referenced string of the map (keys and plain string values)
resolves in `cache` — or the cache is empty and everything is written raw. -/
def TMap.covered (cache : List (JStr × Nat)) : TMap → Bool
  | .nil => true
  | .cons k v r =>
    (cache.isEmpty || (cache.lookup k).isSome) && v.coveredVal cache && r.covered cache

def TVal.coveredVal (cache : List (JStr × Nat)) : TVal → Bool
  | .vStr s => cache.isEmpty || (cache.lookup s).isSome
  | .vMap m => m.covered cache
  | _ => true
end

/-- An uppercase hex digit. -/
def isUpperHex (c : Nat) : Bool := (48 ≤ c && c ≤ 57) || (65 ≤ c && c ≤ 70)

/-- The shape of a color value as the decoder itself renders it:
`0x` followed by eight uppercase hex digits. -/
def niceColorHex (hex : JStr) : Bool :=
  decide (hex.take 2 = strBytes "0x") && decide ((hex.drop 2).length = 8) &&
    (hex.drop 2).all isUpperHex

mutual
/-- Well-formedness of a value for the round-trip theorems: everything is in
the range the wire format can carry, strings eligible for the cache are
`properKey`, and colors have the decoder's own shape. -/
def TVal.nice : TVal → Bool
  | .vInt n => decide (-2147483648 ≤ n ∧ n < 2147483648)
  | .vStr s => properKey s && decide (s.length < 2147483648)
  | .vBool _ => true
  | .vFloat bits => decide (bits < 4294967296) && !isNaN32 bits
  | .vUStr s => decide (s.length < 2147483648)
  | .vColor hex => niceColorHex hex
  | .vRect shorts =>
    decide (shorts.length = 4) && shorts.all fun s => decide (-32768 ≤ s ∧ s < 32768)
  | .vNull => true
  | .vMap m => m.nice

/-- Well-formedness of a map: proper, bounded, pairwise-distinct keys and
nice values. -/
def TMap.nice : TMap → Bool
  | .nil => true
  | .cons k v r =>
    properKey k && decide (k.length < 2147483648) && !(r.keys.contains k) &&
      v.nice && r.nice
end

mutual
/-- No `Null`- or `Rect`-tagged value anywhere in a value. -/
def TVal.noNullRect : TVal → Bool
  | .vNull => false
  | .vRect _ => false
  | .vMap m => m.noNullRect
  | _ => true

/-- No `Null`- or `Rect`-tagged entry anywhere in a map. -/
def TMap.noNullRect : TMap → Bool
  | .nil => true
  | .cons _ v r => v.noNullRect && r.noNullRect
end

/-- Well-formedness of a variant: int32 dimensions and a truthy, non-NaN
scale (`Scale || 1` would replace a falsy one). -/
def niceVariant (v : Variant) : Bool :=
  decide (v.Scale < 4294967296) && !isFalsyF32 v.Scale &&
    decide (-2147483648 ≤ v.Width ∧ v.Width < 2147483648) &&
    decide (-2147483648 ≤ v.Height ∧ v.Height < 2147483648)

/-- Well-formedness of a whole document for the round-trip theorems: a
version the decoder accepts, a truthy grid size, proper bounded strings
everywhere, one script per variant plus the general one, and all emitted
counts and lengths within int32 range. -/
def NiceDoc (d : Design) : Bool :=
  let h := d.LayoutHeader
  let st := _collectStringsInOrder d.Data ⟨[], []⟩
  decide (3 ≤ h.Version ∧ h.Version < 2147483648) &&
  (decide (4 ≤ h.Version) →
    (decide (h.GridSize ≠ 0 ∧ -2147483648 ≤ h.GridSize ∧ h.GridSize < 2147483648) : Bool)) &&
  (decide (h.Version < 4) → (decide (h.GridSize = 10) : Bool)) &&
  (h.ControlsHeaders.all fun c =>
    properKey c.Name && decide (c.Name.length < 2147483648) &&
    properKey c.JavaType && decide (c.JavaType.length < 2147483648) &&
    properKey c.DesignerType && decide (c.DesignerType.length < 2147483648)) &&
  decide (h.ControlsHeaders.length < 2147483648) &&
  decide ((headerCache h.ControlsHeaders).length < 2147483648) &&
  (h.Files.all fun f => decide (f.length < 2147483648)) &&
  decide (h.Files.length < 2147483648) &&
  decide (h.DesignerScript.length = d.Variants.length + 1) &&
  (h.DesignerScript.all fun s => decide (s.length < 268435456)) &&
  decide ((_writeScripts h.DesignerScript d.Variants).length < 2147483648) &&
  d.Variants.all niceVariant &&
  decide (d.Variants.length < 2147483648) &&
  d.Data.nice &&
  decide (st.order.length < 2147483648) &&
  (st.order.all fun s => decide (s.length < 2147483648))

/-- The collection state invariant: the cache object is exactly the order
list with its positions. -/
def CacheInv (st : CollectSt) : Prop := st.cache = enumFrom 0 st.order

/-- The per-control step of the header-cache fold. -/
def headerStep (st : CollectSt) (c : ControlHeader) : CollectSt :=
  collectAdd (collectAdd (collectAdd st c.Name) c.JavaType) c.DesignerType

/-- The wire form of one control-header entry: its three cached strings. -/
def ctrlEnc (cache : List (JStr × Nat)) (c : ControlHeader) : List Nat :=
  keyEnc cache c.Name ++ keyEnc cache c.JavaType ++ keyEnc cache c.DesignerType

/-- The wire form of the control-headers section body. -/
def ctrlsEnc (cache : List (JStr × Nat)) (chs : List ControlHeader) : List Nat :=
  chs.foldr (fun c acc => ctrlEnc cache c ++ acc) []

/-- The wire form of the variants section body. -/
def variantsEnc (vs : List Variant) : List Nat :=
  vs.foldr (fun v acc => variantEnc v ++ acc) []

/-- The layout-header bytes after the version and header-size fields. -/
def headerBodyEnc (h : LayoutHeader) (variants : List Variant) : List Nat :=
  (if 4 ≤ h.Version then int4 h.GridSize else []) ++
  tableEnc ((headerCache h.ControlsHeaders).map Prod.fst) ++
  int4 (h.ControlsHeaders.length : Int) ++
  ctrlsEnc (headerCache h.ControlsHeaders) h.ControlsHeaders ++
  int4 (h.Files.length : Int) ++ catMap strEnc h.Files ++
  int4 (((_writeScripts h.DesignerScript variants).length : Nat) : Int) ++
  _writeScripts h.DesignerScript variants

/-- The whole layout-header section, its size field backpatched. -/
def headerEnc (h : LayoutHeader) (variants : List Variant) : List Nat :=
  int4 h.Version ++ int4 (((headerBodyEnc h variants).length : Nat) : Int) ++
    headerBodyEnc h variants

/-- The body section: string table, variants, the tagged map with its
sentinel, and the zero footer. -/
def bodyEnc (toBil : Bool) (data : TMap) (variants : List Variant) : List Nat :=
  tableEnc (_collectStringsInOrder data ⟨[], []⟩).order ++
  int4 ((variants.length : Nat) : Int) ++ variantsEnc variants ++
  mapEnc toBil (_collectStringsInOrder data ⟨[], []⟩).cache data ++
  sentinelEnc ++ int4 0

/-- The whole document as the encoder emits it. -/
def docEnc (toBil : Bool) (d : Design) : List Nat :=
  headerEnc d.LayoutHeader d.Variants ++ bodyEnc toBil d.Data d.Variants ++
  [if d.FontAwesome then 1 else 0, if d.MaterialIcons then 1 else 0]

/-- The document bytes with the four header-size bytes replaced by `hb`. -/
def docEncPatched (toBil : Bool) (d : Design) (hb : List Nat) : List Nat :=
  int4 d.LayoutHeader.Version ++ hb ++ headerBodyEnc d.LayoutHeader d.Variants ++
  bodyEnc toBil d.Data d.Variants ++
  [if d.FontAwesome then 1 else 0, if d.MaterialIcons then 1 else 0]

deriving instance DecidableEq for Except

/-! ## Concrete documents and buffers

Small closed inputs used by the witnesses and counterexamples below. -/

/-- Sample layout header with one control and one file. -/
def hdr1 : LayoutHeader where
  Version := 4
  GridSize := 8
  ControlsHeaders := [⟨strBytes "btn", strBytes "Button", strBytes "B4XView"⟩]
  Files := [strBytes "f.png"]
  DesignerScript := [strBytes "gen", strBytes "v1"]

/-- Sample body exercising every tag. -/
def data1 : TMap :=
  .cons (strBytes "x") (.vInt 5) (.cons (strBytes "label") (.vStr (strBytes "hello"))
    (.cons (strBytes "f") (.vFloat 123456) (.cons (strBytes "c")
      (.vColor (strBytes "0x1A2B3C4D")) (.cons (strBytes "u") (.vUStr (strBytes "raw"))
      (.cons (strBytes "m") (.vMap (.cons (strBytes "y") (.vBool true) .nil)) .nil)))))

/-- Sample well-formed document. -/
def doc1 : Design where
  LayoutHeader := hdr1
  Variants := [⟨float1Bits, 320, 480⟩]
  Data := data1
  FontAwesome := true
  MaterialIcons := false

/-- Hand-built buffer whose layout header carries `GridSize = 0`: version 4,
ignored header size, grid size 0, empty header cache, no controls, no files,
an empty (hence undecodable) script block, empty body cache, no variants, an
immediately-terminated body map, the zero footer and flags `1, 0`. -/
def bufGS0 : List Nat :=
  int4 4 ++ int4 0 ++ int4 0 ++
  int4 0 ++ int4 0 ++ int4 0 ++ int4 0 ++
  int4 0 ++ int4 0 ++
  int4 0 ++ [4] ++
  int4 0 ++ [1, 0]

/-- The document `bufGS0` decodes to. -/
def dGS0 : Design where
  LayoutHeader := { Version := 4, GridSize := 0, ControlsHeaders := [],
                    Files := [], DesignerScript := [] }
  Variants := []
  Data := .nil
  FontAwesome := true
  MaterialIcons := false

/-- Buffer whose body map writes key `"k"` twice: entries `k := 10`,
`k2 := 30`, `k := 20` (cache references 0, 1, 0), then the sentinel. -/
def bufDup : List Nat :=
  int4 3 ++ int4 0 ++
  int4 0 ++ int4 0 ++ int4 0 ++
  int4 0 ++
  (int4 2 ++ (int4 1 ++ strBytes "k") ++ (int4 2 ++ strBytes "k2")) ++
  int4 0 ++
  (int4 0 ++ [1] ++ int4 10) ++
  (int4 1 ++ [1] ++ int4 30) ++
  (int4 0 ++ [1] ++ int4 20) ++
  (int4 0 ++ [4]) ++
  int4 0 ++ [0, 0]

/-- The document `bufDup` decodes to: the duplicate entry collapsed in place. -/
def dDup : Design where
  LayoutHeader := { Version := 3, GridSize := 10, ControlsHeaders := [],
                    Files := [], DesignerScript := [] }
  Variants := []
  Data := .cons (strBytes "k") (.vInt 20) (.cons (strBytes "k2") (.vInt 30) .nil)
  FontAwesome := false
  MaterialIcons := false

/-- Document whose only body key is the `Object.prototype` member name
`"toString"` — the collection pass never collects it. -/
def doc7 : Design where
  LayoutHeader := hdr1
  Variants := [⟨float1Bits, 320, 480⟩]
  Data := .cons (strBytes "toString") (.vInt 5) .nil
  FontAwesome := false
  MaterialIcons := false

/-- Common tail of the C10 pair: empty header cache, no controls, one file
whose length field is `-20` — `readBytes` then moves the cursor backward into
the header-size bytes. -/
def c10tail : List Nat :=
  int4 0 ++ int4 0 ++ int4 1 ++ int4 (-20) ++ [1, 0, 1, 0]

/-- First buffer of the C10 pair: header-size bytes `0,0,0,0`. -/
def bufC10a : List Nat := int4 3 ++ [0, 0, 0, 0] ++ c10tail

/-- Second buffer of the C10 pair: header-size bytes `1,0,0,0`. -/
def bufC10b : List Nat := int4 3 ++ [1, 0, 0, 0] ++ c10tail

/-- Body with `Null`- and `Rect`-tagged entries, one of them nested. -/
def data8 : TMap :=
  .cons (strBytes "n") .vNull (.cons (strBytes "x") (.vInt 1)
    (.cons (strBytes "r") (.vRect [1, -2, 3, 4])
      (.cons (strBytes "m") (.vMap (.cons (strBytes "inner") .vNull
        (.cons (strBytes "y") (.vBool false) .nil))) .nil)))

/-- Sample document with `Null`/`Rect` entries for the reduced-mode law. -/
def doc8 : Design where
  LayoutHeader := hdr1
  Variants := [⟨float1Bits, 100, 200⟩]
  Data := data8
  FontAwesome := false
  MaterialIcons := true

/-! # Theorems

The development below proves the spec's testable properties.  Reading
lemmas are stated at a segment boundary: the buffer is `A ++ chunk ++ B`,
the cursor starts at `A.length`, and the operation consumes exactly
`chunk`. -/

theorem int4_length (v : Int) : (int4 v).length = 4 := rfl

theorem toInt32_id (v : Int) (h : -2147483648 ≤ v ∧ v < 2147483648) :
    toInt32 v = v := by
  unfold toInt32
  omega

theorem toInt32_natCast_id (n : Nat) (h : n < 2147483648) :
    toInt32 (n : Int) = (n : Int) := by
  apply toInt32_id
  omega

theorem toInt8_id (b : Nat) (h : b < 128) : toInt8 b = (b : Int) := by
  unfold toInt8
  omega

theorem getD_at (A l B : List Nat) (i : Nat) (h : i < l.length) :
    (A ++ l ++ B).getD (A.length + i) 0 = l.getD i 0 := by
  rw [List.append_assoc, List.getD_append_right A (l ++ B) 0 _ (by omega),
    Nat.add_sub_cancel_left, List.getD_append l B 0 i h]

theorem readByte_at (A B : List Nat) (b : Nat) :
    readByte (A ++ b :: B) (A.length : Int) = .ok (b, (A.length : Int) + 1) := by
  have hlen : (A ++ b :: B).length = A.length + 1 + B.length := by
    simp
    omega
  have hget : (A ++ b :: B).getD A.length 0 = b := by
    have := getD_at A [b] B 0 (by simp)
    simpa using this
  unfold readByte
  rw [if_pos]
  · simp only [Int.toNat_natCast]
    rw [hget]
  · constructor
    · positivity
    · rw [hlen]
      push_cast
      omega

theorem readSignedByte_at (A B : List Nat) (b : Nat) :
    readSignedByte (A ++ b :: B) (A.length : Int) =
      .ok (toInt8 b, (A.length : Int) + 1) := by
  have hlen : (A ++ b :: B).length = A.length + 1 + B.length := by
    simp
    omega
  have hget : (A ++ b :: B).getD A.length 0 = b := by
    have := getD_at A [b] B 0 (by simp)
    simpa using this
  unfold readSignedByte
  rw [if_pos]
  · simp only [Int.toNat_natCast]
    rw [hget]
  · constructor
    · positivity
    · rw [hlen]
      push_cast
      omega

theorem readInt_at (A B : List Nat) (b0 b1 b2 b3 : Nat) :
    readInt (A ++ b0 :: b1 :: b2 :: b3 :: B) (A.length : Int) =
      .ok (toInt32 (fromLE4 b0 b1 b2 b3), (A.length : Int) + 4) := by
  have hlen : (A ++ b0 :: b1 :: b2 :: b3 :: B).length = A.length + 4 + B.length := by
    simp
    omega
  have h0 : (A ++ b0 :: b1 :: b2 :: b3 :: B).getD A.length 0 = b0 := by
    have := getD_at A [b0, b1, b2, b3] B 0 (by simp)
    simpa using this
  have h1 : (A ++ b0 :: b1 :: b2 :: b3 :: B).getD (A.length + 1) 0 = b1 := by
    have := getD_at A [b0, b1, b2, b3] B 1 (by simp)
    simpa using this
  have h2 : (A ++ b0 :: b1 :: b2 :: b3 :: B).getD (A.length + 2) 0 = b2 := by
    have := getD_at A [b0, b1, b2, b3] B 2 (by simp)
    simpa using this
  have h3 : (A ++ b0 :: b1 :: b2 :: b3 :: B).getD (A.length + 3) 0 = b3 := by
    have := getD_at A [b0, b1, b2, b3] B 3 (by simp)
    simpa using this
  unfold readInt
  rw [if_pos]
  · simp only [Int.toNat_natCast]
    rw [h0, h1, h2, h3]
  · constructor
    · positivity
    · rw [hlen]
      push_cast
      omega

theorem readFloat_at (A B : List Nat) (b0 b1 b2 b3 : Nat) :
    readFloat (A ++ b0 :: b1 :: b2 :: b3 :: B) (A.length : Int) =
      .ok (fromLE4 b0 b1 b2 b3, (A.length : Int) + 4) := by
  have hlen : (A ++ b0 :: b1 :: b2 :: b3 :: B).length = A.length + 4 + B.length := by
    simp
    omega
  have h0 : (A ++ b0 :: b1 :: b2 :: b3 :: B).getD A.length 0 = b0 := by
    have := getD_at A [b0, b1, b2, b3] B 0 (by simp)
    simpa using this
  have h1 : (A ++ b0 :: b1 :: b2 :: b3 :: B).getD (A.length + 1) 0 = b1 := by
    have := getD_at A [b0, b1, b2, b3] B 1 (by simp)
    simpa using this
  have h2 : (A ++ b0 :: b1 :: b2 :: b3 :: B).getD (A.length + 2) 0 = b2 := by
    have := getD_at A [b0, b1, b2, b3] B 2 (by simp)
    simpa using this
  have h3 : (A ++ b0 :: b1 :: b2 :: b3 :: B).getD (A.length + 3) 0 = b3 := by
    have := getD_at A [b0, b1, b2, b3] B 3 (by simp)
    simpa using this
  unfold readFloat
  rw [if_pos]
  · simp only [Int.toNat_natCast]
    rw [h0, h1, h2, h3]
  · constructor
    · positivity
    · rw [hlen]
      push_cast
      omega

theorem int4_cons (v : Int) (B : List Nat) :
    int4 v ++ B = (v % 4294967296).toNat % 256 :: (v % 4294967296).toNat / 256 % 256 ::
      (v % 4294967296).toNat / 65536 % 256 :: (v % 4294967296).toNat / 16777216 % 256 :: B := rfl

theorem fromLE4_int4 (v : Int) :
    fromLE4 ((v % 4294967296).toNat % 256) ((v % 4294967296).toNat / 256 % 256)
      ((v % 4294967296).toNat / 65536 % 256) ((v % 4294967296).toNat / 16777216 % 256) =
      (v % 4294967296).toNat := by
  have h : (v % 4294967296).toNat < 4294967296 := by
    have h1 : v % 4294967296 < 4294967296 := Int.emod_lt_of_pos v (by omega)
    omega
  unfold fromLE4
  omega

theorem toInt32_wrap (v : Int) : toInt32 (((v % 4294967296).toNat : Nat) : Int) = toInt32 v := by
  have h1 : (((v % 4294967296).toNat : Nat) : Int) = v % 4294967296 := by
    have := Int.emod_nonneg v (b := 4294967296) (by omega)
    omega
  unfold toInt32
  rw [h1]
  have h2 : v % 4294967296 % 4294967296 = v % 4294967296 := Int.emod_emod_of_dvd v dvd_rfl
  rw [h2]

theorem readInt_int4 (A B : List Nat) (v : Int) :
    readInt (A ++ int4 v ++ B) (A.length : Int) =
      .ok (toInt32 v, (A.length : Int) + 4) := by
  rw [List.append_assoc, int4_cons]
  rw [readInt_at, fromLE4_int4, toInt32_wrap]

theorem readInt_int4_id (A B : List Nat) (v : Int)
    (h : -2147483648 ≤ v ∧ v < 2147483648) :
    readInt (A ++ int4 v ++ B) (A.length : Int) = .ok (v, (A.length : Int) + 4) := by
  rw [readInt_int4, toInt32_id v h]

theorem readFloat_int4 (A B : List Nat) (bits : Nat) (h : bits < 4294967296) :
    readFloat (A ++ int4 (bits : Int) ++ B) (A.length : Int) =
      .ok (bits, (A.length : Int) + 4) := by
  rw [List.append_assoc, int4_cons]
  rw [readFloat_at, fromLE4_int4]
  have h1 : ((bits : Int) % 4294967296) = (bits : Int) := by omega
  rw [h1]
  simp

theorem jsSlice_at (A s B : List Nat) :
    jsSlice (A ++ s ++ B) (A.length : Int) ((A.length : Int) + (s.length : Int)) = s := by
  have htot : (A ++ s ++ B).length = A.length + s.length + B.length := by
    simp
    omega
  unfold jsSlice normIdx
  rw [if_neg (by omega), if_neg (by omega)]
  have h1 : ((A.length : Int) + (s.length : Int)).toNat = A.length + s.length := by
    omega
  have h2 : ((A.length : Int)).toNat = A.length := by omega
  rw [h1, h2, htot]
  rw [min_eq_left (by omega), min_eq_left (by omega)]
  rw [List.append_assoc, List.take_append_eq_append_take]
  rw [List.take_of_length_le (by omega), Nat.add_comm A.length s.length,
    Nat.add_sub_cancel]
  rw [List.drop_append_eq_append_drop]
  rw [List.drop_of_length_le (le_refl _), Nat.sub_self, List.drop_zero,
    List.nil_append]
  rw [List.take_left]

theorem readBytes_at (A s B : List Nat) :
    readBytes (A ++ s ++ B) (A.length : Int) (s.length : Int) =
      (s, (A.length : Int) + (s.length : Int)) := by
  unfold readBytes
  rw [jsSlice_at]

theorem strEnc_split (s : JStr) (B : List Nat) :
    strEnc s ++ B = int4 (s.length : Int) ++ (s ++ B) := by
  simp [strEnc, List.append_assoc]

theorem len_after_int4 (A : List Nat) (v : Int) :
    (A.length : Int) + 4 = (((A ++ int4 v).length : Nat) : Int) := by
  simp [int4_length]

theorem readString_strEnc (A B : List Nat) (s : JStr) (h : s.length < 2147483648) :
    _readString (A ++ strEnc s ++ B) (A.length : Int) =
      .ok (s, (A.length : Int) + 4 + (s.length : Int)) := by
  unfold _readString
  rw [List.append_assoc, strEnc_split, ← List.append_assoc]
  rw [readInt_int4_id _ _ _ (by omega)]
  dsimp only [Bind.bind, Except.bind]
  rw [len_after_int4 A (s.length : Int),
    ← List.append_assoc (A ++ int4 (s.length : Int)) s B, readBytes_at]

theorem _writeString_eq (out : List Nat) (s : JStr) :
    _writeString out s = out ++ strEnc s := by
  simp [_writeString, strEnc, writeBytes, writeInt, List.append_assoc]

theorem enumFrom_lookup (order : List JStr) :
    ∀ (j : Nat) (s : JStr) (i : Nat), (enumFrom j order).lookup s = some i →
      j ≤ i ∧ i - j < order.length ∧ order.getD (i - j) [] = s := by
  induction order with
  | nil => intro j s i h; simp [enumFrom] at h
  | cons a r ih =>
    intro j s i h
    unfold enumFrom at h
    rw [List.lookup_cons] at h
    by_cases hsa : a = s
    · subst hsa
      simp at h
      subst h
      simp
    · have hne : (s == a) = false := by
        simp
        exact fun hc => hsa hc.symm
      rw [hne] at h
      simp only [Bool.false_eq_true, if_false] at h
      obtain ⟨h1, h2, h3⟩ := ih (j + 1) s i h
      refine ⟨by omega, by simp; omega, ?_⟩
      have : i - j = (i - (j + 1)) + 1 := by omega
      rw [this]
      simpa using h3

theorem enumFrom_eq_nil (order : List JStr) (j : Nat) :
    enumFrom j order = [] ↔ order = [] := by
  cases order <;> simp [enumFrom]

theorem keyEnc_length (cache : List (JStr × Nat)) (k : JStr) :
    (keyEnc cache k).length = if cache.isEmpty then 4 + k.length else 4 := by
  unfold keyEnc
  by_cases h : cache.isEmpty <;> simp [h, strEnc, int4_length]

theorem _writeCachedString_keyEnc (cache : List (JStr × Nat)) (out : List Nat)
    (k : JStr) (hlook : cache.isEmpty ∨ (cache.lookup k).isSome) :
    _writeCachedString out cache k = .ok (out ++ keyEnc cache k) := by
  unfold _writeCachedString keyEnc
  by_cases hemp : cache.isEmpty
  · simp [hemp, _writeString_eq]
  · simp only [hemp, if_false, Bool.false_eq_true]
    rcases hlook with h | h
    · exact absurd h hemp
    · obtain ⟨i, hi⟩ := Option.isSome_iff_exists.mp h
      rw [hi]
      simp [writeInt]

theorem _readCachedString_keyEnc (cache : List (JStr × Nat)) (order : List JStr)
    (A B : List Nat) (k : JStr)
    (hinv : cache = enumFrom 0 order)
    (hlook : cache.isEmpty ∨ (cache.lookup k).isSome)
    (hlen : order.length < 2147483648) (hk : k.length < 2147483648) :
    _readCachedString order (A ++ keyEnc cache k ++ B) (A.length : Int) =
      .ok (k, (A.length : Int) + ((keyEnc cache k).length : Int)) := by
  unfold _readCachedString keyEnc
  by_cases hemp : cache.isEmpty
  · have horder : order = [] := by
      rw [hinv] at hemp
      rcases order with _ | ⟨a, r⟩
      · rfl
      · simp [enumFrom] at hemp
    subst horder
    simp only [List.isEmpty_nil, if_true, hemp]
    rw [readString_strEnc _ _ _ hk]
    simp [strEnc, int4_length]
    omega
  · have horder : ¬ order.isEmpty := by
      intro hc
      rw [List.isEmpty_iff] at hc
      subst hc
      simp [hinv, enumFrom] at hemp
    rcases hlook with h | h
    · exact absurd h hemp
    · obtain ⟨i, hi⟩ := Option.isSome_iff_exists.mp h
      obtain ⟨-, hilt, hgd⟩ := enumFrom_lookup order 0 k i (hinv ▸ hi)
      simp only [Nat.sub_zero] at hilt hgd
      simp only [hemp, if_false, Bool.false_eq_true, horder]
      rw [hi]
      simp only [Option.getD_some]
      rw [readInt_int4_id _ _ _ (by omega)]
      dsimp only [Bind.bind, Except.bind]
      rw [if_pos (by constructor <;> [omega; (push_cast; omega)])]
      simp only [Int.toNat_natCast, int4_length]
      rw [hgd]
      norm_num

theorem strEnc_length (s : JStr) : (strEnc s).length = 4 + s.length := by
  simp [strEnc, int4_length]

theorem len_after_chunk (A c : List Nat) :
    (A.length : Int) + (c.length : Int) = (((A ++ c).length : Nat) : Int) := by
  simp

theorem catMap_cons (f : JStr → List Nat) (s : JStr) (l : List JStr) :
    catMap f (s :: l) = f s ++ catMap f l := rfl

theorem catMap_nil (f : JStr → List Nat) : catMap f [] = [] := rfl

theorem foldl_writeString (l : List JStr) (base : List Nat) :
    l.foldl _writeString base = base ++ catMap strEnc l := by
  induction l generalizing base with
  | nil => simp [catMap_nil]
  | cons s r ih =>
    rw [List.foldl_cons, ih, _writeString_eq, catMap_cons, List.append_assoc]

theorem _writeStringsCacheInOrder_eq (out : List Nat) (order : List JStr) :
    _writeStringsCacheInOrder out order = out ++ tableEnc order := by
  unfold _writeStringsCacheInOrder tableEnc
  rw [foldl_writeString, writeInt, List.append_assoc]

theorem loadStringsLoop_catMap (l : List JStr) :
    ∀ (A B : List Nat) (acc : List JStr),
      (∀ s ∈ l, s.length < 2147483648) →
      loadStringsLoop (A ++ catMap strEnc l ++ B) l.length (A.length : Int) acc =
        .ok (acc ++ l, (A.length : Int) + ((catMap strEnc l).length : Int)) := by
  induction l with
  | nil => intro A B acc _; simp [loadStringsLoop, catMap_nil]
  | cons s r ih =>
    intro A B acc hb
    rw [catMap_cons]
    simp only [List.length_cons, loadStringsLoop]
    rw [← List.append_assoc A (strEnc s) (catMap strEnc r),
      List.append_assoc (A ++ strEnc s) (catMap strEnc r) B]
    rw [readString_strEnc _ _ _ (hb s (by simp))]
    dsimp only [Bind.bind, Except.bind]
    have h4 : (A.length : Int) + 4 + (s.length : Int) =
        (((A ++ strEnc s).length : Nat) : Int) := by
      simp [strEnc_length]
      omega
    rw [h4, ← List.append_assoc (A ++ strEnc s) (catMap strEnc r) B]
    rw [ih (A ++ strEnc s) B (acc ++ [s]) (fun x hx => hb x (by simp [hx]))]
    simp [strEnc_length, List.append_assoc]
    omega

theorem _loadStringsCache_tableEnc (order : List JStr) (A B : List Nat)
    (hlen : order.length < 2147483648)
    (hs : ∀ s ∈ order, s.length < 2147483648) :
    _loadStringsCache (A ++ tableEnc order ++ B) (A.length : Int) =
      .ok (order, (A.length : Int) + ((tableEnc order).length : Int)) := by
  unfold _loadStringsCache tableEnc
  rw [← List.append_assoc A (int4 ((order.length : Nat) : Int)) (catMap strEnc order),
    List.append_assoc (A ++ int4 ((order.length : Nat) : Int)) (catMap strEnc order) B]
  rw [readInt_int4_id _ _ _ (by omega)]
  dsimp only [Bind.bind, Except.bind]
  rw [if_neg (by omega)]
  rw [Int.toNat_natCast, len_after_int4 A ((order.length : Nat) : Int),
    ← List.append_assoc (A ++ int4 ((order.length : Nat) : Int)) (catMap strEnc order) B]
  rw [loadStringsLoop_catMap order _ B [] hs]
  simp [int4_length, List.append_assoc]
  omega

theorem emitVarintAux_congr : ∀ (m f1 f2 : Nat) (out : List Nat),
    m ≤ f1 → m ≤ f2 → emitVarintAux f1 out m = emitVarintAux f2 out m := by
  intro m
  induction m using Nat.strong_induction_on with
  | _ m ih =>
    intro f1 f2 out h1 h2
    match f1, f2 with
    | 0, 0 => rfl
    | 0, g + 1 =>
      have hm : m = 0 := by omega
      subst hm
      simp [emitVarintAux]
    | g + 1, 0 =>
      have hm : m = 0 := by omega
      subst hm
      simp [emitVarintAux]
    | g1 + 1, g2 + 1 =>
      simp only [emitVarintAux]
      by_cases h : m / 128 = 0
      · simp [h]
      · simp only [h, if_false]
        have hd : m / 128 < m := Nat.div_lt_self (by omega) (by omega)
        exact ih (m / 128) hd g1 g2 _ (by omega) (by omega)

/-- The loop unfolding of `emitVarint` (the shape of the source `while`). -/
theorem emitVarint_eq (out : List Nat) (len : Nat) :
    emitVarint out len = if h : len / 128 = 0 then writeByte out (len % 128)
      else emitVarint (writeByte out (len % 128 + 128)) (len / 128) := by
  by_cases h : len / 128 = 0
  · rw [dif_pos h]
    unfold emitVarint
    match len with
    | 0 => rfl
    | l + 1 => simp [emitVarintAux, h]
  · rw [dif_neg h]
    unfold emitVarint
    have hd : len / 128 < len := Nat.div_lt_self (by omega) (by omega)
    match hl : len with
    | l + 1 =>
      simp only [emitVarintAux, h, if_false]
      have hd2 : (l + 1) / 128 < l + 1 := Nat.div_lt_self (by omega) (by omega)
      exact emitVarintAux_congr ((l + 1) / 128) l ((l + 1) / 128) _ (by omega) (le_refl _)

/-- The wire form of the varint-length prefix. -/
theorem emitVarint_append (n : Nat) : ∀ out : List Nat,
    emitVarint out n = out ++ emitVarint [] n := by
  induction n using Nat.strong_induction_on with
  | _ n ih =>
    intro out
    rw [emitVarint_eq]
    conv_rhs => rw [emitVarint_eq]
    by_cases h : n / 128 = 0
    · rw [dif_pos h, dif_pos h]
      simp [writeByte]
    · rw [dif_neg h, dif_neg h]
      rw [ih (n / 128) (Nat.div_lt_self (by omega) (by omega)) (writeByte out (n % 128 + 128)),
        ih (n / 128) (Nat.div_lt_self (by omega) (by omega)) (writeByte [] (n % 128 + 128))]
      simp [writeByte, List.append_assoc]

theorem varintEnc_base (n : Nat) (h : n / 128 = 0) : varintEnc n = [n % 128] := by
  rw [varintEnc, emitVarint_eq, dif_pos h]
  simp [writeByte]
  omega

theorem varintEnc_step (n : Nat) (h : ¬ n / 128 = 0) :
    varintEnc n = (n % 128 + 128) :: varintEnc (n / 128) := by
  rw [varintEnc, emitVarint_eq, dif_neg h, emitVarint_append]
  simp [writeByte, varintEnc]
  omega

theorem varintLoop_enc (n : Nat) : ∀ (A B : List Nat) (len0 : Int) (shift : Nat)
    (fuel : Nat), (varintEnc n).length ≤ fuel → shift < 32 →
    (n : Int) * 2 ^ shift < 2147483648 →
    varintLoop (A ++ varintEnc n ++ B) fuel len0 shift (A.length : Int) =
      .ok (len0 + (n : Int) * 2 ^ shift, (A.length : Int) + ((varintEnc n).length : Int)) := by
  induction n using Nat.strong_induction_on with
  | _ n ih =>
    intro A B len0 shift fuel hfuel hshift hfit
    by_cases h : n / 128 = 0
    · rw [varintEnc_base n h] at *
      rcases fuel with _ | f
      · simp at hfuel
      · simp only [varintLoop]
        have hb : n % 128 = n := by omega
        rw [show A ++ [n % 128] ++ B = A ++ n % 128 :: B by simp]
        rw [readSignedByte_at]
        dsimp only [Bind.bind, Except.bind]
        rw [toInt8_id _ (by omega), hb]
        have hv : (n : Int) % 128 = (n : Int) := by omega
        rw [hv, Nat.mod_eq_of_lt hshift]
        have hnn : (0 : Int) ≤ (n : Int) * 2 ^ shift := by positivity
        rw [toInt32_id _ ⟨by omega, hfit⟩]
        rw [if_pos rfl]
        simp
    · rw [varintEnc_step n h] at *
      rcases fuel with _ | f
      · simp at hfuel
      · simp only [varintLoop]
        rw [show A ++ (n % 128 + 128) :: varintEnc (n / 128) ++ B =
          A ++ (n % 128 + 128) :: (varintEnc (n / 128) ++ B) by simp]
        rw [readSignedByte_at]
        dsimp only [Bind.bind, Except.bind]
        have hb : toInt8 (n % 128 + 128) = ((n % 128 : Nat) : Int) - 128 := by
          unfold toInt8
          omega
        rw [hb]
        have hval : (((n % 128 : Nat) : Int) - 128) % 128 = ((n % 128 : Nat) : Int) := by
          omega
        rw [hval]
        rw [if_neg (by omega)]
        have hn128 : 128 ≤ n := by omega
        have hpow : (2 : Int) ^ shift ≤ 16777216 := by
          by_contra hc
          push_neg at hc
          have h2 : (128 : Int) * 2 ^ shift ≤ (n : Int) * 2 ^ shift := by
            apply mul_le_mul_of_nonneg_right _ (by positivity)
            omega
          omega
        have hshift7 : shift + 7 < 32 := by
          by_contra hc
          push_neg at hc
          have h25 : (2 : Int) ^ 25 ≤ 2 ^ shift := by
            apply pow_le_pow_right₀ (by omega)
            omega
          norm_num at h25
          omega
        rw [Nat.mod_eq_of_lt hshift]
        have hfit1 : ((n % 128 : Nat) : Int) * 2 ^ shift < 2147483648 := by
          have hle : ((n % 128 : Nat) : Int) ≤ (n : Int) := by
            have := Nat.mod_le n 128
            omega
          have h2 : ((n % 128 : Nat) : Int) * 2 ^ shift ≤ (n : Int) * 2 ^ shift :=
            mul_le_mul_of_nonneg_right hle (by positivity)
          omega
        have hnn1 : (0 : Int) ≤ ((n % 128 : Nat) : Int) * 2 ^ shift := by positivity
        rw [toInt32_id _ ⟨by omega, hfit1⟩]
        rw [show A ++ (n % 128 + 128) :: (varintEnc (n / 128) ++ B) =
          (A ++ [n % 128 + 128]) ++ varintEnc (n / 128) ++ B by simp]
        have hoff : (A.length : Int) + 1 = (((A ++ [n % 128 + 128]).length : Nat) : Int) := by
          simp
        rw [hoff]
        have hfit2 : ((n / 128 : Nat) : Int) * 2 ^ (shift + 7) < 2147483648 := by
          have he : ((n / 128 : Nat) : Int) * 2 ^ (shift + 7) =
              ((n / 128 : Nat) : Int) * 128 * 2 ^ shift := by
            rw [pow_add]
            ring
          rw [he]
          have h1 : ((n / 128 : Nat) : Int) * 128 ≤ (n : Int) := by
            have := Nat.div_mul_le_self n 128
            push_cast
            omega
          have h2 : ((n / 128 : Nat) : Int) * 128 * 2 ^ shift ≤ (n : Int) * 2 ^ shift :=
            mul_le_mul_of_nonneg_right h1 (by positivity)
          omega
        rw [ih (n / 128) (Nat.div_lt_self (by omega) (by omega)) _ B _ (shift + 7) f
          (by simp at hfuel ⊢; omega) hshift7 hfit2]
        have hsum : len0 + ((n % 128 : Nat) : Int) * 2 ^ shift +
            ((n / 128 : Nat) : Int) * 2 ^ (shift + 7) = len0 + (n : Int) * 2 ^ shift := by
          have hmd : ((n % 128 : Nat) : Int) + 128 * ((n / 128 : Nat) : Int) = (n : Int) := by
            have := Nat.mod_add_div n 128
            push_cast
            omega
          rw [pow_add]
          nlinarith [hmd]
        rw [hsum]
        congr 1
        congr 1
        simp
        omega

theorem _writeBinaryString_eq (out : List Nat) (s : JStr) :
    _writeBinaryString out s = out ++ bsEnc s := by
  rw [_writeBinaryString, writeBytes, emitVarint_append, bsEnc, varintEnc,
    List.append_assoc]

theorem bsEnc_length (s : JStr) :
    (bsEnc s).length = (varintEnc s.length).length + s.length := by
  simp [bsEnc]

theorem _readBinaryString_bsEnc (A B : List Nat) (s : JStr) (fuel : Nat)
    (h : s.length < 2147483648) (hf : (varintEnc s.length).length ≤ fuel) :
    _readBinaryString (A ++ bsEnc s ++ B) fuel (A.length : Int) =
      .ok (s, (A.length : Int) + ((bsEnc s).length : Int)) := by
  unfold _readBinaryString
  rw [bsEnc, ← List.append_assoc A (varintEnc s.length) s,
    List.append_assoc (A ++ varintEnc s.length) s B]
  rw [varintLoop_enc s.length A (s ++ B) 0 0 fuel hf (by omega) (by push_cast; omega)]
  dsimp only [Bind.bind, Except.bind]
  rw [pow_zero, mul_one, zero_add, len_after_chunk A (varintEnc s.length),
    ← List.append_assoc (A ++ varintEnc s.length) s B]
  rw [readBytes_at]
  simp
  omega

theorem _writeVariant_eq (out : List Nat) (v : Variant) :
    _writeVariant out v = out ++ variantEnc v := by
  rw [_writeVariant, writeInt, writeInt, writeFloat, variantEnc]
  simp [List.append_assoc]

theorem variantEnc_length (v : Variant) : (variantEnc v).length = 12 := by
  simp [variantEnc, int4_length]

theorem jsOrInt_zero (a : Int) : jsOrInt a 0 = a := by
  unfold jsOrInt
  split <;> omega

theorem jsOrScale1_lt (bits : Nat) (h : bits < 4294967296) :
    jsOrScale1 bits < 4294967296 := by
  unfold jsOrScale1
  split
  · norm_num [float1Bits]
  · exact h

theorem _readVariantFromStream_enc (A B : List Nat) (v : Variant)
    (hs : v.Scale < 4294967296) :
    _readVariantFromStream (A ++ variantEnc v ++ B) (A.length : Int) =
      .ok (⟨jsOrScale1 v.Scale, toInt32 (jsOrInt v.Width 0), toInt32 (jsOrInt v.Height 0)⟩,
        (A.length : Int) + 12) := by
  unfold _readVariantFromStream
  rw [variantEnc]
  rw [show A ++ (int4 ((jsOrScale1 v.Scale : Nat) : Int) ++ int4 (jsOrInt v.Width 0) ++
      int4 (jsOrInt v.Height 0)) ++ B =
    A ++ int4 ((jsOrScale1 v.Scale : Nat) : Int) ++
      (int4 (jsOrInt v.Width 0) ++ int4 (jsOrInt v.Height 0) ++ B) by
      simp [List.append_assoc]]
  rw [readFloat_int4 _ _ _ (jsOrScale1_lt v.Scale hs)]
  dsimp only [Bind.bind, Except.bind]
  rw [len_after_int4 A ((jsOrScale1 v.Scale : Nat) : Int)]
  rw [show (A ++ int4 ((jsOrScale1 v.Scale : Nat) : Int)) ++
      (int4 (jsOrInt v.Width 0) ++ int4 (jsOrInt v.Height 0) ++ B) =
    (A ++ int4 ((jsOrScale1 v.Scale : Nat) : Int)) ++ int4 (jsOrInt v.Width 0) ++
      (int4 (jsOrInt v.Height 0) ++ B) by simp [List.append_assoc]]
  rw [readInt_int4]
  dsimp only [Bind.bind, Except.bind]
  rw [len_after_int4 _ (jsOrInt v.Width 0)]
  rw [show (A ++ int4 ((jsOrScale1 v.Scale : Nat) : Int)) ++ int4 (jsOrInt v.Width 0) ++
      (int4 (jsOrInt v.Height 0) ++ B) =
    (A ++ int4 ((jsOrScale1 v.Scale : Nat) : Int)) ++ int4 (jsOrInt v.Width 0) ++
      int4 (jsOrInt v.Height 0) ++ B by simp [List.append_assoc]]
  rw [readInt_int4]
  dsimp only [Bind.bind, Except.bind]
  simp [int4_length]
  omega

theorem fold_scripts_enum (vs : List Variant) :
    ∀ (ss : List JStr) (k : Nat) (out : List Nat), k + 1 + vs.length ≤ ss.length →
    (List.enumFrom k vs).foldl (fun out p =>
        _writeBinaryString (_writeVariant out p.2) (ss.getD (p.1 + 1) [])) out =
      out ++ pairsEnc (vs.zip (ss.drop (k + 1))) := by
  induction vs with
  | nil => intro ss k out _; simp [pairsEnc]
  | cons v r ih =>
    intro ss k out hlen
    rw [show List.enumFrom k (v :: r) = (k, v) :: List.enumFrom (k + 1) r from rfl]
    rw [List.foldl_cons]
    rw [_writeVariant_eq, _writeBinaryString_eq]
    rw [ih ss (k + 1) _ (by simp at hlen ⊢; omega)]
    have hd : ss.drop (k + 1) = ss.getD (k + 1) [] :: ss.drop (k + 2) := by
      have hk : k + 1 < ss.length := by simp at hlen; omega
      rw [List.getD_eq_getElem ss [] hk]
      rw [List.drop_eq_getElem_cons hk]
    rw [hd]
    simp [pairsEnc, List.append_assoc]
    rfl

theorem writeScriptsRaw_eq (scripts : List JStr) (variants : List Variant)
    (hlen : scripts.length = variants.length + 1) :
    writeScriptsRaw scripts variants =
      bsEnc (scripts.getD 0 []) ++ int4 (variants.length : Int) ++
        pairsEnc (variants.zip (scripts.drop 1)) := by
  unfold writeScriptsRaw
  rw [show (List.enum variants) = List.enumFrom 0 variants from rfl]
  rw [fold_scripts_enum variants scripts 0 _ (by omega)]
  rw [_writeBinaryString_eq, writeInt]
  simp [List.append_assoc]

theorem scriptsLoop_pairsEnc (vs : List Variant) :
    ∀ (ps : List JStr) (A B : List Nat) (acc : List JStr),
    ps.length = vs.length →
    (∀ v ∈ vs, v.Scale < 4294967296) →
    (∀ s ∈ ps, s.length < 2147483648) →
    scriptsLoop (A ++ pairsEnc (vs.zip ps) ++ B) vs.length (A.length : Int) acc =
      .ok (acc ++ ps, (A.length : Int) + ((pairsEnc (vs.zip ps)).length : Int)) := by
  induction vs with
  | nil =>
    intro ps A B acc hlen _ _
    have hps : ps = [] := List.length_eq_zero.mp (by simpa using hlen)
    subst hps
    simp [scriptsLoop, pairsEnc]
  | cons v r ih =>
    intro ps A B acc hlen hsc hss
    cases ps with
    | nil => simp at hlen
    | cons s ss =>
      rw [show (v :: r).zip (s :: ss) = (v, s) :: r.zip ss from rfl]
      rw [show pairsEnc ((v, s) :: r.zip ss) = variantEnc v ++ bsEnc s ++ pairsEnc (r.zip ss)
        from rfl]
      simp only [List.length_cons, scriptsLoop]
      rw [show A ++ (variantEnc v ++ bsEnc s ++ pairsEnc (r.zip ss)) ++ B =
        A ++ variantEnc v ++ (bsEnc s ++ (pairsEnc (r.zip ss) ++ B)) by
          simp [List.append_assoc]]
      rw [_readVariantFromStream_enc _ _ _ (hsc v (by simp))]
      dsimp only [Bind.bind, Except.bind]
      have h12 : (A.length : Int) + 12 = (((A ++ variantEnc v).length : Nat) : Int) := by
        simp [variantEnc_length]
      rw [h12]
      rw [show A ++ variantEnc v ++ (bsEnc s ++ (pairsEnc (r.zip ss) ++ B)) =
        (A ++ variantEnc v) ++ bsEnc s ++ (pairsEnc (r.zip ss) ++ B) by
          simp [List.append_assoc]]
      rw [_readBinaryString_bsEnc _ _ _ _ (hss s (by simp)) ?hfuel]
      case hfuel =>
        simp [bsEnc]
        omega
      dsimp only [Bind.bind, Except.bind]
      rw [len_after_chunk _ (bsEnc s)]
      rw [show (A ++ variantEnc v) ++ bsEnc s ++ (pairsEnc (r.zip ss) ++ B) =
        ((A ++ variantEnc v) ++ bsEnc s) ++ pairsEnc (r.zip ss) ++ B by
          simp [List.append_assoc]]
      rw [ih ss _ B (acc ++ [s]) (by simp at hlen; omega) (fun x hx => hsc x (by simp [hx]))
        (fun x hx => hss x (by simp [hx]))]
      simp [variantEnc_length, List.append_assoc]
      omega

theorem ungzip_gzip (raw : List Nat) : ungzipC (gzipC raw) = some raw := rfl

theorem scriptsParse_raw (scripts : List JStr) (variants : List Variant)
    (hlen : scripts.length = variants.length + 1)
    (hsc : ∀ v ∈ variants, v.Scale < 4294967296)
    (hss : ∀ s ∈ scripts, s.length < 2147483648)
    (hcount : variants.length < 2147483648) :
    scriptsParse (writeScriptsRaw scripts variants) = .ok scripts := by
  cases scripts with
  | nil => simp at hlen
  | cons g ps =>
    unfold scriptsParse
    rw [writeScriptsRaw_eq _ _ hlen]
    have hg : (g :: ps).getD 0 [] = g := rfl
    have hdrop : (g :: ps).drop 1 = ps := rfl
    rw [hg, hdrop]
    rw [show bsEnc g ++ int4 (variants.length : Int) ++ pairsEnc (variants.zip ps) =
      [] ++ bsEnc g ++ (int4 (variants.length : Int) ++ pairsEnc (variants.zip ps)) by
        simp [List.append_assoc]]
    rw [show (0 : Int) = ((([] : List Nat).length : Nat) : Int) from rfl]
    rw [_readBinaryString_bsEnc [] _ g _ (hss g (by simp)) ?hfg]
    case hfg =>
      simp [bsEnc]
      omega
    dsimp only [Bind.bind, Except.bind]
    rw [show (([] : List Nat).length : Int) + ((bsEnc g).length : Int) =
      ((([] ++ bsEnc g).length : Nat) : Int) by simp]
    rw [show ([] : List Nat) ++ bsEnc g ++ (int4 (variants.length : Int) ++
        pairsEnc (variants.zip ps)) =
      ([] ++ bsEnc g) ++ int4 (variants.length : Int) ++ pairsEnc (variants.zip ps) by
        simp [List.append_assoc]]
    rw [readInt_int4_id _ _ _ (by omega)]
    dsimp only [Bind.bind, Except.bind]
    rw [Int.toNat_natCast, len_after_int4 ([] ++ bsEnc g) (variants.length : Int)]
    rw [show ([] ++ bsEnc g) ++ int4 (variants.length : Int) ++ pairsEnc (variants.zip ps) =
      (([] ++ bsEnc g) ++ int4 (variants.length : Int)) ++ pairsEnc (variants.zip ps) ++ [] by
        simp [List.append_assoc]]
    rw [scriptsLoop_pairsEnc variants ps _ [] [] (by simp at hlen; omega) hsc
      (fun x hx => hss x (by simp [hx]))]
    rfl

theorem _readScripts_enc (A B raw : List Nat) (res : List JStr)
    (hp : scriptsParse raw = .ok res)
    (hblen : (gzipC raw).length < 2147483648) :
    _readScripts (A ++ int4 (((gzipC raw).length : Nat) : Int) ++ gzipC raw ++ B)
        (A.length : Int) =
      .ok (res, (A.length : Int) + 4 + ((gzipC raw).length : Int)) := by
  unfold _readScripts
  rw [show A ++ int4 (((gzipC raw).length : Nat) : Int) ++ gzipC raw ++ B =
    A ++ int4 (((gzipC raw).length : Nat) : Int) ++ (gzipC raw ++ B) by
      simp [List.append_assoc]]
  rw [readInt_int4_id _ _ _ (by omega)]
  dsimp only [Bind.bind, Except.bind]
  rw [len_after_int4 A (((gzipC raw).length : Nat) : Int)]
  rw [show A ++ int4 (((gzipC raw).length : Nat) : Int) ++ (gzipC raw ++ B) =
    (A ++ int4 (((gzipC raw).length : Nat) : Int)) ++ gzipC raw ++ B by
      simp [List.append_assoc]]
  rw [readBytes_at]
  rw [ungzip_gzip]
  dsimp only
  rw [hp]

theorem _readScripts_corrupt (A B block : List Nat) (hu : ungzipC block = none)
    (hblen : block.length < 2147483648) :
    _readScripts (A ++ int4 ((block.length : Nat) : Int) ++ block ++ B) (A.length : Int) =
      .ok ([], (A.length : Int) + 4 + (block.length : Int)) := by
  unfold _readScripts
  rw [show A ++ int4 ((block.length : Nat) : Int) ++ block ++ B =
    A ++ int4 ((block.length : Nat) : Int) ++ (block ++ B) by simp [List.append_assoc]]
  rw [readInt_int4_id _ _ _ (by omega)]
  dsimp only [Bind.bind, Except.bind]
  rw [len_after_int4 A ((block.length : Nat) : Int)]
  rw [show A ++ int4 ((block.length : Nat) : Int) ++ (block ++ B) =
    (A ++ int4 ((block.length : Nat) : Int)) ++ block ++ B by simp [List.append_assoc]]
  rw [readBytes_at]
  rw [hu]

theorem appendM_nil_left (m : TMap) : TMap.appendM .nil m = m := rfl

theorem appendM_nil_right : ∀ m : TMap, m.appendM .nil = m
  | .nil => rfl
  | .cons k v r => by rw [TMap.appendM, appendM_nil_right r]

theorem appendM_keys : ∀ a b : TMap, (a.appendM b).keys = a.keys ++ b.keys
  | .nil, b => rfl
  | .cons k v r, b => by rw [TMap.appendM, TMap.keys, appendM_keys r b, TMap.keys,
      List.cons_append]

theorem set_fresh (k : JStr) (v : TVal) (hkp : k ≠ protoKey) :
    ∀ acc : TMap, k ∉ acc.keys → acc.set k v = acc.appendM (.cons k v .nil)
  | .nil, _ => by
    rw [TMap.set, if_neg hkp]
    rfl
  | .cons k' v' r, hmem => by
    have hne : k' ≠ k := by
      intro hc
      exact hmem (by simp [TMap.keys, hc])
    rw [TMap.set, if_neg hkp, TMap.set.go, if_neg hne, TMap.appendM]
    have hr : r.set k v = r.appendM (.cons k v .nil) :=
      set_fresh k v hkp r (fun hc => hmem (by simp [TMap.keys, hc]))
    rw [TMap.set, if_neg hkp] at hr
    rw [hr]

theorem appendM_snoc : ∀ (acc : TMap) (k : JStr) (v : TVal) (r : TMap),
    (acc.appendM (.cons k v .nil)).appendM r = acc.appendM (.cons k v r)
  | .nil, _, _, _ => rfl
  | .cons k' v' r', k, v, r => by
    rw [TMap.appendM, TMap.appendM, appendM_snoc r' k v r, TMap.appendM]

theorem properKey_ne_proto (k : JStr) (h : properKey k = true) : k ≠ protoKey := by
  intro hc
  subst hc
  simp [properKey, objProtoKeys, protoKey] at h

theorem hexVal_hexDigit (n : Nat) (h : n < 16) : hexVal (hexDigit n) = n := by
  unfold hexVal hexDigit
  split_ifs <;> omega

theorem isHexChar_hexDigit (n : Nat) (h : n < 16) : isHexChar (hexDigit n) = true := by
  unfold isHexChar hexDigit
  split <;> simp <;> omega

theorem hexDigit_hexVal (c : Nat) (h : isUpperHex c = true) : hexDigit (hexVal c) = c := by
  simp [isUpperHex] at h
  unfold hexDigit hexVal
  split_ifs <;> omega

theorem isHexChar_of_upper (c : Nat) (h : isUpperHex c = true) : isHexChar c = true := by
  simp [isUpperHex] at h
  simp [isHexChar]
  omega

/-- `_hexFromBytes` inverts `hexPairs` on uppercase hex text of even length. -/
theorem hexFromBytes_hexPairs : ∀ h : JStr, h.all isUpperHex = true → h.length % 2 = 0 →
    _hexFromBytes (hexPairs h) = h
  | [], _, _ => rfl
  | [c], hup, hev => by simp at hev
  | c1 :: c2 :: rest, hup, hev => by
    simp only [List.all_cons, Bool.and_eq_true] at hup
    obtain ⟨h1, h2, hrest⟩ := hup
    rw [hexPairs]
    have hv1 : hexVal c1 < 16 := by
      simp [isUpperHex] at h1
      unfold hexVal
      split_ifs <;> omega
    have hv2 : hexVal c2 < 16 := by
      simp [isUpperHex] at h2
      unfold hexVal
      split_ifs <;> omega
    rw [show _hexFromBytes ((16 * hexVal c1 + hexVal c2) :: hexPairs rest) =
      hexDigit ((16 * hexVal c1 + hexVal c2) % 256 / 16) ::
        hexDigit ((16 * hexVal c1 + hexVal c2) % 16) :: _hexFromBytes (hexPairs rest)
      from rfl]
    have e1 : (16 * hexVal c1 + hexVal c2) % 256 / 16 = hexVal c1 := by omega
    have e2 : (16 * hexVal c1 + hexVal c2) % 16 = hexVal c2 := by omega
    rw [e1, e2, hexDigit_hexVal c1 h1, hexDigit_hexVal c2 h2,
      hexFromBytes_hexPairs rest hrest (by simp at hev ⊢; omega)]

theorem filter_of_upper (h : JStr) (hup : h.all isUpperHex = true) :
    h.filter isHexChar = h := by
  apply List.filter_eq_self.mpr
  intro c hc
  exact isHexChar_of_upper c (by simp [List.all_eq_true] at hup; exact hup c hc)

/-- The color render/parse round trip, in the encode-then-decode direction. -/
theorem hexFromBytes_hexToBytes (h : JStr) (hup : h.all isUpperHex = true)
    (hev : h.length % 2 = 0) : _hexFromBytes (_hexToBytes h) = h := by
  rw [_hexToBytes, filter_of_upper h hup, hexFromBytes_hexPairs h hup hev]

theorem hexPairs_length : ∀ h : JStr, h.length % 2 = 0 →
    (hexPairs h).length = h.length / 2
  | [], _ => rfl
  | [c], hev => by simp at hev
  | c1 :: c2 :: rest, hev => by
    rw [hexPairs]
    simp only [List.length_cons]
    rw [hexPairs_length rest (by simp at hev ⊢; omega)]
    omega

/-- `_hexToBytes ∘ _hexFromBytes` restores the raw bytes (decode-then-encode
direction). -/
theorem hexToBytes_hexFromBytes : ∀ bytes : List Nat, (∀ b ∈ bytes, b < 256) →
    _hexToBytes (_hexFromBytes bytes) = bytes
  | [], _ => rfl
  | b :: rest, hb => by
    rw [show _hexFromBytes (b :: rest) =
      hexDigit (b % 256 / 16) :: hexDigit (b % 16) :: _hexFromBytes rest from rfl]
    have h1 : b % 256 / 16 < 16 := by omega
    have h2 : b % 16 < 16 := by omega
    unfold _hexToBytes
    rw [List.filter_cons_of_pos (isHexChar_hexDigit _ h1),
      List.filter_cons_of_pos (isHexChar_hexDigit _ h2)]
    rw [hexPairs, hexVal_hexDigit _ h1, hexVal_hexDigit _ h2]
    have hrest := hexToBytes_hexFromBytes rest (fun x hx => hb x (by simp [hx]))
    rw [_hexToBytes] at hrest
    rw [hrest]
    have hblt : b < 256 := hb b (by simp)
    congr 1
    omega

theorem toInt16_pair (s : Int) (h : -32768 ≤ s ∧ s < 32768) :
    toInt16 ((s % 65536).toNat % 256 + 256 * ((s % 65536).toNat / 256)) = s := by
  have hmod : (0 : Int) ≤ s % 65536 ∧ s % 65536 < 65536 := by
    constructor
    · exact Int.emod_nonneg s (by omega)
    · exact Int.emod_lt_of_pos s (by omega)
  have harg : (s % 65536).toNat % 256 + 256 * ((s % 65536).toNat / 256) =
      (s % 65536).toNat := by omega
  rw [harg]
  unfold toInt16
  split_ifs <;> omega

theorem shortsToBytes_length4 (s0 s1 s2 s3 : Int) :
    (_shortsToBytes [s0, s1, s2, s3]).length = 8 := rfl

theorem readShortsLE_enc (s0 s1 s2 s3 : Int)
    (h0 : -32768 ≤ s0 ∧ s0 < 32768) (h1 : -32768 ≤ s1 ∧ s1 < 32768)
    (h2 : -32768 ≤ s2 ∧ s2 < 32768) (h3 : -32768 ≤ s3 ∧ s3 < 32768) :
    readShortsLE (_shortsToBytes [s0, s1, s2, s3]) 4 0 = .ok [s0, s1, s2, s3] := by
  have e : _shortsToBytes [s0, s1, s2, s3] =
      [(s0 % 65536).toNat % 256, (s0 % 65536).toNat / 256,
       (s1 % 65536).toNat % 256, (s1 % 65536).toNat / 256,
       (s2 % 65536).toNat % 256, (s2 % 65536).toNat / 256,
       (s3 % 65536).toNat % 256, (s3 % 65536).toNat / 256] := rfl
  rw [e]
  simp only [readShortsLE, List.length_cons, List.length_nil, List.getD]
  norm_num [List.get?]
  rw [toInt16_pair s0 h0, toInt16_pair s1 h1, toInt16_pair s2 h2, toInt16_pair s3 h3]
  rfl

mutual
/-- `_writeMap` succeeds on a covered map and appends exactly `mapEnc`. -/
theorem _writeMap_mapEnc (toBil : Bool) (cache : List (JStr × Nat)) :
    ∀ (m : TMap) (out : List Nat), m.covered cache = true →
      _writeMap toBil cache m out = .ok (out ++ mapEnc toBil cache m)
  | .nil, out, _ => by simp [_writeMap, mapEnc]
  | .cons k v r, out, hcov => by
    simp only [TMap.covered, Bool.and_eq_true, Bool.or_eq_true] at hcov
    obtain ⟨⟨hk, hv⟩, hr⟩ := hcov
    rw [_writeMap, mapEnc]
    by_cases hskip : (toBil && isBilSkipped v) = true
    · rw [if_pos hskip, hskip]
      rw [_writeMap_mapEnc toBil cache r out hr]
      simp
    · rw [if_neg hskip, (by simpa using hskip : (toBil && isBilSkipped v) = false)]
      rw [_writeCachedString_keyEnc cache out k (by
        rcases hk with hk | hk
        · exact Or.inl (by simpa using hk)
        · exact Or.inr hk)]
      dsimp only [Bind.bind, Except.bind]
      rw [writeMapVal_valEnc toBil cache v _ hv]
      dsimp only [Bind.bind, Except.bind]
      rw [_writeMap_mapEnc toBil cache r _ hr]
      simp [List.append_assoc]

/-- `writeMapVal` succeeds on a covered value and appends exactly `valEnc`. -/
theorem writeMapVal_valEnc (toBil : Bool) (cache : List (JStr × Nat)) :
    ∀ (v : TVal) (out : List Nat), v.coveredVal cache = true →
      writeMapVal toBil cache v out = .ok (out ++ valEnc toBil cache v)
  | .vInt n, out, _ => by
    simp [writeMapVal, valEnc, writeByte, writeInt, List.append_assoc]
  | .vStr s, out, hcov => by
    rw [writeMapVal]
    rw [_writeCachedString_keyEnc cache _ s (by
      simp only [TVal.coveredVal, Bool.or_eq_true] at hcov
      rcases hcov with h | h
      · exact Or.inl (by simpa using h)
      · exact Or.inr h)]
    simp [valEnc, writeByte, List.append_assoc]
  | .vBool b, out, _ => by
    simp [writeMapVal, valEnc, writeByte]
    cases b <;> simp
  | .vFloat bits, out, _ => by
    simp [writeMapVal, valEnc, writeByte, writeFloat, List.append_assoc]
  | .vUStr s, out, _ => by
    simp [writeMapVal, valEnc, writeByte, _writeString_eq, List.append_assoc]
  | .vColor hex, out, _ => by
    simp [writeMapVal, valEnc, writeByte, writeBytes, List.append_assoc]
  | .vRect shorts, out, _ => by
    simp [writeMapVal, valEnc, writeByte, writeBytes, List.append_assoc]
  | .vNull, out, _ => by
    simp [writeMapVal, valEnc, writeByte]
  | .vMap m, out, hcov => by
    rw [writeMapVal]
    rw [_writeMap_mapEnc toBil cache m _ (by simpa [TVal.coveredVal] using hcov)]
    dsimp only [Bind.bind, Except.bind]
    rw [_writeString_eq]
    simp [valEnc, writeByte, sentinelEnc, List.append_assoc]
end

theorem sentinelEnc_eq : sentinelEnc = int4 0 ++ [4] := by
  simp [sentinelEnc, strEnc]

theorem readMap_sentinel (order : List JStr) (A B : List Nat) (f : Nat) (acc : TMap)
    (horder : order.length < 2147483648) :
    _readMap order (A ++ sentinelEnc ++ B) (f + 1) (A.length : Int) acc =
      .ok (acc, (A.length : Int) + 5) := by
  simp only [_readMap]
  by_cases hord : order.isEmpty
  · have hempty : order = [] := List.isEmpty_iff.mp hord
    subst hempty
    rw [show A ++ sentinelEnc ++ B = A ++ strEnc [] ++ ([4] ++ B) by
      simp [sentinelEnc, List.append_assoc]]
    rw [show _readCachedString [] (A ++ strEnc [] ++ ([4] ++ B)) (A.length : Int) =
      _readString (A ++ strEnc [] ++ ([4] ++ B)) (A.length : Int) by
        simp [_readCachedString]]
    rw [readString_strEnc _ _ _ (by simp)]
    dsimp only [Bind.bind, Except.bind]
    rw [show (A.length : Int) + 4 + (([] : JStr).length : Int) =
      (((A ++ strEnc []).length : Nat) : Int) by simp [strEnc_length]]
    rw [show A ++ strEnc [] ++ ([4] ++ B) = (A ++ strEnc []) ++ 4 :: B by
      simp [List.append_assoc]]
    rw [readSignedByte_at]
    dsimp only [Bind.bind, Except.bind]
    rw [toInt8_id 4 (by norm_num)]
    rw [if_pos (by norm_num [ENDOFMAP])]
    simp [strEnc_length]
    all_goals omega
  · rw [show A ++ sentinelEnc ++ B = A ++ int4 0 ++ ([4] ++ B) by
      simp [sentinelEnc_eq, List.append_assoc]]
    rw [show _readCachedString order (A ++ int4 0 ++ ([4] ++ B)) (A.length : Int) =
      (do
        let (idx, o) ← readInt (A ++ int4 0 ++ ([4] ++ B)) (A.length : Int)
        if 0 ≤ idx ∧ idx < (order.length : Int) then .ok (order.getD idx.toNat [], o)
        else .error .badCacheRef) by
        simp [_readCachedString, hord]]
    rw [readInt_int4_id _ _ _ (by norm_num)]
    dsimp only [Bind.bind, Except.bind]
    have hpos : 0 < order.length := by
      rcases order with _ | _
      · simp at hord
      · simp
    rw [if_pos (by constructor <;> [omega; (push_cast; omega)])]
    dsimp only [Bind.bind, Except.bind]
    rw [len_after_int4 A 0]
    rw [show A ++ int4 0 ++ ([4] ++ B) = (A ++ int4 0) ++ 4 :: B by
      simp [List.append_assoc]]
    rw [readSignedByte_at]
    dsimp only [Bind.bind, Except.bind]
    rw [toInt8_id 4 (by norm_num)]
    rw [if_pos (by norm_num [ENDOFMAP])]
    simp [int4_length]
    all_goals omega

theorem readMap_unknownTag (cache : List (JStr × Nat)) (order : List JStr)
    (hinv : cache = enumFrom 0 order) (horder : order.length < 2147483648)
    (A B : List Nat) (k : JStr) (t : Nat) (acc : TMap) (f : Nat)
    (hk : cache.isEmpty ∨ (cache.lookup k).isSome) (hklen : k.length < 2147483648)
    (hne : toInt8 t ∉ ([1, 2, 3, 4, 5, 6, 7, 9, 11, 12] : List Int)) :
    _readMap order (A ++ keyEnc cache k ++ (t :: B)) (f + 1) (A.length : Int) acc =
      .ok (acc, (A.length : Int) + ((keyEnc cache k).length : Int) + 1) := by
  simp only [List.mem_cons, List.not_mem_nil, or_false, not_or] at hne
  obtain ⟨q1, q2, q3, q4, q5, q6, q7, q9, q11, q12⟩ := hne
  simp only [_readMap]
  rw [_readCachedString_keyEnc cache order A (t :: B) k hinv hk horder hklen]
  dsimp only [Bind.bind, Except.bind]
  rw [len_after_chunk A (keyEnc cache k)]
  rw [readSignedByte_at]
  dsimp only [Bind.bind, Except.bind]
  rw [if_neg (by simp only [ENDOFMAP]; exact q4), if_neg (by simp only [CINT]; exact q1),
    if_neg (by simp only [CACHED_STRING]; exact q9), if_neg (by simp only [CFLOAT]; exact q7),
    if_neg (by simp only [CSTRING]; exact q2), if_neg (by simp only [BOOL]; exact q5),
    if_neg (by simp only [CMAP]; exact q3), if_neg (by simp only [CNULL]; exact q12),
    if_neg (by simp only [CCOLOR]; exact q6), if_neg (by simp only [RECT32]; exact q11)]

theorem mapFuel_pos : ∀ m : TMap, 1 ≤ m.mapFuel
  | .nil => le_refl 1
  | .cons _ _ _ => by rw [TMap.mapFuel]; omega

theorem reduceIf_nil (toBil : Bool) : reduceIf toBil .nil = .nil := by
  cases toBil <;> rfl

theorem reduceIf_cons_skip (toBil : Bool) (k : JStr) (v : TVal) (r : TMap)
    (h : (toBil && isBilSkipped v) = true) :
    reduceIf toBil (.cons k v r) = reduceIf toBil r := by
  simp only [Bool.and_eq_true] at h
  rw [h.1] at *
  simp only [reduceIf, if_true, TMap.bilReduce, h.2]

theorem reduceIf_cons_keep (toBil : Bool) (k : JStr) (v : TVal) (r : TMap)
    (h : (toBil && isBilSkipped v) = false) :
    reduceIf toBil (.cons k v r) =
      .cons k (if toBil then v.bilReduceVal else v) (reduceIf toBil r) := by
  cases toBil
  · simp [reduceIf]
  · simp only [Bool.true_and] at h
    simp only [reduceIf, if_true, TMap.bilReduce, h, if_false, Bool.false_eq_true]

theorem bilReduceVal_scalar : ∀ v : TVal, (∀ mi, v ≠ .vMap mi) → v.bilReduceVal = v
  | .vInt _, _ => rfl
  | .vStr _, _ => rfl
  | .vBool _, _ => rfl
  | .vFloat _, _ => rfl
  | .vUStr _, _ => rfl
  | .vColor _, _ => rfl
  | .vRect _, _ => rfl
  | .vNull, _ => rfl
  | .vMap mi, h => absurd rfl (h mi)

theorem sentinelEnc_length : sentinelEnc.length = 5 := rfl

theorem mapEnc_cons_skip (toBil : Bool) (cache : List (JStr × Nat)) (k : JStr)
    (v : TVal) (r : TMap) (h : (toBil && isBilSkipped v) = true) :
    mapEnc toBil cache (.cons k v r) = mapEnc toBil cache r := by
  rw [mapEnc, h]
  simp

theorem mapEnc_cons_keep (toBil : Bool) (cache : List (JStr × Nat)) (k : JStr)
    (v : TVal) (r : TMap) (h : (toBil && isBilSkipped v) = false) :
    mapEnc toBil cache (.cons k v r) =
      keyEnc cache k ++ (valEnc toBil cache v ++ mapEnc toBil cache r) := by
  rw [mapEnc, h]
  simp [List.append_assoc]

theorem nice_cons (k : JStr) (v : TVal) (r : TMap)
    (h : (TMap.cons k v r).nice = true) :
    properKey k = true ∧ k.length < 2147483648 ∧ r.keys.contains k = false ∧
      v.nice = true ∧ r.nice = true := by
  simp only [TMap.nice, Bool.and_eq_true, Bool.not_eq_true', decide_eq_true_eq] at h
  tauto

theorem covered_cons (cache : List (JStr × Nat)) (k : JStr) (v : TVal) (r : TMap)
    (h : (TMap.cons k v r).covered cache = true) :
    (cache.isEmpty = true ∨ (cache.lookup k).isSome = true) ∧
      v.coveredVal cache = true ∧ r.covered cache = true := by
  simp only [TMap.covered, Bool.and_eq_true, Bool.or_eq_true] at h
  tauto

theorem _readMap_mapEnc (toBil : Bool) (cache : List (JStr × Nat)) (order : List JStr)
    (hinv : cache = enumFrom 0 order) (horder : order.length < 2147483648) :
    ∀ (m : TMap) (A B : List Nat) (acc : TMap) (fuel : Nat) (endOff : Int),
      m.nice = true → m.covered cache = true →
      (reduceIf toBil m).mapFuel ≤ fuel →
      (∀ k, k ∈ acc.keys → k ∉ m.keys) →
      (∀ (f : Nat) (acc' : TMap),
        _readMap order (A ++ mapEnc toBil cache m ++ B) (f + 1)
          (((A ++ mapEnc toBil cache m).length : Nat) : Int) acc' = .ok (acc', endOff)) →
      _readMap order (A ++ mapEnc toBil cache m ++ B) fuel (A.length : Int) acc =
        .ok (acc.appendM (reduceIf toBil m), endOff)
  | .nil, A, B, acc, fuel, endOff => by
    intro _ _ hfuel _ hend
    rcases fuel with _ | f
    · exact absurd (le_trans (mapFuel_pos _) hfuel) (by omega)
    · have h := hend f acc
      rw [show mapEnc toBil cache .nil = [] from rfl] at h ⊢
      simp only [List.append_nil] at h ⊢
      rw [h, reduceIf_nil, appendM_nil_right]
  | .cons k (.vInt n) r, A, B, acc, fuel, endOff => by
    intro hnice hcov hfuel hdisj hend
    obtain ⟨hpk, hkl, hkc, hv, hr⟩ := nice_cons k _ r hnice
    obtain ⟨hkcov, hvcov, hrcov⟩ := covered_cons cache k _ r hcov
    have hkfresh : k ∉ acc.keys := fun hc => hdisj k hc (by simp [TMap.keys])
    have hknr : k ∉ r.keys := by simpa using hkc
    have hdisj2 : ∀ k' ∈ (acc.appendM (.cons k (TVal.vInt n) .nil)).keys, k' ∉ r.keys := by
      intro k' hk'
      rw [appendM_keys] at hk'
      simp only [TMap.keys, List.mem_append, List.mem_cons] at hk'
      rcases hk' with hk' | hk' | hk'
      · exact fun hc => hdisj k' hk' (by simp [TMap.keys, hc])
      · subst hk'
        exact hknr
      · simp [TMap.keys] at hk'
    have hskip : (toBil && isBilSkipped (TVal.vInt n)) = false := by
      simp [isBilSkipped]
    simp only [TVal.nice, decide_eq_true_eq] at hv
    rw [mapEnc_cons_keep _ _ _ _ _ hskip] at hend ⊢
    rw [reduceIf_cons_keep _ _ _ _ hskip] at hfuel ⊢
    rcases fuel with _ | f
    · exfalso
      simp [TMap.mapFuel] at hfuel
    have hVE : valEnc toBil cache (TVal.vInt n) = 1 :: int4 n := rfl
    rw [hVE] at hend ⊢
    simp only [_readMap]
    rw [show A ++ (keyEnc cache k ++ (1 :: int4 n ++ mapEnc toBil cache r)) ++ B =
      A ++ keyEnc cache k ++ (1 :: int4 n ++ mapEnc toBil cache r ++ B) by
        simp [List.append_assoc]]
    rw [_readCachedString_keyEnc cache order A _ k hinv hkcov horder hkl]
    dsimp only [Bind.bind, Except.bind]
    rw [len_after_chunk A (keyEnc cache k)]
    rw [show A ++ keyEnc cache k ++ (1 :: int4 n ++ mapEnc toBil cache r ++ B) =
      (A ++ keyEnc cache k) ++ 1 :: (int4 n ++ (mapEnc toBil cache r ++ B)) by
        simp [List.append_assoc]]
    rw [readSignedByte_at]
    dsimp only [Bind.bind, Except.bind]
    rw [toInt8_id 1 (by norm_num)]
    rw [if_neg (by norm_num [ENDOFMAP]), if_pos (by norm_num [CINT])]
    rw [show ((A ++ keyEnc cache k).length : Int) + 1 =
      (((A ++ keyEnc cache k ++ [1]).length : Nat) : Int) by simp <;> omega]
    rw [show (A ++ keyEnc cache k) ++ 1 :: (int4 n ++ (mapEnc toBil cache r ++ B)) =
      (A ++ keyEnc cache k ++ [1]) ++ int4 n ++ (mapEnc toBil cache r ++ B) by
        simp [List.append_assoc]]
    rw [readInt_int4_id _ _ _ (by omega)]
    dsimp only [Bind.bind, Except.bind]
    rw [len_after_int4 (A ++ keyEnc cache k ++ [1]) n]
    rw [show (A ++ keyEnc cache k ++ [1]) ++ int4 n ++ (mapEnc toBil cache r ++ B) =
      ((A ++ keyEnc cache k ++ [1]) ++ int4 n) ++ mapEnc toBil cache r ++ B by
        simp [List.append_assoc]]
    rw [set_fresh k _ (properKey_ne_proto k hpk) acc hkfresh]
    have hend2 : ∀ (f : Nat) (acc' : TMap),
        _readMap order (((A ++ keyEnc cache k ++ [1]) ++ int4 n) ++
            mapEnc toBil cache r ++ B) (f + 1)
          (((((A ++ keyEnc cache k ++ [1]) ++ int4 n) ++
            mapEnc toBil cache r).length : Nat) : Int) acc' = .ok (acc', endOff) := by
      intro f2 acc'
      have h := hend f2 acc'
      rw [show A ++ (keyEnc cache k ++ (1 :: int4 n ++ mapEnc toBil cache r)) ++ B =
        ((A ++ keyEnc cache k ++ [1]) ++ int4 n) ++ mapEnc toBil cache r ++ B by
          simp [List.append_assoc]] at h
      rw [show (((A ++ (keyEnc cache k ++ (1 :: int4 n ++ mapEnc toBil cache r))).length :
          Nat) : Int) =
        (((((A ++ keyEnc cache k ++ [1]) ++ int4 n) ++
          mapEnc toBil cache r).length : Nat) : Int) by simp <;> omega] at h
      exact h
    rw [_readMap_mapEnc toBil cache order hinv horder r _ B _ f endOff hr hrcov
      (by simp [TMap.mapFuel] at hfuel ⊢; omega) hdisj2 hend2]
    rw [appendM_snoc]
    have hred : (if toBil then (TVal.vInt n).bilReduceVal else TVal.vInt n) =
        TVal.vInt n := by
      cases toBil <;> rfl
    rw [hred]
  | .cons k (.vStr s) r, A, B, acc, fuel, endOff => by
    intro hnice hcov hfuel hdisj hend
    obtain ⟨hpk, hkl, hkc, hv, hr⟩ := nice_cons k _ r hnice
    obtain ⟨hkcov, hvcov, hrcov⟩ := covered_cons cache k _ r hcov
    have hkfresh : k ∉ acc.keys := fun hc => hdisj k hc (by simp [TMap.keys])
    have hknr : k ∉ r.keys := by simpa using hkc
    have hdisj2 : ∀ k' ∈ (acc.appendM (.cons k (TVal.vStr s) .nil)).keys, k' ∉ r.keys := by
      intro k' hk'
      rw [appendM_keys] at hk'
      simp only [TMap.keys, List.mem_append, List.mem_cons] at hk'
      rcases hk' with hk' | hk' | hk'
      · exact fun hc => hdisj k' hk' (by simp [TMap.keys, hc])
      · subst hk'
        exact hknr
      · simp [TMap.keys] at hk'
    have hskip : (toBil && isBilSkipped (TVal.vStr s)) = false := by
      simp [isBilSkipped]
    have hv2 : properKey s = true ∧ s.length < 2147483648 := by
      simpa [TVal.nice, Bool.and_eq_true] using hv
    have hscov : cache.isEmpty = true ∨ (cache.lookup s).isSome = true := by
      simpa [TVal.coveredVal, Bool.or_eq_true] using hvcov
    rw [mapEnc_cons_keep _ _ _ _ _ hskip] at hend ⊢
    rw [reduceIf_cons_keep _ _ _ _ hskip] at hfuel ⊢
    rcases fuel with _ | f
    · exfalso
      simp [TMap.mapFuel] at hfuel
    have hVE : valEnc toBil cache (TVal.vStr s) = 9 :: keyEnc cache s := rfl
    rw [hVE] at hend ⊢
    simp only [_readMap]
    rw [show A ++ (keyEnc cache k ++ (9 :: keyEnc cache s ++ mapEnc toBil cache r)) ++ B =
      A ++ keyEnc cache k ++ (9 :: keyEnc cache s ++ mapEnc toBil cache r ++ B) by
        simp [List.append_assoc]]
    rw [_readCachedString_keyEnc cache order A _ k hinv hkcov horder hkl]
    dsimp only [Bind.bind, Except.bind]
    rw [len_after_chunk A (keyEnc cache k)]
    rw [show A ++ keyEnc cache k ++ (9 :: keyEnc cache s ++ mapEnc toBil cache r ++ B) =
      (A ++ keyEnc cache k) ++ 9 :: (keyEnc cache s ++ (mapEnc toBil cache r ++ B)) by
        simp [List.append_assoc]]
    rw [readSignedByte_at]
    dsimp only [Bind.bind, Except.bind]
    rw [toInt8_id 9 (by norm_num)]
    rw [if_neg (by norm_num [ENDOFMAP]), if_neg (by norm_num [CINT]),
      if_pos (by norm_num [CACHED_STRING])]
    rw [show ((A ++ keyEnc cache k).length : Int) + 1 =
      (((A ++ keyEnc cache k ++ [9]).length : Nat) : Int) by simp <;> omega]
    rw [show (A ++ keyEnc cache k) ++ 9 :: (keyEnc cache s ++ (mapEnc toBil cache r ++ B)) =
      (A ++ keyEnc cache k ++ [9]) ++ keyEnc cache s ++ (mapEnc toBil cache r ++ B) by
        simp [List.append_assoc]]
    rw [_readCachedString_keyEnc cache order (A ++ keyEnc cache k ++ [9]) _ s hinv hscov
      horder hv2.2]
    dsimp only [Bind.bind, Except.bind]
    rw [len_after_chunk (A ++ keyEnc cache k ++ [9]) (keyEnc cache s)]
    rw [show (A ++ keyEnc cache k ++ [9]) ++ keyEnc cache s ++ (mapEnc toBil cache r ++ B) =
      ((A ++ keyEnc cache k ++ [9]) ++ keyEnc cache s) ++ mapEnc toBil cache r ++ B by
        simp [List.append_assoc]]
    skip
    rw [set_fresh k _ (properKey_ne_proto k hpk) acc hkfresh]
    have hend2 : ∀ (f : Nat) (acc' : TMap),
        _readMap order (((A ++ keyEnc cache k ++ [9]) ++ keyEnc cache s) ++
            mapEnc toBil cache r ++ B) (f + 1)
          (((((A ++ keyEnc cache k ++ [9]) ++ keyEnc cache s) ++
            mapEnc toBil cache r).length : Nat) : Int) acc' = .ok (acc', endOff) := by
      intro f2 acc'
      have h := hend f2 acc'
      rw [show A ++ (keyEnc cache k ++ (9 :: keyEnc cache s ++ mapEnc toBil cache r)) ++ B =
        ((A ++ keyEnc cache k ++ [9]) ++ keyEnc cache s) ++ mapEnc toBil cache r ++ B by
          simp [List.append_assoc]] at h
      rw [show (((A ++ (keyEnc cache k ++ (9 :: keyEnc cache s ++ mapEnc toBil cache r))).length :
          Nat) : Int) =
        (((((A ++ keyEnc cache k ++ [9]) ++ keyEnc cache s) ++
          mapEnc toBil cache r).length : Nat) : Int) by simp <;> omega] at h
      exact h
    rw [_readMap_mapEnc toBil cache order hinv horder r _ B _ f endOff hr hrcov
      (by simp [TMap.mapFuel] at hfuel ⊢; omega) hdisj2 hend2]
    rw [appendM_snoc]
    have hred : (if toBil then (TVal.vStr s).bilReduceVal else TVal.vStr s) =
        TVal.vStr s := by
      cases toBil <;> rfl
    rw [hred]
  | .cons k (.vFloat bits) r, A, B, acc, fuel, endOff => by
    intro hnice hcov hfuel hdisj hend
    obtain ⟨hpk, hkl, hkc, hv, hr⟩ := nice_cons k _ r hnice
    obtain ⟨hkcov, hvcov, hrcov⟩ := covered_cons cache k _ r hcov
    have hkfresh : k ∉ acc.keys := fun hc => hdisj k hc (by simp [TMap.keys])
    have hknr : k ∉ r.keys := by simpa using hkc
    have hdisj2 : ∀ k' ∈ (acc.appendM (.cons k (TVal.vFloat bits) .nil)).keys, k' ∉ r.keys := by
      intro k' hk'
      rw [appendM_keys] at hk'
      simp only [TMap.keys, List.mem_append, List.mem_cons] at hk'
      rcases hk' with hk' | hk' | hk'
      · exact fun hc => hdisj k' hk' (by simp [TMap.keys, hc])
      · subst hk'
        exact hknr
      · simp [TMap.keys] at hk'
    have hskip : (toBil && isBilSkipped (TVal.vFloat bits)) = false := by
      simp [isBilSkipped]
    have hv2 : bits < 4294967296 ∧ isNaN32 bits = false := by
      simpa [TVal.nice, Bool.and_eq_true] using hv
    rw [mapEnc_cons_keep _ _ _ _ _ hskip] at hend ⊢
    rw [reduceIf_cons_keep _ _ _ _ hskip] at hfuel ⊢
    rcases fuel with _ | f
    · exfalso
      simp [TMap.mapFuel] at hfuel
    have hVE : valEnc toBil cache (TVal.vFloat bits) = 7 :: int4 (bits : Int) := rfl
    rw [hVE] at hend ⊢
    simp only [_readMap]
    rw [show A ++ (keyEnc cache k ++ (7 :: int4 (bits : Int) ++ mapEnc toBil cache r)) ++ B =
      A ++ keyEnc cache k ++ (7 :: int4 (bits : Int) ++ mapEnc toBil cache r ++ B) by
        simp [List.append_assoc]]
    rw [_readCachedString_keyEnc cache order A _ k hinv hkcov horder hkl]
    dsimp only [Bind.bind, Except.bind]
    rw [len_after_chunk A (keyEnc cache k)]
    rw [show A ++ keyEnc cache k ++ (7 :: int4 (bits : Int) ++ mapEnc toBil cache r ++ B) =
      (A ++ keyEnc cache k) ++ 7 :: (int4 (bits : Int) ++ (mapEnc toBil cache r ++ B)) by
        simp [List.append_assoc]]
    rw [readSignedByte_at]
    dsimp only [Bind.bind, Except.bind]
    rw [toInt8_id 7 (by norm_num)]
    rw [if_neg (by norm_num [ENDOFMAP]), if_neg (by norm_num [CINT]),
      if_neg (by norm_num [CACHED_STRING]), if_pos (by norm_num [CFLOAT])]
    rw [show ((A ++ keyEnc cache k).length : Int) + 1 =
      (((A ++ keyEnc cache k ++ [7]).length : Nat) : Int) by simp <;> omega]
    rw [show (A ++ keyEnc cache k) ++ 7 :: (int4 (bits : Int) ++ (mapEnc toBil cache r ++ B)) =
      (A ++ keyEnc cache k ++ [7]) ++ int4 (bits : Int) ++ (mapEnc toBil cache r ++ B) by
        simp [List.append_assoc]]
    rw [readFloat_int4 _ _ _ hv2.1]
    dsimp only [Bind.bind, Except.bind]
    rw [len_after_int4 (A ++ keyEnc cache k ++ [7]) (bits : Int)]
    rw [show (A ++ keyEnc cache k ++ [7]) ++ int4 (bits : Int) ++ (mapEnc toBil cache r ++ B) =
      ((A ++ keyEnc cache k ++ [7]) ++ int4 (bits : Int)) ++ mapEnc toBil cache r ++ B by
        simp [List.append_assoc]]
    skip
    rw [set_fresh k _ (properKey_ne_proto k hpk) acc hkfresh]
    have hend2 : ∀ (f : Nat) (acc' : TMap),
        _readMap order (((A ++ keyEnc cache k ++ [7]) ++ int4 (bits : Int)) ++
            mapEnc toBil cache r ++ B) (f + 1)
          (((((A ++ keyEnc cache k ++ [7]) ++ int4 (bits : Int)) ++
            mapEnc toBil cache r).length : Nat) : Int) acc' = .ok (acc', endOff) := by
      intro f2 acc'
      have h := hend f2 acc'
      rw [show A ++ (keyEnc cache k ++ (7 :: int4 (bits : Int) ++ mapEnc toBil cache r)) ++ B =
        ((A ++ keyEnc cache k ++ [7]) ++ int4 (bits : Int)) ++ mapEnc toBil cache r ++ B by
          simp [List.append_assoc]] at h
      rw [show (((A ++ (keyEnc cache k ++ (7 :: int4 (bits : Int) ++ mapEnc toBil cache r))).length :
          Nat) : Int) =
        (((((A ++ keyEnc cache k ++ [7]) ++ int4 (bits : Int)) ++
          mapEnc toBil cache r).length : Nat) : Int) by simp <;> omega] at h
      exact h
    rw [_readMap_mapEnc toBil cache order hinv horder r _ B _ f endOff hr hrcov
      (by simp [TMap.mapFuel] at hfuel ⊢; omega) hdisj2 hend2]
    rw [appendM_snoc]
    have hred : (if toBil then (TVal.vFloat bits).bilReduceVal else TVal.vFloat bits) =
        TVal.vFloat bits := by
      cases toBil <;> rfl
    rw [hred]
  | .cons k (.vUStr s) r, A, B, acc, fuel, endOff => by
    intro hnice hcov hfuel hdisj hend
    obtain ⟨hpk, hkl, hkc, hv, hr⟩ := nice_cons k _ r hnice
    obtain ⟨hkcov, hvcov, hrcov⟩ := covered_cons cache k _ r hcov
    have hkfresh : k ∉ acc.keys := fun hc => hdisj k hc (by simp [TMap.keys])
    have hknr : k ∉ r.keys := by simpa using hkc
    have hdisj2 : ∀ k' ∈ (acc.appendM (.cons k (TVal.vUStr s) .nil)).keys, k' ∉ r.keys := by
      intro k' hk'
      rw [appendM_keys] at hk'
      simp only [TMap.keys, List.mem_append, List.mem_cons] at hk'
      rcases hk' with hk' | hk' | hk'
      · exact fun hc => hdisj k' hk' (by simp [TMap.keys, hc])
      · subst hk'
        exact hknr
      · simp [TMap.keys] at hk'
    have hskip : (toBil && isBilSkipped (TVal.vUStr s)) = false := by
      simp [isBilSkipped]
    have hv2 : s.length < 2147483648 := by
      simpa [TVal.nice] using hv
    rw [mapEnc_cons_keep _ _ _ _ _ hskip] at hend ⊢
    rw [reduceIf_cons_keep _ _ _ _ hskip] at hfuel ⊢
    rcases fuel with _ | f
    · exfalso
      simp [TMap.mapFuel] at hfuel
    have hVE : valEnc toBil cache (TVal.vUStr s) = 2 :: strEnc s := rfl
    rw [hVE] at hend ⊢
    simp only [_readMap]
    rw [show A ++ (keyEnc cache k ++ (2 :: strEnc s ++ mapEnc toBil cache r)) ++ B =
      A ++ keyEnc cache k ++ (2 :: strEnc s ++ mapEnc toBil cache r ++ B) by
        simp [List.append_assoc]]
    rw [_readCachedString_keyEnc cache order A _ k hinv hkcov horder hkl]
    dsimp only [Bind.bind, Except.bind]
    rw [len_after_chunk A (keyEnc cache k)]
    rw [show A ++ keyEnc cache k ++ (2 :: strEnc s ++ mapEnc toBil cache r ++ B) =
      (A ++ keyEnc cache k) ++ 2 :: (strEnc s ++ (mapEnc toBil cache r ++ B)) by
        simp [List.append_assoc]]
    rw [readSignedByte_at]
    dsimp only [Bind.bind, Except.bind]
    rw [toInt8_id 2 (by norm_num)]
    rw [if_neg (by norm_num [ENDOFMAP]), if_neg (by norm_num [CINT]),
      if_neg (by norm_num [CACHED_STRING]), if_neg (by norm_num [CFLOAT]),
      if_pos (by norm_num [CSTRING])]
    rw [show ((A ++ keyEnc cache k).length : Int) + 1 =
      (((A ++ keyEnc cache k ++ [2]).length : Nat) : Int) by simp <;> omega]
    rw [show (A ++ keyEnc cache k) ++ 2 :: (strEnc s ++ (mapEnc toBil cache r ++ B)) =
      (A ++ keyEnc cache k ++ [2]) ++ strEnc s ++ (mapEnc toBil cache r ++ B) by
        simp [List.append_assoc]]
    rw [readString_strEnc _ _ _ hv2]
    dsimp only [Bind.bind, Except.bind]
    have hoffeq : (((A ++ keyEnc cache k ++ [2]).length : Nat) : Int) + 4 +
        ((s.length : Nat) : Int) =
      ((((A ++ keyEnc cache k ++ [2] ++ strEnc s).length : Nat) : Nat) : Int) := by
        simp [strEnc_length] <;> omega
    rw [hoffeq]
    rw [show (A ++ keyEnc cache k ++ [2]) ++ strEnc s ++ (mapEnc toBil cache r ++ B) =
      ((A ++ keyEnc cache k ++ [2]) ++ strEnc s) ++ mapEnc toBil cache r ++ B by
        simp [List.append_assoc]]
    skip
    rw [set_fresh k _ (properKey_ne_proto k hpk) acc hkfresh]
    have hend2 : ∀ (f : Nat) (acc' : TMap),
        _readMap order (((A ++ keyEnc cache k ++ [2]) ++ strEnc s) ++
            mapEnc toBil cache r ++ B) (f + 1)
          (((((A ++ keyEnc cache k ++ [2]) ++ strEnc s) ++
            mapEnc toBil cache r).length : Nat) : Int) acc' = .ok (acc', endOff) := by
      intro f2 acc'
      have h := hend f2 acc'
      rw [show A ++ (keyEnc cache k ++ (2 :: strEnc s ++ mapEnc toBil cache r)) ++ B =
        ((A ++ keyEnc cache k ++ [2]) ++ strEnc s) ++ mapEnc toBil cache r ++ B by
          simp [List.append_assoc]] at h
      rw [show (((A ++ (keyEnc cache k ++ (2 :: strEnc s ++ mapEnc toBil cache r))).length :
          Nat) : Int) =
        (((((A ++ keyEnc cache k ++ [2]) ++ strEnc s) ++
          mapEnc toBil cache r).length : Nat) : Int) by simp <;> omega] at h
      exact h
    rw [_readMap_mapEnc toBil cache order hinv horder r _ B _ f endOff hr hrcov
      (by simp [TMap.mapFuel] at hfuel ⊢; omega) hdisj2 hend2]
    rw [appendM_snoc]
    have hred : (if toBil then (TVal.vUStr s).bilReduceVal else TVal.vUStr s) =
        TVal.vUStr s := by
      cases toBil <;> rfl
    rw [hred]
  | .cons k (.vBool b) r, A, B, acc, fuel, endOff => by
    intro hnice hcov hfuel hdisj hend
    obtain ⟨hpk, hkl, hkc, hv, hr⟩ := nice_cons k _ r hnice
    obtain ⟨hkcov, hvcov, hrcov⟩ := covered_cons cache k _ r hcov
    have hkfresh : k ∉ acc.keys := fun hc => hdisj k hc (by simp [TMap.keys])
    have hknr : k ∉ r.keys := by simpa using hkc
    have hdisj2 : ∀ k' ∈ (acc.appendM (.cons k (TVal.vBool b) .nil)).keys, k' ∉ r.keys := by
      intro k' hk'
      rw [appendM_keys] at hk'
      simp only [TMap.keys, List.mem_append, List.mem_cons] at hk'
      rcases hk' with hk' | hk' | hk'
      · exact fun hc => hdisj k' hk' (by simp [TMap.keys, hc])
      · subst hk'
        exact hknr
      · simp [TMap.keys] at hk'
    have hskip : (toBil && isBilSkipped (TVal.vBool b)) = false := by
      simp [isBilSkipped]
    skip
    rw [mapEnc_cons_keep _ _ _ _ _ hskip] at hend ⊢
    rw [reduceIf_cons_keep _ _ _ _ hskip] at hfuel ⊢
    rcases fuel with _ | f
    · exfalso
      simp [TMap.mapFuel] at hfuel
    have hVE : valEnc toBil cache (TVal.vBool b) = 5 :: [if b then 1 else 0] := rfl
    rw [hVE] at hend ⊢
    simp only [_readMap]
    rw [show A ++ (keyEnc cache k ++ (5 :: [if b then 1 else 0] ++ mapEnc toBil cache r)) ++ B =
      A ++ keyEnc cache k ++ (5 :: [if b then 1 else 0] ++ mapEnc toBil cache r ++ B) by
        simp [List.append_assoc]]
    rw [_readCachedString_keyEnc cache order A _ k hinv hkcov horder hkl]
    dsimp only [Bind.bind, Except.bind]
    rw [len_after_chunk A (keyEnc cache k)]
    rw [show A ++ keyEnc cache k ++ (5 :: [if b then 1 else 0] ++ mapEnc toBil cache r ++ B) =
      (A ++ keyEnc cache k) ++ 5 :: ([if b then 1 else 0] ++ (mapEnc toBil cache r ++ B)) by
        simp [List.append_assoc]]
    rw [readSignedByte_at]
    dsimp only [Bind.bind, Except.bind]
    rw [toInt8_id 5 (by norm_num)]
    rw [if_neg (by norm_num [ENDOFMAP]), if_neg (by norm_num [CINT]),
      if_neg (by norm_num [CACHED_STRING]), if_neg (by norm_num [CFLOAT]),
      if_neg (by norm_num [CSTRING]), if_pos (by norm_num [BOOL])]
    rw [show ((A ++ keyEnc cache k).length : Int) + 1 =
      (((A ++ keyEnc cache k ++ [5]).length : Nat) : Int) by simp <;> omega]
    rw [show (A ++ keyEnc cache k) ++ 5 :: ([if b then 1 else 0] ++ (mapEnc toBil cache r ++ B)) =
      (A ++ keyEnc cache k ++ [5]) ++ [if b then 1 else 0] ++ (mapEnc toBil cache r ++ B) by
        simp [List.append_assoc]]
    rw [show (A ++ keyEnc cache k ++ [5]) ++ [if b then 1 else 0] ++
      (mapEnc toBil cache r ++ B) =
      (A ++ keyEnc cache k ++ [5]) ++ (if b then 1 else 0) ::
        (mapEnc toBil cache r ++ B) by simp]
    rw [readSignedByte_at]
    dsimp only [Bind.bind, Except.bind]
    have hoffeq : (((A ++ keyEnc cache k ++ [5]).length : Nat) : Int) + 1 =
        ((((A ++ keyEnc cache k ++ [5]) ++ [if b then 1 else 0]).length : Nat) : Int) := by
      simp <;> omega
    rw [hoffeq]
    rw [show (A ++ keyEnc cache k ++ [5]) ++ (if b then 1 else 0) ::
        (mapEnc toBil cache r ++ B) =
      ((A ++ keyEnc cache k ++ [5]) ++ [if b then 1 else 0]) ++
        (mapEnc toBil cache r ++ B) by simp]
    rw [show (A ++ keyEnc cache k ++ [5]) ++ [if b then 1 else 0] ++ (mapEnc toBil cache r ++ B) =
      ((A ++ keyEnc cache k ++ [5]) ++ [if b then 1 else 0]) ++ mapEnc toBil cache r ++ B by
        simp [List.append_assoc]]
    have hbv : TVal.vBool (toInt8 (if b then 1 else 0) = 1) = TVal.vBool b := by
      cases b <;> rfl
    rw [hbv]
    rw [set_fresh k _ (properKey_ne_proto k hpk) acc hkfresh]
    have hend2 : ∀ (f : Nat) (acc' : TMap),
        _readMap order (((A ++ keyEnc cache k ++ [5]) ++ [if b then 1 else 0]) ++
            mapEnc toBil cache r ++ B) (f + 1)
          (((((A ++ keyEnc cache k ++ [5]) ++ [if b then 1 else 0]) ++
            mapEnc toBil cache r).length : Nat) : Int) acc' = .ok (acc', endOff) := by
      intro f2 acc'
      have h := hend f2 acc'
      convert h using 2
      all_goals simp [List.append_assoc]
      all_goals omega
    rw [_readMap_mapEnc toBil cache order hinv horder r _ B _ f endOff hr hrcov
      (by simp [TMap.mapFuel] at hfuel ⊢; omega) hdisj2 hend2]
    rw [appendM_snoc]
    have hred : (if toBil then (TVal.vBool b).bilReduceVal else TVal.vBool b) =
        TVal.vBool b := by
      cases toBil <;> rfl
    rw [hred]
  | .cons k (.vColor hex) r, A, B, acc, fuel, endOff => by
    intro hnice hcov hfuel hdisj hend
    obtain ⟨hpk, hkl, hkc, hv, hr⟩ := nice_cons k _ r hnice
    obtain ⟨hkcov, hvcov, hrcov⟩ := covered_cons cache k _ r hcov
    have hkfresh : k ∉ acc.keys := fun hc => hdisj k hc (by simp [TMap.keys])
    have hknr : k ∉ r.keys := by simpa using hkc
    have hdisj2 : ∀ k' ∈ (acc.appendM (.cons k (TVal.vColor hex) .nil)).keys,
        k' ∉ r.keys := by
      intro k' hk'
      rw [appendM_keys] at hk'
      simp only [TMap.keys, List.mem_append, List.mem_cons] at hk'
      rcases hk' with hk' | hk' | hk'
      · exact fun hc => hdisj k' hk' (by simp [TMap.keys, hc])
      · subst hk'
        exact hknr
      · simp [TMap.keys] at hk'
    have hskip : (toBil && isBilSkipped (TVal.vColor hex)) = false := by
      simp [isBilSkipped]
    have hv2 : hex.take 2 = strBytes "0x" ∧ (hex.drop 2).length = 8 ∧
        (hex.drop 2).all isUpperHex = true := by
      simpa [TVal.nice, niceColorHex, Bool.and_eq_true, decide_eq_true_eq,
        and_assoc] using hv
    have hfid : (hex.drop 2).filter isHexChar = hex.drop 2 :=
      filter_of_upper _ hv2.2.2
    have hdl : (_hexToBytes (hex.drop 2)).length = 4 := by
      rw [_hexToBytes, hfid, hexPairs_length _ (by omega), hv2.2.1]
    rw [mapEnc_cons_keep _ _ _ _ _ hskip] at hend ⊢
    rw [reduceIf_cons_keep _ _ _ _ hskip] at hfuel ⊢
    rcases fuel with _ | f
    · exfalso
      simp [TMap.mapFuel] at hfuel
    have hVE : valEnc toBil cache (TVal.vColor hex) = 6 :: _hexToBytes (hex.drop 2) :=
      rfl
    rw [hVE] at hend ⊢
    simp only [_readMap]
    rw [show A ++ (keyEnc cache k ++ (6 :: _hexToBytes (hex.drop 2) ++
        mapEnc toBil cache r)) ++ B =
      A ++ keyEnc cache k ++ (6 :: _hexToBytes (hex.drop 2) ++
        mapEnc toBil cache r ++ B) by simp [List.append_assoc]]
    rw [_readCachedString_keyEnc cache order A _ k hinv hkcov horder hkl]
    dsimp only [Bind.bind, Except.bind]
    rw [len_after_chunk A (keyEnc cache k)]
    rw [show A ++ keyEnc cache k ++ (6 :: _hexToBytes (hex.drop 2) ++
        mapEnc toBil cache r ++ B) =
      (A ++ keyEnc cache k) ++ 6 :: (_hexToBytes (hex.drop 2) ++
        (mapEnc toBil cache r ++ B)) by simp [List.append_assoc]]
    rw [readSignedByte_at]
    dsimp only [Bind.bind, Except.bind]
    rw [toInt8_id 6 (by norm_num)]
    rw [if_neg (by norm_num [ENDOFMAP]), if_neg (by norm_num [CINT]),
      if_neg (by norm_num [CACHED_STRING]), if_neg (by norm_num [CFLOAT]),
      if_neg (by norm_num [CSTRING]), if_neg (by norm_num [BOOL]),
      if_neg (by norm_num [CMAP]), if_neg (by norm_num [CNULL]),
      if_pos (by norm_num [CCOLOR])]
    have hoffeq : (((A ++ keyEnc cache k).length : Nat) : Int) + 1 =
        (((A ++ keyEnc cache k ++ [6]).length : Nat) : Int) := by
      simp <;> omega
    rw [hoffeq]
    rw [show (A ++ keyEnc cache k) ++ 6 :: (_hexToBytes (hex.drop 2) ++
        (mapEnc toBil cache r ++ B)) =
      (A ++ keyEnc cache k ++ [6]) ++ _hexToBytes (hex.drop 2) ++
        (mapEnc toBil cache r ++ B) by simp [List.append_assoc]]
    rw [show (4 : Int) = (((_hexToBytes (hex.drop 2)).length : Nat) : Int) by
      rw [hdl]
      norm_num]
    rw [readBytes_at]
    dsimp only
    rw [show strBytes "0x" ++ _hexFromBytes (_hexToBytes (hex.drop 2)) = hex by
      rw [hexFromBytes_hexToBytes _ hv2.2.2 (by omega)]
      conv_rhs => rw [← List.take_append_drop 2 hex]
      rw [hv2.1]]
    have hoffeq2 : (((A ++ keyEnc cache k ++ [6]).length : Nat) : Int) +
        (((_hexToBytes (hex.drop 2)).length : Nat) : Int) =
      ((((A ++ keyEnc cache k ++ [6]) ++ _hexToBytes (hex.drop 2)).length : Nat) : Int) := by
      simp <;> omega
    rw [hoffeq2]
    rw [show (A ++ keyEnc cache k ++ [6]) ++ _hexToBytes (hex.drop 2) ++
        (mapEnc toBil cache r ++ B) =
      ((A ++ keyEnc cache k ++ [6]) ++ _hexToBytes (hex.drop 2)) ++
        mapEnc toBil cache r ++ B by simp [List.append_assoc]]
    rw [set_fresh k _ (properKey_ne_proto k hpk) acc hkfresh]
    have hend2 : ∀ (f : Nat) (acc' : TMap),
        _readMap order (((A ++ keyEnc cache k ++ [6]) ++ _hexToBytes (hex.drop 2)) ++
            mapEnc toBil cache r ++ B) (f + 1)
          (((((A ++ keyEnc cache k ++ [6]) ++ _hexToBytes (hex.drop 2)) ++
            mapEnc toBil cache r).length : Nat) : Int) acc' = .ok (acc', endOff) := by
      intro f2 acc'
      have h := hend f2 acc'
      convert h using 2
      all_goals simp [List.append_assoc]
      all_goals omega
    rw [_readMap_mapEnc toBil cache order hinv horder r _ B _ f endOff hr hrcov
      (by simp [TMap.mapFuel] at hfuel ⊢; omega) hdisj2 hend2]
    rw [appendM_snoc]
    have hred : (if toBil then (TVal.vColor hex).bilReduceVal else TVal.vColor hex) =
        TVal.vColor hex := by
      cases toBil <;> rfl
    rw [hred]
  | .cons k .vNull r, A, B, acc, fuel, endOff => by
    intro hnice hcov hfuel hdisj hend
    obtain ⟨hpk, hkl, hkc, hv, hr⟩ := nice_cons k _ r hnice
    obtain ⟨hkcov, hvcov, hrcov⟩ := covered_cons cache k _ r hcov
    have hkfresh : k ∉ acc.keys := fun hc => hdisj k hc (by simp [TMap.keys])
    have hknr : k ∉ r.keys := by simpa using hkc
    have hdisj2 : ∀ k' ∈ (acc.appendM (.cons k TVal.vNull .nil)).keys, k' ∉ r.keys := by
      intro k' hk'
      rw [appendM_keys] at hk'
      simp only [TMap.keys, List.mem_append, List.mem_cons] at hk'
      rcases hk' with hk' | hk' | hk'
      · exact fun hc => hdisj k' hk' (by simp [TMap.keys, hc])
      · subst hk'
        exact hknr
      · simp [TMap.keys] at hk'
    by_cases htb : toBil = true
    · have hskipT : (toBil && isBilSkipped TVal.vNull) = true := by
        simp [isBilSkipped, htb]
      rw [mapEnc_cons_skip _ _ _ _ _ hskipT] at hend ⊢
      rw [reduceIf_cons_skip _ _ _ _ hskipT] at hfuel ⊢
      exact _readMap_mapEnc toBil cache order hinv horder r A B acc fuel endOff hr hrcov
        hfuel (fun k' hk' hc => hdisj k' hk' (by simp [TMap.keys, hc])) hend
    · have hskip : (toBil && isBilSkipped TVal.vNull) = false := by
        simp [htb]
      rw [mapEnc_cons_keep _ _ _ _ _ hskip] at hend ⊢
      rw [reduceIf_cons_keep _ _ _ _ hskip] at hfuel ⊢
      rcases fuel with _ | f
      · exfalso
        simp [TMap.mapFuel] at hfuel
      have hVE : valEnc toBil cache TVal.vNull = [12] := rfl
      rw [hVE] at hend ⊢
      simp only [_readMap]
      rw [show A ++ (keyEnc cache k ++ ([12] ++ mapEnc toBil cache r)) ++ B =
        A ++ keyEnc cache k ++ (12 :: (mapEnc toBil cache r ++ B)) by
          simp [List.append_assoc]]
      rw [_readCachedString_keyEnc cache order A _ k hinv hkcov horder hkl]
      dsimp only [Bind.bind, Except.bind]
      rw [len_after_chunk A (keyEnc cache k)]
      rw [show A ++ keyEnc cache k ++ (12 :: (mapEnc toBil cache r ++ B)) =
        (A ++ keyEnc cache k) ++ 12 :: (mapEnc toBil cache r ++ B) by
          simp [List.append_assoc]]
      rw [readSignedByte_at]
      dsimp only [Bind.bind, Except.bind]
      rw [toInt8_id 12 (by norm_num)]
      rw [if_neg (by norm_num [ENDOFMAP]), if_neg (by norm_num [CINT]),
        if_neg (by norm_num [CACHED_STRING]), if_neg (by norm_num [CFLOAT]),
        if_neg (by norm_num [CSTRING]), if_neg (by norm_num [BOOL]),
        if_neg (by norm_num [CMAP]), if_pos (by norm_num [CNULL])]
      have hoffeq : (((A ++ keyEnc cache k).length : Nat) : Int) + 1 =
          (((A ++ keyEnc cache k ++ [12]).length : Nat) : Int) := by
        simp <;> omega
      rw [hoffeq]
      rw [show (A ++ keyEnc cache k) ++ 12 :: (mapEnc toBil cache r ++ B) =
        (A ++ keyEnc cache k ++ [12]) ++ mapEnc toBil cache r ++ B by
          simp [List.append_assoc]]
      rw [set_fresh k _ (properKey_ne_proto k hpk) acc hkfresh]
      have hend2 : ∀ (f : Nat) (acc' : TMap),
          _readMap order ((A ++ keyEnc cache k ++ [12]) ++ mapEnc toBil cache r ++ B)
            (f + 1)
            ((((A ++ keyEnc cache k ++ [12]) ++ mapEnc toBil cache r).length : Nat) : Int)
            acc' = .ok (acc', endOff) := by
        intro f2 acc'
        have h := hend f2 acc'
        convert h using 2
        all_goals simp [List.append_assoc]
        all_goals omega
      rw [_readMap_mapEnc toBil cache order hinv horder r _ B _ f endOff hr hrcov
        (by simp [TMap.mapFuel] at hfuel ⊢; omega) hdisj2 hend2]
      rw [appendM_snoc]
      have hred : (if toBil then TVal.vNull.bilReduceVal else TVal.vNull) =
          TVal.vNull := by
        cases toBil <;> rfl
      rw [hred]
  | .cons k (.vRect shorts) r, A, B, acc, fuel, endOff => by
    intro hnice hcov hfuel hdisj hend
    obtain ⟨hpk, hkl, hkc, hv, hr⟩ := nice_cons k _ r hnice
    obtain ⟨hkcov, hvcov, hrcov⟩ := covered_cons cache k _ r hcov
    have hkfresh : k ∉ acc.keys := fun hc => hdisj k hc (by simp [TMap.keys])
    have hknr : k ∉ r.keys := by simpa using hkc
    have hdisj2 : ∀ k' ∈ (acc.appendM (.cons k (TVal.vRect shorts) .nil)).keys,
        k' ∉ r.keys := by
      intro k' hk'
      rw [appendM_keys] at hk'
      simp only [TMap.keys, List.mem_append, List.mem_cons] at hk'
      rcases hk' with hk' | hk' | hk'
      · exact fun hc => hdisj k' hk' (by simp [TMap.keys, hc])
      · subst hk'
        exact hknr
      · simp [TMap.keys] at hk'
    by_cases htb : toBil = true
    · have hskipT : (toBil && isBilSkipped (TVal.vRect shorts)) = true := by
        simp [isBilSkipped, htb]
      rw [mapEnc_cons_skip _ _ _ _ _ hskipT] at hend ⊢
      rw [reduceIf_cons_skip _ _ _ _ hskipT] at hfuel ⊢
      exact _readMap_mapEnc toBil cache order hinv horder r A B acc fuel endOff hr hrcov
        hfuel (fun k' hk' hc => hdisj k' hk' (by simp [TMap.keys, hc])) hend
    · have hskip : (toBil && isBilSkipped (TVal.vRect shorts)) = false := by
        simp [htb]
      have hv2 : shorts.length = 4 ∧
          ∀ x ∈ shorts, -32768 ≤ x ∧ x < 32768 := by
        simpa [TVal.nice, Bool.and_eq_true, decide_eq_true_eq, List.all_eq_true]
          using hv
      obtain ⟨hlen4, hrange⟩ := hv2
      rcases shorts with _ | ⟨s0, _ | ⟨s1, _ | ⟨s2, _ | ⟨s3, _ | ⟨s4, tl⟩⟩⟩⟩⟩ <;>
        simp only [List.length_cons, List.length_nil] at hlen4 <;> try omega
      rw [mapEnc_cons_keep _ _ _ _ _ hskip] at hend ⊢
      rw [reduceIf_cons_keep _ _ _ _ hskip] at hfuel ⊢
      rcases fuel with _ | f
      · exfalso
        simp [TMap.mapFuel] at hfuel
      have hVE : valEnc toBil cache (TVal.vRect [s0, s1, s2, s3]) =
          11 :: _shortsToBytes [s0, s1, s2, s3] := rfl
      rw [hVE] at hend ⊢
      simp only [_readMap]
      rw [show A ++ (keyEnc cache k ++ (11 :: _shortsToBytes [s0, s1, s2, s3] ++
          mapEnc toBil cache r)) ++ B =
        A ++ keyEnc cache k ++ (11 :: _shortsToBytes [s0, s1, s2, s3] ++
          mapEnc toBil cache r ++ B) by simp [List.append_assoc]]
      rw [_readCachedString_keyEnc cache order A _ k hinv hkcov horder hkl]
      dsimp only [Bind.bind, Except.bind]
      rw [len_after_chunk A (keyEnc cache k)]
      rw [show A ++ keyEnc cache k ++ (11 :: _shortsToBytes [s0, s1, s2, s3] ++
          mapEnc toBil cache r ++ B) =
        (A ++ keyEnc cache k) ++ 11 :: (_shortsToBytes [s0, s1, s2, s3] ++
          (mapEnc toBil cache r ++ B)) by simp [List.append_assoc]]
      rw [readSignedByte_at]
      dsimp only [Bind.bind, Except.bind]
      rw [toInt8_id 11 (by norm_num)]
      rw [if_neg (by norm_num [ENDOFMAP]), if_neg (by norm_num [CINT]),
        if_neg (by norm_num [CACHED_STRING]), if_neg (by norm_num [CFLOAT]),
        if_neg (by norm_num [CSTRING]), if_neg (by norm_num [BOOL]),
        if_neg (by norm_num [CMAP]), if_neg (by norm_num [CNULL]),
        if_neg (by norm_num [CCOLOR]), if_pos (by norm_num [RECT32])]
      have hoffeq : (((A ++ keyEnc cache k).length : Nat) : Int) + 1 =
          (((A ++ keyEnc cache k ++ [11]).length : Nat) : Int) := by
        simp <;> omega
      rw [hoffeq]
      rw [show (A ++ keyEnc cache k) ++ 11 :: (_shortsToBytes [s0, s1, s2, s3] ++
          (mapEnc toBil cache r ++ B)) =
        (A ++ keyEnc cache k ++ [11]) ++ _shortsToBytes [s0, s1, s2, s3] ++
          (mapEnc toBil cache r ++ B) by simp [List.append_assoc]]
      rw [show (8 : Int) = (((_shortsToBytes [s0, s1, s2, s3]).length : Nat) : Int) by
        rw [shortsToBytes_length4]
        norm_num]
      rw [readBytes_at]
      dsimp only
      rw [readShortsLE_enc s0 s1 s2 s3 (hrange s0 (by simp)) (hrange s1 (by simp))
        (hrange s2 (by simp)) (hrange s3 (by simp))]
      dsimp only [Bind.bind, Except.bind]
      have hoffeq2 : (((A ++ keyEnc cache k ++ [11]).length : Nat) : Int) +
          (((_shortsToBytes [s0, s1, s2, s3]).length : Nat) : Int) =
        ((((A ++ keyEnc cache k ++ [11]) ++
          _shortsToBytes [s0, s1, s2, s3]).length : Nat) : Int) := by
        simp <;> omega
      rw [hoffeq2]
      rw [show (A ++ keyEnc cache k ++ [11]) ++ _shortsToBytes [s0, s1, s2, s3] ++
          (mapEnc toBil cache r ++ B) =
        ((A ++ keyEnc cache k ++ [11]) ++ _shortsToBytes [s0, s1, s2, s3]) ++
          mapEnc toBil cache r ++ B by simp [List.append_assoc]]
      rw [set_fresh k _ (properKey_ne_proto k hpk) acc hkfresh]
      have hend2 : ∀ (f : Nat) (acc' : TMap),
          _readMap order (((A ++ keyEnc cache k ++ [11]) ++
              _shortsToBytes [s0, s1, s2, s3]) ++ mapEnc toBil cache r ++ B) (f + 1)
            (((((A ++ keyEnc cache k ++ [11]) ++ _shortsToBytes [s0, s1, s2, s3]) ++
              mapEnc toBil cache r).length : Nat) : Int) acc' = .ok (acc', endOff) := by
        intro f2 acc'
        have h := hend f2 acc'
        convert h using 2
        all_goals simp [List.append_assoc]
        all_goals omega
      rw [_readMap_mapEnc toBil cache order hinv horder r _ B _ f endOff hr hrcov
        (by simp [TMap.mapFuel] at hfuel ⊢; omega) hdisj2 hend2]
      rw [appendM_snoc]
      have hred : (if toBil then (TVal.vRect [s0, s1, s2, s3]).bilReduceVal
          else TVal.vRect [s0, s1, s2, s3]) = TVal.vRect [s0, s1, s2, s3] := by
        cases toBil <;> rfl
      rw [hred]
  | .cons k (.vMap mi) r, A, B, acc, fuel, endOff => by
    intro hnice hcov hfuel hdisj hend
    obtain ⟨hpk, hkl, hkc, hv, hr⟩ := nice_cons k _ r hnice
    obtain ⟨hkcov, hvcov, hrcov⟩ := covered_cons cache k _ r hcov
    have hkfresh : k ∉ acc.keys := fun hc => hdisj k hc (by simp [TMap.keys])
    have hknr : k ∉ r.keys := by simpa using hkc
    have hdisj2 : ∀ k' ∈ (acc.appendM (.cons k (TVal.vMap (reduceIf toBil mi))
        .nil)).keys, k' ∉ r.keys := by
      intro k' hk'
      rw [appendM_keys] at hk'
      simp only [TMap.keys, List.mem_append, List.mem_cons] at hk'
      rcases hk' with hk' | hk' | hk'
      · exact fun hc => hdisj k' hk' (by simp [TMap.keys, hc])
      · subst hk'
        exact hknr
      · simp [TMap.keys] at hk'
    have hskip : (toBil && isBilSkipped (TVal.vMap mi)) = false := by
      simp [isBilSkipped]
    have hmi : mi.nice = true := by simpa [TVal.nice] using hv
    have hmicov : mi.covered cache = true := by simpa [TVal.coveredVal] using hvcov
    have hvm : (if toBil then (TVal.vMap mi).bilReduceVal else TVal.vMap mi) =
        TVal.vMap (reduceIf toBil mi) := by
      cases toBil <;> simp [TVal.bilReduceVal, reduceIf]
    rw [mapEnc_cons_keep _ _ _ _ _ hskip] at hend ⊢
    rw [reduceIf_cons_keep _ _ _ _ hskip] at hfuel ⊢
    rw [hvm] at hfuel ⊢
    rcases fuel with _ | f
    · exfalso
      simp [TMap.mapFuel] at hfuel
    have hVE : valEnc toBil cache (TVal.vMap mi) =
        3 :: (mapEnc toBil cache mi ++ sentinelEnc) := rfl
    rw [hVE] at hend ⊢
    simp only [_readMap]
    rw [show A ++ (keyEnc cache k ++ (3 :: (mapEnc toBil cache mi ++ sentinelEnc) ++
        mapEnc toBil cache r)) ++ B =
      A ++ keyEnc cache k ++ (3 :: (mapEnc toBil cache mi ++ sentinelEnc) ++
        mapEnc toBil cache r ++ B) by simp [List.append_assoc]]
    rw [_readCachedString_keyEnc cache order A _ k hinv hkcov horder hkl]
    dsimp only [Bind.bind, Except.bind]
    rw [len_after_chunk A (keyEnc cache k)]
    rw [show A ++ keyEnc cache k ++ (3 :: (mapEnc toBil cache mi ++ sentinelEnc) ++
        mapEnc toBil cache r ++ B) =
      (A ++ keyEnc cache k) ++ 3 :: ((mapEnc toBil cache mi ++ sentinelEnc) ++
        (mapEnc toBil cache r ++ B)) by simp [List.append_assoc]]
    rw [readSignedByte_at]
    dsimp only [Bind.bind, Except.bind]
    rw [toInt8_id 3 (by norm_num)]
    rw [if_neg (by norm_num [ENDOFMAP]), if_neg (by norm_num [CINT]),
      if_neg (by norm_num [CACHED_STRING]), if_neg (by norm_num [CFLOAT]),
      if_neg (by norm_num [CSTRING]), if_neg (by norm_num [BOOL]),
      if_pos (by norm_num [CMAP])]
    have hoffeq : (((A ++ keyEnc cache k).length : Nat) : Int) + 1 =
        (((A ++ keyEnc cache k ++ [3]).length : Nat) : Int) := by
      simp <;> omega
    rw [hoffeq]
    rw [show (A ++ keyEnc cache k) ++ 3 :: ((mapEnc toBil cache mi ++ sentinelEnc) ++
        (mapEnc toBil cache r ++ B)) =
      (A ++ keyEnc cache k ++ [3]) ++ mapEnc toBil cache mi ++
        (sentinelEnc ++ (mapEnc toBil cache r ++ B)) by simp [List.append_assoc]]
    have hendInner : ∀ (f2 : Nat) (acc' : TMap),
        _readMap order ((A ++ keyEnc cache k ++ [3]) ++ mapEnc toBil cache mi ++
            (sentinelEnc ++ (mapEnc toBil cache r ++ B))) (f2 + 1)
          ((((A ++ keyEnc cache k ++ [3]) ++ mapEnc toBil cache mi).length : Nat) : Int)
          acc' =
          .ok (acc', ((((A ++ keyEnc cache k ++ [3]) ++
            mapEnc toBil cache mi).length : Nat) : Int) + 5) := by
      intro f2 acc'
      have h := readMap_sentinel order ((A ++ keyEnc cache k ++ [3]) ++
        mapEnc toBil cache mi) (mapEnc toBil cache r ++ B) f2 acc' horder
      convert h using 2
      all_goals simp [List.append_assoc]
    rw [_readMap_mapEnc toBil cache order hinv horder mi (A ++ keyEnc cache k ++ [3])
      (sentinelEnc ++ (mapEnc toBil cache r ++ B)) .nil f
      (((((A ++ keyEnc cache k ++ [3]) ++ mapEnc toBil cache mi).length : Nat) : Int) + 5)
      hmi hmicov (by simp [TMap.mapFuel, TVal.valFuel] at hfuel ⊢; omega)
      (fun k' hk' => absurd hk' (by simp [TMap.keys])) hendInner]
    rw [appendM_nil_left]
    dsimp only [Bind.bind, Except.bind]
    have hoffeq2 : ((((A ++ keyEnc cache k ++ [3]) ++
        mapEnc toBil cache mi).length : Nat) : Int) + 5 =
      (((((A ++ keyEnc cache k ++ [3]) ++ mapEnc toBil cache mi) ++
        sentinelEnc).length : Nat) : Int) := by
      simp [sentinelEnc_length] <;> omega
    rw [hoffeq2]
    rw [show (A ++ keyEnc cache k ++ [3]) ++ mapEnc toBil cache mi ++
        (sentinelEnc ++ (mapEnc toBil cache r ++ B)) =
      (((A ++ keyEnc cache k ++ [3]) ++ mapEnc toBil cache mi) ++ sentinelEnc) ++
        mapEnc toBil cache r ++ B by simp [List.append_assoc]]
    rw [set_fresh k _ (properKey_ne_proto k hpk) acc hkfresh]
    have hend2 : ∀ (f2 : Nat) (acc' : TMap),
        _readMap order ((((A ++ keyEnc cache k ++ [3]) ++ mapEnc toBil cache mi) ++
            sentinelEnc) ++ mapEnc toBil cache r ++ B) (f2 + 1)
          ((((((A ++ keyEnc cache k ++ [3]) ++ mapEnc toBil cache mi) ++ sentinelEnc) ++
            mapEnc toBil cache r).length : Nat) : Int) acc' = .ok (acc', endOff) := by
      intro f2 acc'
      have h := hend f2 acc'
      convert h using 2
      all_goals simp [sentinelEnc_length, List.append_assoc]
      all_goals omega
    rw [_readMap_mapEnc toBil cache order hinv horder r _ B _ f endOff hr hrcov
      (by simp [TMap.mapFuel, TVal.valFuel] at hfuel ⊢; omega) hdisj2 hend2]
    rw [appendM_snoc]

theorem enumFrom_length (order : List JStr) : ∀ j, (enumFrom j order).length = order.length := by
  induction order with
  | nil => intro j; rfl
  | cons a r ih => intro j; simp [enumFrom, ih]

theorem enumFrom_snoc (order : List JStr) : ∀ (j : Nat) (s : JStr),
    enumFrom j (order ++ [s]) = enumFrom j order ++ [(s, j + order.length)] := by
  induction order with
  | nil => intro j s; simp [enumFrom]
  | cons a r ih =>
    intro j s
    have h1 : enumFrom j ((a :: r) ++ [s]) = (a, j) :: enumFrom (j + 1) (r ++ [s]) := rfl
    have h2 : enumFrom j (a :: r) = (a, j) :: enumFrom (j + 1) r := rfl
    rw [h1, h2, ih (j + 1) s, List.length_cons]
    have h3 : j + 1 + r.length = j + (r.length + 1) := by omega
    rw [h3, List.cons_append]

theorem enumFrom_map_fst (order : List JStr) : ∀ j,
    (enumFrom j order).map Prod.fst = order := by
  induction order with
  | nil => intro j; rfl
  | cons a r ih => intro j; simp [enumFrom, ih]

theorem collectAdd_inv (st : CollectSt) (s : JStr) (h : CacheInv st) :
    CacheInv (collectAdd st s) := by
  unfold collectAdd
  split
  · exact h
  · unfold CacheInv at h ⊢
    simp only
    rw [h, enumFrom_snoc, enumFrom_length]
    simp [h, enumFrom_length]

mutual
theorem collect_inv : ∀ (m : TMap) (st : CollectSt), CacheInv st →
    CacheInv (_collectStringsInOrder m st)
  | .nil, st, h => h
  | .cons k v r, st, h =>
    collect_inv r _ (collectVal_inv v _ (collectAdd_inv _ k h))

theorem collectVal_inv : ∀ (v : TVal) (st : CollectSt), CacheInv st →
    CacheInv (collectVal v st)
  | .vMap m, st, h => collect_inv m st h
  | .vUStr s, st, h => collectAdd_inv st s h
  | .vStr s, st, h => collectAdd_inv st s h
  | .vInt _, _, h => h
  | .vBool _, _, h => h
  | .vFloat _, _, h => h
  | .vColor _, _, h => h
  | .vRect _, _, h => h
  | .vNull, _, h => h
end

theorem lookup_append_isSome (c1 c2 : List (JStr × Nat)) (s : JStr)
    (h : (c1.lookup s).isSome = true) : ((c1 ++ c2).lookup s).isSome = true := by
  induction c1 with
  | nil => simp [List.lookup] at h
  | cons p r ih =>
    rcases p with ⟨k, i⟩
    rw [List.cons_append, List.lookup_cons] at *
    by_cases hk : (s == k) = true
    · simp [hk]
    · simp only [hk, Bool.false_eq_true, if_false] at h ⊢
      exact ih h

theorem collectAdd_mono (st : CollectSt) (a s : JStr)
    (h : (st.cache.lookup s).isSome = true) :
    (((collectAdd st a).cache).lookup s).isSome = true := by
  unfold collectAdd
  split
  · exact h
  · exact lookup_append_isSome _ _ s h

mutual
theorem collect_mono : ∀ (m : TMap) (st : CollectSt) (s : JStr),
    (st.cache.lookup s).isSome = true →
    (((_collectStringsInOrder m st).cache).lookup s).isSome = true
  | .nil, st, s, h => h
  | .cons k v r, st, s, h =>
    collect_mono r _ s (collectVal_mono v _ s (collectAdd_mono st k s h))

theorem collectVal_mono : ∀ (v : TVal) (st : CollectSt) (s : JStr),
    (st.cache.lookup s).isSome = true →
    (((collectVal v st).cache).lookup s).isSome = true
  | .vMap m, st, s, h => collect_mono m st s h
  | .vUStr a, st, s, h => collectAdd_mono st a s h
  | .vStr a, st, s, h => collectAdd_mono st a s h
  | .vInt _, _, _, h => h
  | .vBool _, _, _, h => h
  | .vFloat _, _, _, h => h
  | .vColor _, _, _, h => h
  | .vRect _, _, _, h => h
  | .vNull, _, _, h => h
end

theorem lookup_isSome_of_mem_fst (c : List (JStr × Nat)) (s : JStr)
    (h : s ∈ c.map Prod.fst) : (c.lookup s).isSome = true := by
  induction c with
  | nil => simp at h
  | cons p r ih =>
    rcases p with ⟨k, i⟩
    rw [List.lookup_cons]
    by_cases hk : (s == k) = true
    · simp [hk]
    · simp only [hk, Bool.false_eq_true, if_false]
      apply ih
      rw [List.map_cons] at h
      rcases List.mem_cons.mp h with h | h
      · exact absurd h (by simpa using hk)
      · exact h

theorem collectAdd_self (st : CollectSt) (s : JStr) (h : properKey s = true) :
    (((collectAdd st s).cache).lookup s).isSome = true := by
  unfold collectAdd
  split
  · rename_i hin
    unfold jsIn at hin
    simp only [Bool.or_eq_true, List.elem_iff] at hin
    rcases hin with hin | hin
    · exact lookup_isSome_of_mem_fst _ s hin
    · exfalso
      simp only [properKey, Bool.and_eq_true, Bool.not_eq_true',
        List.elem_iff] at h
      rcases h with ⟨h1, -⟩
      simp [hin] at h1
  · apply lookup_isSome_of_mem_fst
    simp

mutual
/-- After the collection pass over `m`, every cache-eligible string of `m`
resolves in any table the final cache maps into. -/
theorem collect_complete : ∀ (m : TMap) (st : CollectSt) (C : List (JStr × Nat)),
    m.nice = true →
    (∀ s, (((_collectStringsInOrder m st).cache).lookup s).isSome = true →
      (C.lookup s).isSome = true) →
    m.covered C = true
  | .nil, _, _, _, _ => rfl
  | .cons k v r, st, C, hn, hp => by
    obtain ⟨hk, -, -, hv, hr⟩ := nice_cons k v r hn
    have hcoll : _collectStringsInOrder (.cons k v r) st =
        _collectStringsInOrder r (collectVal v (collectAdd st k)) := rfl
    simp only [TMap.covered, Bool.and_eq_true, Bool.or_eq_true]
    refine ⟨⟨Or.inr ?_, ?_⟩, ?_⟩
    · apply hp
      rw [hcoll]
      exact collect_mono r _ k (collectVal_mono v _ k (collectAdd_self st k hk))
    · exact collectVal_complete v (collectAdd st k) C hv
        (fun s hs => hp s (by rw [hcoll]; exact collect_mono r _ s hs))
    · exact collect_complete r (collectVal v (collectAdd st k)) C hr
        (fun s hs => hp s (by rw [hcoll]; exact hs))

/-- Value part of `collect_complete`. -/
theorem collectVal_complete : ∀ (v : TVal) (st : CollectSt) (C : List (JStr × Nat)),
    v.nice = true →
    (∀ s, (((collectVal v st).cache).lookup s).isSome = true →
      (C.lookup s).isSome = true) →
    v.coveredVal C = true
  | .vMap m, st, C, hn, hp => collect_complete m st C hn hp
  | .vStr a, st, C, hn, hp => by
    simp only [TVal.nice, Bool.and_eq_true] at hn
    simp only [TVal.coveredVal, Bool.or_eq_true]
    exact Or.inr (hp a (collectAdd_self st a hn.1))
  | .vUStr _, _, _, _, _ => rfl
  | .vInt _, _, _, _, _ => rfl
  | .vBool _, _, _, _, _ => rfl
  | .vFloat _, _, _, _, _ => rfl
  | .vColor _, _, _, _, _ => rfl
  | .vRect _, _, _, _, _ => rfl
  | .vNull, _, _, _, _ => rfl
end

mutual
/-- The reduced map's loop fuel is bounded by its wire length plus one. -/
theorem mapFuel_le_enc : ∀ (toBil : Bool) (cache : List (JStr × Nat)) (m : TMap),
    (reduceIf toBil m).mapFuel ≤ (mapEnc toBil cache m).length + 1
  | toBil, cache, .nil => by
    rw [reduceIf_nil]
    simp [TMap.mapFuel, mapEnc]
  | toBil, cache, .cons k v r => by
    by_cases hb : (toBil && isBilSkipped v) = true
    · rw [reduceIf_cons_skip _ _ _ _ hb, mapEnc_cons_skip _ _ _ _ _ hb]
      exact mapFuel_le_enc toBil cache r
    · rw [reduceIf_cons_keep _ _ _ _ (by simpa using hb),
        mapEnc_cons_keep _ _ _ _ _ (by simpa using hb)]
      have h1 := valFuel_le_enc toBil cache v
      have h2 := mapFuel_le_enc toBil cache r
      have h3 : 4 ≤ (keyEnc cache k).length := by
        rw [keyEnc_length]
        split <;> omega
      simp only [TMap.mapFuel, List.length_append]
      omega

/-- The reduced value's loop fuel is bounded by its wire length. -/
theorem valFuel_le_enc : ∀ (toBil : Bool) (cache : List (JStr × Nat)) (v : TVal),
    (if toBil then v.bilReduceVal else v).valFuel ≤ (valEnc toBil cache v).length
  | toBil, cache, .vMap m => by
    have hred : (if toBil then (TVal.vMap m).bilReduceVal else .vMap m) =
        .vMap (reduceIf toBil m) := by
      cases toBil <;> simp [TVal.bilReduceVal, reduceIf]
    rw [hred]
    have h := mapFuel_le_enc toBil cache m
    simp only [TVal.valFuel, valEnc, List.length_cons, List.length_append,
      sentinelEnc_length]
    omega
  | toBil, cache, .vInt _ => by cases toBil <;> simp [TVal.bilReduceVal, TVal.valFuel]
  | toBil, cache, .vStr _ => by cases toBil <;> simp [TVal.bilReduceVal, TVal.valFuel]
  | toBil, cache, .vBool _ => by cases toBil <;> simp [TVal.bilReduceVal, TVal.valFuel]
  | toBil, cache, .vFloat _ => by cases toBil <;> simp [TVal.bilReduceVal, TVal.valFuel]
  | toBil, cache, .vUStr _ => by cases toBil <;> simp [TVal.bilReduceVal, TVal.valFuel]
  | toBil, cache, .vColor _ => by cases toBil <;> simp [TVal.bilReduceVal, TVal.valFuel]
  | toBil, cache, .vRect _ => by cases toBil <;> simp [TVal.bilReduceVal, TVal.valFuel]
  | toBil, cache, .vNull => by cases toBil <;> simp [TVal.bilReduceVal, TVal.valFuel]
end

theorem headerStep_inv (st : CollectSt) (c : ControlHeader) (h : CacheInv st) :
    CacheInv (headerStep st c) :=
  collectAdd_inv _ _ (collectAdd_inv _ _ (collectAdd_inv _ _ h))

theorem headerFold_inv (chs : List ControlHeader) : ∀ st : CollectSt, CacheInv st →
    CacheInv (chs.foldl headerStep st) := by
  induction chs with
  | nil => intro st h; exact h
  | cons c r ih =>
    intro st h
    rw [List.foldl_cons]
    exact ih _ (headerStep_inv st c h)

theorem headerCache_eq_fold (chs : List ControlHeader) :
    headerCache chs = (chs.foldl headerStep ⟨[], []⟩).cache := rfl

theorem headerCache_inv (chs : List ControlHeader) :
    headerCache chs = enumFrom 0 ((headerCache chs).map Prod.fst) := by
  have h := headerFold_inv chs ⟨[], []⟩ rfl
  unfold CacheInv at h
  rw [headerCache_eq_fold, h, enumFrom_map_fst]

theorem headerFold_mono (chs : List ControlHeader) : ∀ (st : CollectSt) (s : JStr),
    ((st.cache).lookup s).isSome = true →
    (((chs.foldl headerStep st).cache).lookup s).isSome = true := by
  induction chs with
  | nil => intro st s h; exact h
  | cons c r ih =>
    intro st s h
    rw [List.foldl_cons]
    exact ih _ s (collectAdd_mono _ _ s (collectAdd_mono _ _ s (collectAdd_mono _ _ s h)))

theorem headerFold_complete (chs : List ControlHeader) : ∀ (st : CollectSt)
    (c : ControlHeader), c ∈ chs →
    properKey c.Name = true → properKey c.JavaType = true →
    properKey c.DesignerType = true →
    (((chs.foldl headerStep st).cache).lookup c.Name).isSome = true ∧
    (((chs.foldl headerStep st).cache).lookup c.JavaType).isSome = true ∧
    (((chs.foldl headerStep st).cache).lookup c.DesignerType).isSome = true := by
  induction chs with
  | nil => intro st c hc; simp at hc
  | cons d r ih =>
    intro st c hc h1 h2 h3
    rw [List.foldl_cons]
    rcases List.mem_cons.mp hc with hc | hc
    · subst hc
      refine ⟨?_, ?_, ?_⟩
      · exact headerFold_mono r _ _
          (collectAdd_mono _ _ _ (collectAdd_mono _ _ _ (collectAdd_self st c.Name h1)))
      · exact headerFold_mono r _ _
          (collectAdd_mono _ _ _ (collectAdd_self (collectAdd st c.Name) c.JavaType h2))
      · exact headerFold_mono r _ _
          (collectAdd_self (collectAdd (collectAdd st c.Name) c.JavaType) c.DesignerType h3)
    · exact ih _ c hc h1 h2 h3

theorem ctrlsEnc_cons (cache : List (JStr × Nat)) (c : ControlHeader)
    (r : List ControlHeader) :
    ctrlsEnc cache (c :: r) = ctrlEnc cache c ++ ctrlsEnc cache r := rfl

theorem ctrls_foldlM (cache : List (JStr × Nat)) (chs : List ControlHeader) :
    ∀ temp : List Nat,
    (∀ c ∈ chs, (cache.isEmpty ∨ (cache.lookup c.Name).isSome) ∧
      (cache.isEmpty ∨ (cache.lookup c.JavaType).isSome) ∧
      (cache.isEmpty ∨ (cache.lookup c.DesignerType).isSome)) →
    chs.foldlM (fun temp c => do
      let temp ← _writeCachedString temp cache c.Name
      let temp ← _writeCachedString temp cache c.JavaType
      _writeCachedString temp cache c.DesignerType) temp =
      .ok (temp ++ ctrlsEnc cache chs) := by
  induction chs with
  | nil =>
    intro temp _
    rw [show ctrlsEnc cache [] = [] from rfl, List.append_nil]
    rfl
  | cons c r ih =>
    intro temp hcov
    obtain ⟨hn, hj, hd⟩ := hcov c (by simp)
    have hstep : (do
        let temp ← _writeCachedString temp cache c.Name
        let temp ← _writeCachedString temp cache c.JavaType
        _writeCachedString temp cache c.DesignerType : Except Err (List Nat)) =
        .ok (temp ++ ctrlEnc cache c) := by
      rw [_writeCachedString_keyEnc cache temp c.Name hn]
      dsimp only [Bind.bind, Except.bind]
      rw [_writeCachedString_keyEnc cache _ c.JavaType hj]
      dsimp only [Bind.bind, Except.bind]
      rw [_writeCachedString_keyEnc cache _ c.DesignerType hd]
      rw [ctrlEnc]
      simp [List.append_assoc]
    rw [List.foldlM_cons]
    beta_reduce
    rw [hstep]
    rw [show (Except.ok (temp ++ ctrlEnc cache c) : Except Err (List Nat)) =
      pure (temp ++ ctrlEnc cache c) from rfl, pure_bind]
    beta_reduce
    rw [ih _ (fun x hx => hcov x (by simp [hx]))]
    rw [ctrlsEnc_cons]
    simp [List.append_assoc]

theorem controlsLoop_enc (cache : List (JStr × Nat)) (order : List JStr)
    (hinv : cache = enumFrom 0 order) (horder : order.length < 2147483648) :
    ∀ (chs : List ControlHeader) (A B : List Nat) (acc : List ControlHeader),
    (∀ c ∈ chs, (cache.isEmpty ∨ (cache.lookup c.Name).isSome) ∧
      (cache.isEmpty ∨ (cache.lookup c.JavaType).isSome) ∧
      (cache.isEmpty ∨ (cache.lookup c.DesignerType).isSome)) →
    (∀ c ∈ chs, c.Name.length < 2147483648 ∧ c.JavaType.length < 2147483648 ∧
      c.DesignerType.length < 2147483648) →
    controlsLoop order (A ++ ctrlsEnc cache chs ++ B) chs.length (A.length : Int) acc =
      .ok (acc ++ chs, (A.length : Int) + ((ctrlsEnc cache chs).length : Int))
  | [], A, B, acc, _, _ => by simp [controlsLoop, ctrlsEnc]
  | c :: r, A, B, acc, hcov, hlen => by
    obtain ⟨hn, hj, hd⟩ := hcov c (by simp)
    obtain ⟨ln, lj, ld⟩ := hlen c (by simp)
    rw [ctrlsEnc_cons, ctrlEnc]
    simp only [List.length_cons, controlsLoop]
    rw [show A ++ (keyEnc cache c.Name ++ keyEnc cache c.JavaType ++
        keyEnc cache c.DesignerType ++ ctrlsEnc cache r) ++ B =
      A ++ keyEnc cache c.Name ++ (keyEnc cache c.JavaType ++
        (keyEnc cache c.DesignerType ++ (ctrlsEnc cache r ++ B))) by
        simp [List.append_assoc]]
    rw [_readCachedString_keyEnc cache order A _ c.Name hinv hn horder ln]
    dsimp only [Bind.bind, Except.bind]
    rw [len_after_chunk A (keyEnc cache c.Name)]
    rw [show A ++ keyEnc cache c.Name ++ (keyEnc cache c.JavaType ++
        (keyEnc cache c.DesignerType ++ (ctrlsEnc cache r ++ B))) =
      (A ++ keyEnc cache c.Name) ++ keyEnc cache c.JavaType ++
        (keyEnc cache c.DesignerType ++ (ctrlsEnc cache r ++ B)) by
        simp [List.append_assoc]]
    rw [_readCachedString_keyEnc cache order _ _ c.JavaType hinv hj horder lj]
    dsimp only [Bind.bind, Except.bind]
    rw [len_after_chunk _ (keyEnc cache c.JavaType)]
    rw [show (A ++ keyEnc cache c.Name) ++ keyEnc cache c.JavaType ++
        (keyEnc cache c.DesignerType ++ (ctrlsEnc cache r ++ B)) =
      ((A ++ keyEnc cache c.Name) ++ keyEnc cache c.JavaType) ++
        keyEnc cache c.DesignerType ++ (ctrlsEnc cache r ++ B) by
        simp [List.append_assoc]]
    rw [_readCachedString_keyEnc cache order _ _ c.DesignerType hinv hd horder ld]
    dsimp only [Bind.bind, Except.bind]
    rw [len_after_chunk _ (keyEnc cache c.DesignerType)]
    rw [show ((A ++ keyEnc cache c.Name) ++ keyEnc cache c.JavaType) ++
        keyEnc cache c.DesignerType ++ (ctrlsEnc cache r ++ B) =
      (((A ++ keyEnc cache c.Name) ++ keyEnc cache c.JavaType) ++
        keyEnc cache c.DesignerType) ++ ctrlsEnc cache r ++ B by
        simp [List.append_assoc]]
    rw [show (⟨c.Name, c.JavaType, c.DesignerType⟩ : ControlHeader) = c from rfl]
    rw [controlsLoop_enc cache order hinv horder r _ B (acc ++ [c])
      (fun x hx => hcov x (by simp [hx])) (fun x hx => hlen x (by simp [hx]))]
    simp [List.append_assoc]
    omega

theorem filesLoop_catMap (l : List JStr) :
    ∀ (A B : List Nat) (acc : List JStr),
      (∀ s ∈ l, s.length < 2147483648) →
      filesLoop (A ++ catMap strEnc l ++ B) l.length (A.length : Int) acc =
        .ok (acc ++ l, (A.length : Int) + ((catMap strEnc l).length : Int)) := by
  induction l with
  | nil => intro A B acc _; simp [filesLoop, catMap_nil]
  | cons s r ih =>
    intro A B acc hb
    rw [catMap_cons]
    simp only [List.length_cons, filesLoop]
    rw [← List.append_assoc A (strEnc s) (catMap strEnc r),
      List.append_assoc (A ++ strEnc s) (catMap strEnc r) B]
    rw [readString_strEnc _ _ _ (hb s (by simp))]
    dsimp only [Bind.bind, Except.bind]
    have h4 : (A.length : Int) + 4 + (s.length : Int) =
        (((A ++ strEnc s).length : Nat) : Int) := by
      simp [strEnc_length]
      omega
    rw [h4, ← List.append_assoc (A ++ strEnc s) (catMap strEnc r) B]
    rw [ih (A ++ strEnc s) B (acc ++ [s]) (fun x hx => hb x (by simp [hx]))]
    simp [strEnc_length, List.append_assoc]
    omega

theorem variantsEnc_cons (v : Variant) (r : List Variant) :
    variantsEnc (v :: r) = variantEnc v ++ variantsEnc r := rfl

theorem niceVariant_parts (v : Variant) (h : niceVariant v = true) :
    v.Scale < 4294967296 ∧ isFalsyF32 v.Scale = false ∧
    (-2147483648 ≤ v.Width ∧ v.Width < 2147483648) ∧
    (-2147483648 ≤ v.Height ∧ v.Height < 2147483648) := by
  simp only [niceVariant, Bool.and_eq_true, decide_eq_true_eq, Bool.not_eq_true'] at h
  tauto

theorem variantEnc_nice (v : Variant) (h : niceVariant v = true) :
    variantEnc v = int4 ((v.Scale : Nat) : Int) ++ int4 v.Width ++ int4 v.Height := by
  obtain ⟨-, hf, -, -⟩ := niceVariant_parts v h
  unfold variantEnc
  rw [jsOrInt_zero, jsOrInt_zero]
  unfold jsOrScale1
  rw [hf]
  simp

theorem variantsLoop_enc : ∀ (vs : List Variant) (A B : List Nat) (acc : List Variant),
    (∀ v ∈ vs, niceVariant v = true) →
    variantsLoop (A ++ variantsEnc vs ++ B) vs.length (A.length : Int) acc =
      .ok (acc ++ vs, (A.length : Int) + ((variantsEnc vs).length : Int))
  | [], A, B, acc, _ => by simp [variantsLoop, variantsEnc]
  | v :: r, A, B, acc, hv => by
    obtain ⟨hs, hf, hw, hh⟩ := niceVariant_parts v (hv v (by simp))
    rw [variantsEnc_cons, variantEnc_nice v (hv v (by simp))]
    simp only [List.length_cons, variantsLoop]
    rw [show A ++ (int4 ((v.Scale : Nat) : Int) ++ int4 v.Width ++ int4 v.Height ++
        variantsEnc r) ++ B =
      A ++ int4 ((v.Scale : Nat) : Int) ++ (int4 v.Width ++
        (int4 v.Height ++ (variantsEnc r ++ B))) by simp [List.append_assoc]]
    rw [readFloat_int4 _ _ _ hs]
    dsimp only [Bind.bind, Except.bind]
    rw [len_after_int4 A ((v.Scale : Nat) : Int)]
    rw [show A ++ int4 ((v.Scale : Nat) : Int) ++ (int4 v.Width ++
        (int4 v.Height ++ (variantsEnc r ++ B))) =
      (A ++ int4 ((v.Scale : Nat) : Int)) ++ int4 v.Width ++
        (int4 v.Height ++ (variantsEnc r ++ B)) by simp [List.append_assoc]]
    rw [readInt_int4_id _ _ _ hw]
    dsimp only [Bind.bind, Except.bind]
    rw [len_after_int4 _ v.Width]
    rw [show (A ++ int4 ((v.Scale : Nat) : Int)) ++ int4 v.Width ++
        (int4 v.Height ++ (variantsEnc r ++ B)) =
      ((A ++ int4 ((v.Scale : Nat) : Int)) ++ int4 v.Width) ++ int4 v.Height ++
        (variantsEnc r ++ B) by simp [List.append_assoc]]
    rw [readInt_int4_id _ _ _ hh]
    dsimp only [Bind.bind, Except.bind]
    rw [len_after_int4 _ v.Height]
    rw [show ((A ++ int4 ((v.Scale : Nat) : Int)) ++ int4 v.Width) ++ int4 v.Height ++
        (variantsEnc r ++ B) =
      (((A ++ int4 ((v.Scale : Nat) : Int)) ++ int4 v.Width) ++ int4 v.Height) ++
        variantsEnc r ++ B by simp [List.append_assoc]]
    rw [show (⟨v.Scale, v.Width, v.Height⟩ : Variant) = v from rfl]
    rw [variantsLoop_enc r _ B (acc ++ [v]) (fun x hx => hv x (by simp [hx]))]
    simp [int4_length, List.append_assoc]
    omega

theorem jsOrInt_pos (a b : Int) (h : a ≠ 0) : jsOrInt a b = a := by
  unfold jsOrInt
  simp [h]

theorem updateInt_at (A C : List Nat) (old v : Int) :
    updateInt (A ++ (int4 old ++ C)) A.length v = A ++ (int4 v ++ C) := by
  unfold updateInt
  have ht : (A ++ (int4 old ++ C)).take A.length = A := List.take_left A (int4 old ++ C)
  have hd : (A ++ (int4 old ++ C)).drop (A.length + 4) = C := by
    rw [show A ++ (int4 old ++ C) = (A ++ int4 old) ++ C by simp,
      show A.length + 4 = (A ++ int4 old).length by simp [int4_length], List.drop_left]
  rw [ht, hd, List.append_assoc]

theorem foldl_writeVariant (vs : List Variant) (base : List Nat) :
    vs.foldl _writeVariant base = base ++ variantsEnc vs := by
  induction vs generalizing base with
  | nil => simp [variantsEnc]
  | cons v r ih =>
    rw [List.foldl_cons, ih, _writeVariant_eq, variantsEnc_cons, List.append_assoc]

theorem _writeLayoutHeader_enc (h : LayoutHeader) (variants : List Variant)
    (hver : 3 ≤ h.Version)
    (hgrid4 : 4 ≤ h.Version → h.GridSize ≠ 0)
    (hpk : ∀ c ∈ h.ControlsHeaders, properKey c.Name = true ∧
      properKey c.JavaType = true ∧ properKey c.DesignerType = true) :
    _writeLayoutHeader h [] variants = .ok (headerEnc h variants) := by
  have hcov : ∀ c ∈ h.ControlsHeaders,
      ((headerCache h.ControlsHeaders).isEmpty ∨
        (((headerCache h.ControlsHeaders).lookup c.Name)).isSome) ∧
      ((headerCache h.ControlsHeaders).isEmpty ∨
        (((headerCache h.ControlsHeaders).lookup c.JavaType)).isSome) ∧
      ((headerCache h.ControlsHeaders).isEmpty ∨
        (((headerCache h.ControlsHeaders).lookup c.DesignerType)).isSome) := by
    intro c hc
    obtain ⟨p1, p2, p3⟩ := hpk c hc
    have hfc := headerFold_complete h.ControlsHeaders ⟨[], []⟩ c hc p1 p2 p3
    rw [headerCache_eq_fold]
    exact ⟨Or.inr hfc.1, Or.inr hfc.2.1, Or.inr hfc.2.2⟩
  unfold _writeLayoutHeader
  rw [show jsOrInt h.Version 4 = h.Version from jsOrInt_pos _ _ (by omega)]
  dsimp only
  rw [ctrls_foldlM (headerCache h.ControlsHeaders) h.ControlsHeaders _ hcov]
  rw [show (Except.ok ((writeInt [] ((h.ControlsHeaders.length : Nat) : Int)) ++
      ctrlsEnc (headerCache h.ControlsHeaders) h.ControlsHeaders) : Except Err (List Nat)) =
    pure ((writeInt [] ((h.ControlsHeaders.length : Nat) : Int)) ++
      ctrlsEnc (headerCache h.ControlsHeaders) h.ControlsHeaders) from rfl, pure_bind]
  beta_reduce
  by_cases hv4 : 4 ≤ h.Version
  · rw [if_pos hv4]
    rw [show jsOrInt h.GridSize 10 = h.GridSize from jsOrInt_pos _ _ (hgrid4 hv4)]
    rw [foldl_writeString, foldl_writeString]
    simp only [writeInt, writeBytes, List.append_assoc, List.nil_append]
    rw [show int4 h.Version ++ (int4 0 ++ (int4 h.GridSize ++
        (int4 (((headerCache h.ControlsHeaders).length : Nat) : Int) ++
        (catMap strEnc ((headerCache h.ControlsHeaders).map Prod.fst) ++
        (int4 ((h.ControlsHeaders.length : Nat) : Int) ++
        (ctrlsEnc (headerCache h.ControlsHeaders) h.ControlsHeaders ++
        (int4 ((h.Files.length : Nat) : Int) ++ (catMap strEnc h.Files ++
        (int4 (((_writeScripts h.DesignerScript variants).length : Nat) : Int) ++
        _writeScripts h.DesignerScript variants))))))))) =
      int4 h.Version ++ (int4 0 ++ headerBodyEnc h variants) by
        simp [headerBodyEnc, tableEnc, if_pos hv4, List.append_assoc]]
    rw [updateInt_at (int4 h.Version) (headerBodyEnc h variants) 0 _]
    rw [show ((((int4 h.Version ++ (int4 0 ++ headerBodyEnc h variants)).length : Nat) : Int) -
        (((int4 h.Version).length : Nat) : Int) - 4 : Int) =
      (((headerBodyEnc h variants).length : Nat) : Int) by simp [int4_length]]
    rw [headerEnc]
    simp [List.append_assoc]
  · rw [if_neg hv4]
    rw [foldl_writeString, foldl_writeString]
    simp only [writeInt, writeBytes, List.append_assoc, List.nil_append]
    rw [show int4 h.Version ++ (int4 0 ++
        (int4 (((headerCache h.ControlsHeaders).length : Nat) : Int) ++
        (catMap strEnc ((headerCache h.ControlsHeaders).map Prod.fst) ++
        (int4 ((h.ControlsHeaders.length : Nat) : Int) ++
        (ctrlsEnc (headerCache h.ControlsHeaders) h.ControlsHeaders ++
        (int4 ((h.Files.length : Nat) : Int) ++ (catMap strEnc h.Files ++
        (int4 (((_writeScripts h.DesignerScript variants).length : Nat) : Int) ++
        _writeScripts h.DesignerScript variants)))))))) =
      int4 h.Version ++ (int4 0 ++ headerBodyEnc h variants) by
        simp [headerBodyEnc, tableEnc, if_neg hv4, List.append_assoc]]
    rw [updateInt_at (int4 h.Version) (headerBodyEnc h variants) 0 _]
    rw [show ((((int4 h.Version ++ (int4 0 ++ headerBodyEnc h variants)).length : Nat) : Int) -
        (((int4 h.Version).length : Nat) : Int) - 4 : Int) =
      (((headerBodyEnc h variants).length : Nat) : Int) by simp [int4_length]]
    rw [headerEnc]
    simp [List.append_assoc]

theorem collectAdd_strings (st : CollectSt) (a s : JStr)
    (h : s ∈ ((collectAdd st a).cache).map Prod.fst) :
    s ∈ (st.cache).map Prod.fst ∨ s = a := by
  unfold collectAdd at h
  split at h
  · exact Or.inl h
  · rw [show ((⟨st.cache ++ [(a, st.cache.length)], st.order ++ [a]⟩ : CollectSt)).cache =
      st.cache ++ [(a, st.cache.length)] from rfl, List.map_append] at h
    rcases List.mem_append.mp h with h | h
    · exact Or.inl h
    · simp at h
      exact Or.inr h

theorem headerStep_strings (st : CollectSt) (c : ControlHeader) (s : JStr)
    (h : s ∈ ((headerStep st c).cache).map Prod.fst) :
    s ∈ (st.cache).map Prod.fst ∨ s = c.Name ∨ s = c.JavaType ∨ s = c.DesignerType := by
  rcases collectAdd_strings _ _ _ h with h | h
  · rcases collectAdd_strings _ _ _ h with h | h
    · rcases collectAdd_strings _ _ _ h with h | h
      · exact Or.inl h
      · exact Or.inr (Or.inl h)
    · exact Or.inr (Or.inr (Or.inl h))
  · exact Or.inr (Or.inr (Or.inr h))

theorem headerFold_strings (chs : List ControlHeader) : ∀ (st : CollectSt) (s : JStr),
    s ∈ (((chs.foldl headerStep st).cache).map Prod.fst) →
    s ∈ (st.cache).map Prod.fst ∨
      ∃ c ∈ chs, s = c.Name ∨ s = c.JavaType ∨ s = c.DesignerType := by
  induction chs with
  | nil => intro st s h; exact Or.inl h
  | cons c r ih =>
    intro st s h
    rw [List.foldl_cons] at h
    rcases ih _ s h with h | ⟨c', hc', h⟩
    · rcases headerStep_strings st c s h with h | h
      · exact Or.inl h
      · exact Or.inr ⟨c, by simp, h⟩
    · exact Or.inr ⟨c', by simp [hc'], h⟩

theorem headerCache_strings (chs : List ControlHeader) (s : JStr)
    (h : s ∈ (headerCache chs).map Prod.fst) :
    ∃ c ∈ chs, s = c.Name ∨ s = c.JavaType ∨ s = c.DesignerType := by
  rw [headerCache_eq_fold] at h
  rcases headerFold_strings chs ⟨[], []⟩ s h with h | h
  · simp at h
  · exact h

theorem _readLayoutHeader_enc (h : LayoutHeader) (variants : List Variant)
    (hb B : List Nat) (hhb : hb.length = 4)
    (hver : 3 ≤ h.Version) (hver32 : h.Version < 2147483648)
    (hgrid4 : 4 ≤ h.Version → h.GridSize ≠ 0 ∧ -2147483648 ≤ h.GridSize ∧
      h.GridSize < 2147483648)
    (hgrid3 : h.Version < 4 → h.GridSize = 10)
    (hpk : ∀ c ∈ h.ControlsHeaders, properKey c.Name = true ∧
      properKey c.JavaType = true ∧ properKey c.DesignerType = true)
    (hclen : ∀ c ∈ h.ControlsHeaders, c.Name.length < 2147483648 ∧
      c.JavaType.length < 2147483648 ∧ c.DesignerType.length < 2147483648)
    (hccount : h.ControlsHeaders.length < 2147483648)
    (hcachelen : (headerCache h.ControlsHeaders).length < 2147483648)
    (hflen : ∀ f ∈ h.Files, f.length < 2147483648)
    (hfcount : h.Files.length < 2147483648)
    (hsp : scriptsParse (writeScriptsRaw h.DesignerScript variants) = .ok h.DesignerScript)
    (hsblen : (_writeScripts h.DesignerScript variants).length < 2147483648) :
    _readLayoutHeader (int4 h.Version ++ hb ++ (headerBodyEnc h variants ++ B)) 0 =
      .ok (h, 8 + ((headerBodyEnc h variants).length : Int)) := by
  have hordbound : ∀ s ∈ (headerCache h.ControlsHeaders).map Prod.fst,
      s.length < 2147483648 := by
    intro s hs
    obtain ⟨c, hc, hcase⟩ := headerCache_strings h.ControlsHeaders s hs
    obtain ⟨l1, l2, l3⟩ := hclen c hc
    rcases hcase with rfl | rfl | rfl <;> assumption
  have hordlen : ((headerCache h.ControlsHeaders).map Prod.fst).length < 2147483648 := by
    simpa using hcachelen
  have hcov : ∀ c ∈ h.ControlsHeaders,
      ((headerCache h.ControlsHeaders).isEmpty ∨
        (((headerCache h.ControlsHeaders).lookup c.Name)).isSome) ∧
      ((headerCache h.ControlsHeaders).isEmpty ∨
        (((headerCache h.ControlsHeaders).lookup c.JavaType)).isSome) ∧
      ((headerCache h.ControlsHeaders).isEmpty ∨
        (((headerCache h.ControlsHeaders).lookup c.DesignerType)).isSome) := by
    intro c hc
    obtain ⟨p1, p2, p3⟩ := hpk c hc
    have hfc := headerFold_complete h.ControlsHeaders ⟨[], []⟩ c hc p1 p2 p3
    rw [headerCache_eq_fold]
    exact ⟨Or.inr hfc.1, Or.inr hfc.2.1, Or.inr hfc.2.2⟩
  unfold _readLayoutHeader
  rw [show (0 : Int) = ((([] : List Nat).length : Nat) : Int) from rfl]
  rw [show int4 h.Version ++ hb ++ (headerBodyEnc h variants ++ B) =
    [] ++ int4 h.Version ++ (hb ++ (headerBodyEnc h variants ++ B)) by
      simp [List.append_assoc]]
  rw [readInt_int4_id [] _ _ (by omega)]
  dsimp only [Bind.bind, Except.bind]
  rw [if_neg (by omega)]
  by_cases hv4 : 4 ≤ h.Version
  · rw [if_pos hv4]
    rw [headerBodyEnc, if_pos hv4]
    simp only [List.append_assoc, List.nil_append]
    rw [show ((([] : List Nat).length : Int) + 4 + 4) =
      (((int4 h.Version ++ hb).length : Nat) : Int) by simp [int4_length, hhb]]
    rw [← List.append_assoc, ← List.append_assoc]
    rw [readInt_int4_id _ _ _ (by obtain ⟨-, h1, h2⟩ := hgrid4 hv4; omega)]
    dsimp only
    rw [len_after_int4 (int4 h.Version ++ hb) h.GridSize]
    rw [← List.append_assoc]
    rw [_loadStringsCache_tableEnc _ _ _ hordlen hordbound]
    dsimp only
    rw [len_after_chunk _ (tableEnc ((headerCache h.ControlsHeaders).map Prod.fst))]
    rw [← List.append_assoc]
    rw [readInt_int4_id _ _ _ (by push_cast; omega)]
    dsimp only
    rw [Int.toNat_natCast]
    rw [len_after_int4 _ ((h.ControlsHeaders.length : Nat) : Int)]
    rw [← List.append_assoc]
    rw [controlsLoop_enc (headerCache h.ControlsHeaders) _ (headerCache_inv _) hordlen
      h.ControlsHeaders _ _ [] hcov hclen]
    dsimp only
    rw [len_after_chunk _ (ctrlsEnc (headerCache h.ControlsHeaders) h.ControlsHeaders)]
    rw [← List.append_assoc]
    rw [readInt_int4_id _ _ _ (by push_cast; omega)]
    dsimp only
    rw [Int.toNat_natCast]
    rw [len_after_int4 _ ((h.Files.length : Nat) : Int)]
    rw [← List.append_assoc]
    rw [filesLoop_catMap h.Files _ _ [] hflen]
    dsimp only
    rw [len_after_chunk _ (catMap strEnc h.Files)]
    rw [← List.append_assoc, ← List.append_assoc]
    rw [show _writeScripts h.DesignerScript variants =
      gzipC (writeScriptsRaw h.DesignerScript variants) from rfl]
    rw [_readScripts_enc _ _ _ _ hsp (by
      rw [show gzipC (writeScriptsRaw h.DesignerScript variants) =
        _writeScripts h.DesignerScript variants from rfl]
      exact hsblen)]
    simp only [List.nil_append]
    simp [int4_length, List.length_append, hhb, strEnc_length]
    omega
  · rw [if_neg hv4]
    rw [headerBodyEnc, if_neg hv4]
    simp only [List.append_assoc, List.nil_append]
    rw [show ((([] : List Nat).length : Int) + 4 + 4) =
      (((int4 h.Version ++ hb).length : Nat) : Int) by simp [int4_length, hhb]]
    rw [← List.append_assoc, ← List.append_assoc]
    rw [_loadStringsCache_tableEnc _ _ _ hordlen hordbound]
    dsimp only
    rw [len_after_chunk _ (tableEnc ((headerCache h.ControlsHeaders).map Prod.fst))]
    rw [← List.append_assoc]
    rw [readInt_int4_id _ _ _ (by push_cast; omega)]
    dsimp only
    rw [Int.toNat_natCast]
    rw [len_after_int4 _ ((h.ControlsHeaders.length : Nat) : Int)]
    rw [← List.append_assoc]
    rw [controlsLoop_enc (headerCache h.ControlsHeaders) _ (headerCache_inv _) hordlen
      h.ControlsHeaders _ _ [] hcov hclen]
    dsimp only
    rw [len_after_chunk _ (ctrlsEnc (headerCache h.ControlsHeaders) h.ControlsHeaders)]
    rw [← List.append_assoc]
    rw [readInt_int4_id _ _ _ (by push_cast; omega)]
    dsimp only
    rw [Int.toNat_natCast]
    rw [len_after_int4 _ ((h.Files.length : Nat) : Int)]
    rw [← List.append_assoc]
    rw [filesLoop_catMap h.Files _ _ [] hflen]
    dsimp only
    rw [len_after_chunk _ (catMap strEnc h.Files)]
    rw [← List.append_assoc, ← List.append_assoc]
    rw [show _writeScripts h.DesignerScript variants =
      gzipC (writeScriptsRaw h.DesignerScript variants) from rfl]
    rw [_readScripts_enc _ _ _ _ hsp (by
      rw [show gzipC (writeScriptsRaw h.DesignerScript variants) =
        _writeScripts h.DesignerScript variants from rfl]
      exact hsblen)]
    dsimp only
    simp only [List.nil_append]
    rw [show (10 : Int) = h.GridSize from (hgrid3 (by omega)).symm]
    simp [int4_length, List.length_append, hhb, strEnc_length]
    omega

theorem NiceDoc_parts (d : Design) (h : NiceDoc d = true) :
    (3 ≤ d.LayoutHeader.Version ∧ d.LayoutHeader.Version < 2147483648) ∧
    (4 ≤ d.LayoutHeader.Version → d.LayoutHeader.GridSize ≠ 0 ∧
      -2147483648 ≤ d.LayoutHeader.GridSize ∧ d.LayoutHeader.GridSize < 2147483648) ∧
    (d.LayoutHeader.Version < 4 → d.LayoutHeader.GridSize = 10) ∧
    (∀ c ∈ d.LayoutHeader.ControlsHeaders,
      properKey c.Name = true ∧ c.Name.length < 2147483648 ∧
      properKey c.JavaType = true ∧ c.JavaType.length < 2147483648 ∧
      properKey c.DesignerType = true ∧ c.DesignerType.length < 2147483648) ∧
    d.LayoutHeader.ControlsHeaders.length < 2147483648 ∧
    (headerCache d.LayoutHeader.ControlsHeaders).length < 2147483648 ∧
    (∀ f ∈ d.LayoutHeader.Files, f.length < 2147483648) ∧
    d.LayoutHeader.Files.length < 2147483648 ∧
    d.LayoutHeader.DesignerScript.length = d.Variants.length + 1 ∧
    (∀ s ∈ d.LayoutHeader.DesignerScript, s.length < 268435456) ∧
    (_writeScripts d.LayoutHeader.DesignerScript d.Variants).length < 2147483648 ∧
    (∀ v ∈ d.Variants, niceVariant v = true) ∧
    d.Variants.length < 2147483648 ∧
    d.Data.nice = true ∧
    (_collectStringsInOrder d.Data ⟨[], []⟩).order.length < 2147483648 ∧
    (∀ s ∈ (_collectStringsInOrder d.Data ⟨[], []⟩).order, s.length < 2147483648) := by
  unfold NiceDoc at h
  simp only [Bool.and_eq_true, decide_eq_true_eq, List.all_eq_true,
    Bool.and_eq_true, decide_eq_true_eq] at h
  obtain ⟨⟨⟨⟨⟨⟨⟨⟨⟨⟨⟨⟨⟨⟨⟨⟨h1, h2⟩, h3⟩, h4⟩, h5⟩, h6⟩, h7⟩, h8⟩, h9⟩, h10⟩,
    h11⟩, h12⟩, h13⟩, h14⟩, h15⟩, h16⟩, h17⟩ := h
  refine ⟨⟨h1, h2⟩, ?_, ?_, ?_, h6, h7, h8, h9, h10, h11, h12, h13, h14, h15, h16, h17⟩
  · intro hv
    first
    | exact h3 hv
    | exact h3 (by simpa using hv)
  · intro hv
    first
    | exact h4 hv
    | exact h4 (by simpa using hv)
  · intro c hc
    have := h5 c hc
    simp only [Bool.and_eq_true, decide_eq_true_eq] at this
    tauto

theorem _writeAllLayout_enc (toBil : Bool) (out : List Nat) (variants : List Variant)
    (data : TMap) (hnice : data.nice = true) :
    _writeAllLayout toBil out variants data =
      .ok (out ++ bodyEnc toBil data variants) := by
  have hcov : data.covered (_collectStringsInOrder data ⟨[], []⟩).cache = true :=
    collect_complete data ⟨[], []⟩ _ hnice (fun s hs => hs)
  unfold _writeAllLayout
  dsimp only
  rw [foldl_writeVariant]
  rw [_writeMap_mapEnc toBil _ data _ hcov]
  dsimp only [Bind.bind, Except.bind]
  rw [_writeStringsCacheInOrder_eq]
  rw [bodyEnc]
  simp [writeInt, writeBytes, writeByte, _writeString_eq, sentinelEnc,
    List.append_assoc]

theorem convertJsonToBjlToBytes_enc (toBil : Bool) (d : Design)
    (hnice : NiceDoc d = true) :
    convertJsonToBjlToBytes toBil d = .ok (docEnc toBil d) := by
  obtain ⟨⟨hv3, hv32⟩, hg4, hg3, hctrl, hcc, hhc, hfl, hfc, hsl, hss, hwsl, hvar,
    hvc, hdn, hol, hos⟩ := NiceDoc_parts d hnice
  unfold convertJsonToBjlToBytes
  rw [_writeLayoutHeader_enc d.LayoutHeader d.Variants hv3
    (fun hv => (hg4 hv).1)
    (fun c hc => by obtain ⟨p1, -, p2, -, p3, -⟩ := hctrl c hc; exact ⟨p1, p2, p3⟩)]
  dsimp only [Bind.bind, Except.bind]
  rw [_writeAllLayout_enc toBil _ d.Variants d.Data hdn]
  dsimp only [Bind.bind, Except.bind]
  rw [docEnc]
  unfold writeByte
  cases d.FontAwesome <;> cases d.MaterialIcons <;> simp

theorem docEnc_eq_patched (toBil : Bool) (d : Design) :
    docEnc toBil d = docEncPatched toBil d
      (int4 (((headerBodyEnc d.LayoutHeader d.Variants).length : Nat) : Int)) := by
  rw [docEnc, docEncPatched, headerEnc]

theorem readSignedByte_at2 (A B : List Nat) (x y : Nat) :
    readSignedByte (A ++ x :: y :: B) ((A.length : Int) + 1) =
      .ok (toInt8 y, (A.length : Int) + 2) := by
  have h := readSignedByte_at (A ++ [x]) B y
  rw [List.append_assoc] at h
  simp only [List.cons_append, List.nil_append] at h
  rw [show (((A ++ [x]).length : Nat) : Int) = (A.length : Int) + 1 by simp] at h
  rw [h]
  simp only [Except.ok.injEq, Prod.mk.injEq, true_and]
  omega

theorem convertBjl_decodes_patched (toBil : Bool) (d : Design) (hb : List Nat)
    (hhb : hb.length = 4) (hnice : NiceDoc d = true) :
    convertBjlToJsonFromBytes (docEncPatched toBil d hb) =
      .ok { d with Data := reduceIf toBil d.Data } := by
  obtain ⟨⟨hv3, hv32⟩, hg4, hg3, hctrl, hcc, hhc, hfl, hfc, hsl, hss, hwsl, hvar,
    hvc, hdn, hol, hos⟩ := NiceDoc_parts d hnice
  have hsp : scriptsParse (writeScriptsRaw d.LayoutHeader.DesignerScript d.Variants) =
      .ok d.LayoutHeader.DesignerScript :=
    scriptsParse_raw _ _ hsl (fun v hv => (niceVariant_parts v (hvar v hv)).1)
      (fun s hs => by have := hss s hs; omega) hvc
  have hinv : (_collectStringsInOrder d.Data ⟨[], []⟩).cache =
      enumFrom 0 (_collectStringsInOrder d.Data ⟨[], []⟩).order :=
    collect_inv d.Data ⟨[], []⟩ rfl
  have hcov : d.Data.covered (_collectStringsInOrder d.Data ⟨[], []⟩).cache = true :=
    collect_complete d.Data ⟨[], []⟩ _ hdn (fun s hs => hs)
  unfold convertBjlToJsonFromBytes docEncPatched
  simp only [List.append_assoc]
  rw [← List.append_assoc]
  rw [_readLayoutHeader_enc d.LayoutHeader d.Variants hb _ hhb hv3 hv32 hg4 hg3
    (fun c hc => by obtain ⟨p1, -, p2, -, p3, -⟩ := hctrl c hc; exact ⟨p1, p2, p3⟩)
    (fun c hc => by obtain ⟨-, l1, -, l2, -, l3⟩ := hctrl c hc; exact ⟨l1, l2, l3⟩)
    hcc hhc hfl hfc hsp hwsl]
  dsimp only [Bind.bind, Except.bind]
  rw [if_neg (by omega : ¬ d.LayoutHeader.Version < 3)]
  rw [bodyEnc]
  simp only [List.append_assoc]
  rw [show (8 : Int) + ((headerBodyEnc d.LayoutHeader d.Variants).length : Int) =
    (((int4 d.LayoutHeader.Version ++ hb ++
      headerBodyEnc d.LayoutHeader d.Variants).length : Nat) : Int) by
      simp [int4_length, hhb]
      omega]
  rw [← List.append_assoc, ← List.append_assoc, ← List.append_assoc]
  rw [_loadStringsCache_tableEnc (_collectStringsInOrder d.Data ⟨[], []⟩).order _ _ hol hos]
  dsimp only
  rw [len_after_chunk _ (tableEnc (_collectStringsInOrder d.Data ⟨[], []⟩).order)]
  rw [← List.append_assoc]
  rw [readInt_int4_id _ _ _ (by push_cast; omega)]
  dsimp only
  rw [Int.toNat_natCast]
  rw [len_after_int4 _ ((d.Variants.length : Nat) : Int)]
  rw [← List.append_assoc]
  rw [variantsLoop_enc d.Variants _ _ [] hvar]
  dsimp only
  rw [len_after_chunk _ (variantsEnc d.Variants)]
  rw [← List.append_assoc]
  rw [_readMap_mapEnc toBil (_collectStringsInOrder d.Data ⟨[], []⟩).cache
    (_collectStringsInOrder d.Data ⟨[], []⟩).order hinv hol d.Data _ _ .nil _ _ hdn hcov
    (by
      have hle := mapFuel_le_enc toBil (_collectStringsInOrder d.Data ⟨[], []⟩).cache d.Data
      simp only [List.length_append]
      omega)
    (by intro k hk; simp [TMap.keys] at hk)
    (by
      intro f acc'
      rw [← List.append_assoc]
      exact readMap_sentinel _ _ _ f acc' hol)]
  dsimp only
  rw [appendM_nil_left]
  rw [show (5 : Int) = ((sentinelEnc.length : Nat) : Int) from rfl]
  rw [len_after_chunk _ sentinelEnc]
  rw [← List.append_assoc, ← List.append_assoc]
  rw [readInt_int4_id _ _ 0 (by omega)]
  dsimp only
  rw [len_after_int4 _ (0 : Int)]
  rw [readSignedByte_at]
  dsimp only
  rw [readSignedByte_at2]
  dsimp only
  simp only [List.nil_append]
  cases hfa : d.FontAwesome <;> cases hmi : d.MaterialIcons <;>
    simp [hfa, hmi, toInt8]

/-! # The claims -/

theorem set_go_collapse (k : JStr) (v : TVal) : ∀ m : TMap, k ∈ m.keys →
    (TMap.set.go k v m).keys = m.keys ∧ (TMap.set.go k v m).lookup k = some v
  | .nil, h => by simp [TMap.keys] at h
  | .cons k' v' r, h => by
    by_cases hk : k' = k
    · subst hk
      simp [TMap.set.go, TMap.keys, TMap.lookup]
    · have hr : k ∈ r.keys := by
        rw [TMap.keys] at h
        rcases List.mem_cons.mp h with h | h
        · exact absurd h.symm hk
        · exact h
      obtain ⟨ih1, ih2⟩ := set_go_collapse k v r hr
      simp only [TMap.set.go]
      rw [if_neg hk]
      simp [TMap.keys, TMap.lookup, ih1, ih2, hk]

set_option maxRecDepth 100000 in
/-- C1 counterexample: the buffer `bufGS0` decodes to the document `dGS0`
with `GridSize = 0` and no Null/Rect values, yet re-encoding and re-decoding
that document does not give it back — the encoder's `GridSize || 10`
fallback turns the falsy grid size into 10. -/
theorem C1_counterexample :
    convertBjlToJsonFromBytes bufGS0 = .ok dGS0 ∧
    dGS0.Data.noNullRect = true ∧
    (convertJsonToBjlToBytes false dGS0).bind convertBjlToJsonFromBytes ≠ .ok dGS0 := by
  refine ⟨by decide, by decide, by decide⟩

/-- C1 (amended): for every well-formed document — decoder-accepted version,
truthy grid size (pinned to 10 below version 4), proper bounded strings,
one script per variant plus the general one, counts in `int32` range —
`convertJsonToBjlToBytes` (reduced/bil mode off) followed by
`convertBjlToJsonFromBytes` returns exactly the document: same header
fields, variants, body map contents and order, and both flag bytes. -/
theorem C1_roundtrip (d : Design) (h : NiceDoc d = true) :
    (convertJsonToBjlToBytes false d).bind convertBjlToJsonFromBytes = .ok d := by
  rw [convertJsonToBjlToBytes_enc false d h]
  rw [show (Except.ok (docEnc false d) : Except Err (List Nat)).bind convertBjlToJsonFromBytes =
    convertBjlToJsonFromBytes (docEnc false d) from rfl]
  rw [docEnc_eq_patched]
  rw [convertBjl_decodes_patched false d _ (int4_length _) h]
  rw [show reduceIf false d.Data = d.Data from rfl]

set_option maxRecDepth 100000 in
/-- C1 witness: the sample document `doc1` is well-formed and round-trips. -/
theorem C1_roundtrip_witness :
    NiceDoc doc1 = true ∧
    (convertJsonToBjlToBytes false doc1).bind convertBjlToJsonFromBytes = .ok doc1 :=
  ⟨by decide, C1_roundtrip doc1 (by decide)⟩

/-- C2: a buffer whose first four bytes little-endian-encode an integer
below 3 fails with `UnsupportedVersion`, whatever bytes follow — the trailing
bytes `B` are universally quantified, so no byte beyond the version field is
interpreted. -/
theorem C2_version_gate (v : Int) (B : List Nat) (h1 : -2147483648 ≤ v) (h2 : v < 3) :
    convertBjlToJsonFromBytes (int4 v ++ B) = .error .unsupportedVersion := by
  unfold convertBjlToJsonFromBytes _readLayoutHeader
  rw [show (0 : Int) = ((([] : List Nat).length : Nat) : Int) from rfl]
  rw [show int4 v ++ B = [] ++ int4 v ++ B by simp]
  rw [readInt_int4_id _ _ _ ⟨h1, by omega⟩]
  dsimp only [Bind.bind, Except.bind]
  rw [if_pos h2]
  dsimp only
  rw [if_pos h2]

/-- C2 witness: version 2 with arbitrary trailing bytes. -/
theorem C2_version_gate_witness :
    (-2147483648 : Int) ≤ 2 ∧ (2 : Int) < 3 ∧
    convertBjlToJsonFromBytes (int4 2 ++ [170, 170, 170]) = .error .unsupportedVersion :=
  ⟨by norm_num, by norm_num, C2_version_gate 2 [170, 170, 170] (by norm_num) (by norm_num)⟩

/-- C3 counterexample: `readBytes` does not fail past the end of the buffer —
requesting 1 byte from the empty buffer returns the clamped empty slice and
moves the cursor to 1 (JS `slice` clamps; the source has no bounds check
there). -/
theorem C3_counterexample : readBytes [] 0 1 = ([], 1) := by decide

/-- C3 (amended): the `DataView`-backed reads fail with `OutOfBounds`
whenever the bytes they request extend past the end of the buffer: the
one-byte reads (`readByte`, `readSignedByte`) whenever `off + 1` exceeds
the length, the four-byte reads (`readInt`, `readFloat`) whenever `off + 4`
does — including the partial-window cases with 1 to 3 bytes remaining.
`readBytes` alone clamps instead of failing (see the counterexample). -/
theorem C3_dataview_oob (buf : List Nat) (off : Int) :
    ((buf.length : Int) < off + 1 →
      readByte buf off = .error .outOfBounds ∧
      readSignedByte buf off = .error .outOfBounds) ∧
    ((buf.length : Int) < off + 4 →
      readInt buf off = .error .outOfBounds ∧
      readFloat buf off = .error .outOfBounds) := by
  refine ⟨fun h => ⟨?_, ?_⟩, fun h => ⟨?_, ?_⟩⟩
  · unfold readByte
    rw [if_neg (by omega)]
  · unfold readSignedByte
    rw [if_neg (by omega)]
  · unfold readInt
    rw [if_neg (by omega)]
  · unfold readFloat
    rw [if_neg (by omega)]

/-- C3 witness: on the one-byte buffer `[7]` at offset 0 — a genuine partial
window, three bytes short — both four-byte reads fail; on the empty buffer
at offset 0 both one-byte reads fail. -/
theorem C3_dataview_oob_witness :
    ((([7] : List Nat).length : Int) < 0 + 4 ∧
      readInt [7] 0 = .error .outOfBounds ∧ readFloat [7] 0 = .error .outOfBounds) ∧
    ((([] : List Nat).length : Int) < 0 + 1 ∧
      readByte [] 0 = .error .outOfBounds ∧ readSignedByte [] 0 = .error .outOfBounds) :=
  ⟨⟨by norm_num, (C3_dataview_oob [7] 0).2 (by norm_num)⟩,
   ⟨by norm_num, (C3_dataview_oob [] 0).1 (by norm_num)⟩⟩

set_option maxRecDepth 100000 in
/-- C4 counterexample: the buffer `bufDup` writes the key `"k"` twice
(`k := 10`, `k2 := 30`, `k := 20`), but the decoded body holds only two
entries — the second write of `"k"` overwrote the first in place instead of
being preserved in sequence (JS object assignment collapses duplicates). -/
theorem C4_counterexample :
    convertBjlToJsonFromBytes bufDup = .ok dDup ∧ dDup.Data.size = 2 := by
  refine ⟨by decide, by decide⟩

/-- C4 (amended): a duplicate key never extends the decoded map — `map[key] =
value` on a key already present overwrites the value at the first
occurrence's position, keeping the key sequence unchanged; encoding then
iterates that sequence in insertion order. -/
theorem C4_duplicate_key_collapse (m : TMap) (k : JStr) (v : TVal)
    (hk : k ∈ m.keys) (hp : k ≠ protoKey) :
    (m.set k v).keys = m.keys ∧ (m.set k v).lookup k = some v := by
  unfold TMap.set
  rw [if_neg hp]
  exact set_go_collapse k v m hk

/-- C4 witness: overwriting the first of two keys. -/
theorem C4_duplicate_key_collapse_witness :
    strBytes "k" ∈ (TMap.cons (strBytes "k") (.vInt 10)
      (.cons (strBytes "k2") (.vInt 30) .nil)).keys ∧
    strBytes "k" ≠ protoKey ∧
    ((TMap.cons (strBytes "k") (.vInt 10) (.cons (strBytes "k2") (.vInt 30) .nil)).set
        (strBytes "k") (.vInt 20)).keys =
      (TMap.cons (strBytes "k") (.vInt 10) (.cons (strBytes "k2") (.vInt 30) .nil)).keys ∧
    ((TMap.cons (strBytes "k") (.vInt 10) (.cons (strBytes "k2") (.vInt 30) .nil)).set
        (strBytes "k") (.vInt 20)).lookup (strBytes "k") = some (.vInt 20) := by
  refine ⟨by decide, by decide, ?_⟩
  exact C4_duplicate_key_collapse _ _ _ (by decide) (by decide)

/-- C5: a body stream holding the wire form of a well-formed covered map,
then a further key and a tag byte outside {1,2,3,4,5,6,7,9,11,12}, decodes
without error: `_readMap` stops at the unknown tag and returns exactly the
entries read before it. -/
theorem C5_unknown_tag (order : List JStr) (cache : List (JStr × Nat)) (m : TMap)
    (k : JStr) (t : Nat) (B : List Nat) (fuel : Nat)
    (hinv : cache = enumFrom 0 order) (horder : order.length < 2147483648)
    (hm : m.nice = true) (hmc : m.covered cache = true)
    (hk : cache.isEmpty = true ∨ (cache.lookup k).isSome = true)
    (hkl : k.length < 2147483648)
    (ht : toInt8 t ∉ ([1, 2, 3, 4, 5, 6, 7, 9, 11, 12] : List Int))
    (hfuel : m.mapFuel ≤ fuel) :
    _readMap order (mapEnc false cache m ++ keyEnc cache k ++ (t :: B)) fuel 0 .nil =
      .ok (m, ((mapEnc false cache m).length : Int) +
        ((keyEnc cache k).length : Int) + 1) := by
  rw [show (0 : Int) = ((([] : List Nat).length : Nat) : Int) from rfl]
  rw [show mapEnc false cache m ++ keyEnc cache k ++ (t :: B) =
    [] ++ mapEnc false cache m ++ (keyEnc cache k ++ (t :: B)) by simp [List.append_assoc]]
  rw [_readMap_mapEnc false cache order hinv horder m [] _ .nil fuel
    (((([] ++ mapEnc false cache m).length : Nat) : Int) +
      ((keyEnc cache k).length : Int) + 1)
    hm hmc (by rw [show reduceIf false m = m from rfl]; exact hfuel)
    (by intro k' hk'; simp [TMap.keys] at hk')
    (by
      intro f acc'
      rw [← List.append_assoc]
      exact readMap_unknownTag cache order hinv horder ([] ++ mapEnc false cache m) B k t
        acc' f hk hkl ht)]
  rw [show reduceIf false m = m from rfl, appendM_nil_left]
  simp

/-- C5 witness: one integer entry, then a key and the unknown tag 200. -/
theorem C5_unknown_tag_witness :
    toInt8 200 ∉ ([1, 2, 3, 4, 5, 6, 7, 9, 11, 12] : List Int) ∧
    _readMap [] (mapEnc false [] (.cons (strBytes "a") (.vInt 7) .nil) ++
        keyEnc [] (strBytes "b") ++ (200 :: [])) 2 0 .nil =
      .ok (.cons (strBytes "a") (.vInt 7) .nil,
        ((mapEnc false [] (.cons (strBytes "a") (.vInt 7) .nil)).length : Int) +
          ((keyEnc [] (strBytes "b")).length : Int) + 1) :=
  ⟨by decide, C5_unknown_tag [] [] (.cons (strBytes "a") (.vInt 7) .nil) (strBytes "b")
    200 [] 2 rfl (by decide) (by decide) (by decide) (Or.inl (by decide)) (by decide)
    (by decide) (by decide)⟩

/-- C6: when the length-prefixed script block cannot be decompressed
(`ungzip` fails) or its decompressed bytes do not parse, `_readScripts`
still succeeds, returns the empty script list, and leaves the cursor right
after the block — the failure is never propagated. -/
theorem C6_corrupt_scripts (A B block : List Nat) (hblen : block.length < 2147483648)
    (hbad : ungzipC block = none ∨
      ∃ dec e, ungzipC block = some dec ∧ scriptsParse dec = .error e) :
    _readScripts (A ++ int4 ((block.length : Nat) : Int) ++ block ++ B) (A.length : Int) =
      .ok ([], (A.length : Int) + 4 + (block.length : Int)) := by
  rcases hbad with hu | ⟨dec, e, hu, hp⟩
  · exact _readScripts_corrupt A B block hu hblen
  · unfold _readScripts
    rw [show A ++ int4 ((block.length : Nat) : Int) ++ block ++ B =
      A ++ int4 ((block.length : Nat) : Int) ++ (block ++ B) by simp [List.append_assoc]]
    rw [readInt_int4_id _ _ _ (by omega)]
    dsimp only [Bind.bind, Except.bind]
    rw [len_after_int4 A ((block.length : Nat) : Int)]
    rw [show A ++ int4 ((block.length : Nat) : Int) ++ (block ++ B) =
      (A ++ int4 ((block.length : Nat) : Int)) ++ block ++ B by simp [List.append_assoc]]
    rw [readBytes_at]
    rw [hu]
    dsimp only
    rw [hp]

/-- C6 witness: a two-byte block that is not a gzip stream. -/
theorem C6_corrupt_scripts_witness :
    ungzipC [0, 0] = none ∧
    _readScripts ([] ++ int4 ((([0, 0] : List Nat).length : Nat) : Int) ++ [0, 0] ++ [])
        (([] : List Nat).length : Int) =
      .ok ([], ((([] : List Nat).length : Int) + 4 + (([0, 0] : List Nat).length : Int))) :=
  ⟨by decide, C6_corrupt_scripts [] [] [0, 0] (by decide) (Or.inl (by decide))⟩

set_option maxRecDepth 100000 in
/-- C7 counterexample: the body of `doc7` holds one entry under the key
`"toString"`, an `Object.prototype` member name, so the collection pass
collects nothing (`key in cache` is already true); with the cache empty,
`_writeCachedString` silently falls back to a raw string write and the
encode succeeds — no `CacheMiss`. -/
theorem C7_counterexample :
    (_collectStringsInOrder doc7.Data ⟨[], []⟩).order = [] ∧
    doc7.Data.size = 1 ∧
    (convertJsonToBjlToBytes false doc7).toOption.isSome = true := by
  refine ⟨by decide, by decide, by decide⟩

/-- C7 (amended): once the collection pass has put at least one string in
the cache, writing any string the cache does not hold fails with
`CacheMiss`; only the empty-cache fallback (and the `Object.prototype`
names that keep strings out of the cache) escapes the check. -/
theorem C7_cachemiss (out : List Nat) (cache : List (JStr × Nat)) (s : JStr)
    (hne : cache.isEmpty = false) (hmiss : cache.lookup s = none) :
    _writeCachedString out cache s = .error .cacheMiss := by
  unfold _writeCachedString
  rw [if_neg (by simp [hne])]
  rw [hmiss]

/-- C7 witness: a one-entry cache and a string it does not hold. -/
theorem C7_cachemiss_witness :
    ([(strBytes "a", 0)] : List (JStr × Nat)).isEmpty = false ∧
    ([(strBytes "a", 0)] : List (JStr × Nat)).lookup (strBytes "b") = none ∧
    _writeCachedString [] [(strBytes "a", 0)] (strBytes "b") = .error .cacheMiss :=
  ⟨by decide, by decide, C7_cachemiss [] [(strBytes "a", 0)] (strBytes "b")
    (by decide) (by decide)⟩

/-- C8: encoding a well-formed document with reduced/bil mode on and
decoding the result yields the document with its body replaced by its
reduced form — `TMap.bilReduce` drops exactly the `Null`- and `Rect`-tagged
entries, at every nesting level, and keeps every other entry with its value
in order; encoding itself does not fail. -/
theorem C8_reduced_mode (d : Design) (h : NiceDoc d = true) :
    (convertJsonToBjlToBytes true d).bind convertBjlToJsonFromBytes =
      .ok { d with Data := d.Data.bilReduce } := by
  rw [convertJsonToBjlToBytes_enc true d h]
  rw [show (Except.ok (docEnc true d) : Except Err (List Nat)).bind convertBjlToJsonFromBytes =
    convertBjlToJsonFromBytes (docEnc true d) from rfl]
  rw [docEnc_eq_patched]
  rw [convertBjl_decodes_patched true d _ (int4_length _) h]
  rw [show reduceIf true d.Data = d.Data.bilReduce from rfl]

set_option maxRecDepth 100000 in
/-- C8 witness: `doc8` holds a `Null`, a `Rect` and a nested `Null`; its
reduced round trip keeps exactly the other entries. -/
theorem C8_reduced_mode_witness :
    NiceDoc doc8 = true ∧
    (convertJsonToBjlToBytes true doc8).bind convertBjlToJsonFromBytes =
      .ok { doc8 with Data := doc8.Data.bilReduce } ∧
    doc8.Data.bilReduce = .cons (strBytes "x") (.vInt 1)
      (.cons (strBytes "m") (.vMap (.cons (strBytes "y") (.vBool false) .nil)) .nil) :=
  ⟨by decide, C8_reduced_mode doc8 (by decide), by decide⟩

/-- C9: a Color payload decodes to the `0x`-prefixed uppercase hex string the
decoder builds (`strBytes "0x" ++ _hexFromBytes bs`), and encoding that
string (`_hexToBytes` of everything after the `0x`) writes back the original
bytes, for every 4-byte (indeed any) payload of genuine bytes. -/
theorem C9_color_roundtrip (bs : List Nat) (h : ∀ b ∈ bs, b < 256) :
    _hexToBytes ((strBytes "0x" ++ _hexFromBytes bs).drop 2) = bs := by
  have hdrop : (strBytes "0x" ++ _hexFromBytes bs).drop 2 = _hexFromBytes bs := by
    rw [show strBytes "0x" = [48, 120] from rfl]
    simp
  rw [hdrop]
  exact hexToBytes_hexFromBytes bs h

/-- C9 witness: the payload `[0x1A, 0x2B, 0x3C, 0x4D]` renders as
`"0x1A2B3C4D"` and encodes back to the identical bytes. -/
theorem C9_color_roundtrip_witness :
    (∀ b ∈ ([26, 43, 60, 77] : List Nat), b < 256) ∧
    strBytes "0x" ++ _hexFromBytes [26, 43, 60, 77] = strBytes "0x1A2B3C4D" ∧
    _hexToBytes ((strBytes "0x" ++ _hexFromBytes [26, 43, 60, 77]).drop 2) =
      [26, 43, 60, 77] :=
  ⟨by decide, by decide, C9_color_roundtrip [26, 43, 60, 77] (by decide)⟩

set_option maxRecDepth 100000 in
/-- C10 counterexample: `bufC10a` and `bufC10b` differ only in the four
HeaderByteLen bytes (positions 4–7), yet one decodes successfully and the
other fails: a file entry with length `-20` makes `readBytes` move the
cursor back into those bytes, so their values reach later reads. -/
theorem C10_counterexample :
    bufC10a = int4 3 ++ [0, 0, 0, 0] ++ c10tail ∧
    bufC10b = int4 3 ++ [1, 0, 0, 0] ++ c10tail ∧
    (convertBjlToJsonFromBytes bufC10a).toOption.isSome = true ∧
    convertBjlToJsonFromBytes bufC10b = .error .outOfBounds := by
  refine ⟨rfl, rfl, by decide, by decide⟩

/-- C10 (amended): on encoder-produced buffers the HeaderByteLen field is
dead — for every well-formed document, decoding the encoder's output with
its four header-size bytes replaced by any four bytes gives the same
result, whichever four bytes are used. -/
theorem C10_header_len_ignored (toBil : Bool) (d : Design) (hb hb' : List Nat)
    (h1 : hb.length = 4) (h2 : hb'.length = 4) (h : NiceDoc d = true) :
    convertBjlToJsonFromBytes (docEncPatched toBil d hb) =
      convertBjlToJsonFromBytes (docEncPatched toBil d hb') := by
  rw [convertBjl_decodes_patched toBil d hb h1 h,
    convertBjl_decodes_patched toBil d hb' h2 h]

set_option maxRecDepth 100000 in
/-- C10 witness: patching `doc1`'s header-size bytes to `9,9,9,9` leaves the
decode unchanged. -/
theorem C10_header_len_ignored_witness :
    ([0, 0, 0, 0] : List Nat).length = 4 ∧ ([9, 9, 9, 9] : List Nat).length = 4 ∧
    NiceDoc doc1 = true ∧
    convertBjlToJsonFromBytes (docEncPatched false doc1 [0, 0, 0, 0]) =
      convertBjlToJsonFromBytes (docEncPatched false doc1 [9, 9, 9, 9]) :=
  ⟨rfl, rfl, by decide, C10_header_len_ignored false doc1 [0, 0, 0, 0] [9, 9, 9, 9]
    rfl rfl (by decide)⟩
